import Mathlib

/-!
# CheatCode pipeline — shallow embedding

A shallow embedding of the job state machine and incremental processing
pipeline of the CheatCode repository (`src/status.py`, `src/database.py`,
`src/papers.py`, `src/processor.py`, `src/space_uploader.py`), together with
theorems settling the specification claims about it.

Modelling conventions:
* ISO timestamps produced by `datetime.now()` are modelled as the ticks of a
  strictly monotone clock (`Nat`); every call of `datetime.now()` consumes one
  tick, so distinct calls yield distinct values, as wall-clock time does.
* Python dicts with a fixed key set are modelled as structures.  Keys that a
  step record may lack (`repos_found`, …) are modelled as fields holding their
  Python default-on-read (`.get(…, 0)` etc.), so absent key = default value.
* External collaborators (network fetch, `git clone`, the claude CLI, the
  gradio generator, the Space uploader, environment configuration) are
  parameters of the pipeline, collected in an `Env` structure, fixed for the
  duration of a run.  `hashlib.sha256(...).hexdigest()` is likewise a
  deterministic external function and is passed as a parameter `sha`.
* A run records an `Event` for every invocation of an external collaborator
  and for every `save_database` call; `Event.stageRun` marks the invocation of
  a stage executor on an entity.  Claims about "no clone", "persist after each
  repository", "re-dispatches stage X" are read off this trace.
* `save_database(database)` persists the whole in-memory store.  Because the
  Python code mutates paper dicts that are aliased inside the store, every
  save in the embedding first writes the current paper value back into the
  store (`saveWith`), which is exactly what the aliasing achieves.
-/

namespace CheatCode

/-- Step statuses (`status.py`, class `StepStatus`). -/
inductive StepStatus
  | pending
  | in_progress
  | completed
  | error
  | skipped
deriving DecidableEq, Repr

/-- Whole-entity processing statuses (`status.py`, class `ProcessingStatus`). -/
inductive ProcStatus
  | pending
  | extracting_links
  | links_extracted
  | analyzing_repos
  | repos_analyzed
  | initializing_claude
  | claude_initialized
  | generating_gradio
  | gradio_generated
  | uploading_spaces
  | completed
  | error
deriving DecidableEq, Repr

/-- Repository clone statuses (`status.py`, class `RepoStatus`). -/
inductive RepoStatus
  | pending
  | cloning
  | cloned
  | error
deriving DecidableEq, Repr

/-- A per-step record (`init_paper_entry` in `status.py`).  The step-specific
counter keys of the various steps are modelled as always-present fields whose
initial values are the Python dict defaults. -/
structure StepRec where
  status : StepStatus := .pending
  startedAt : Option Nat := none
  completedAt : Option Nat := none
  error : Option String := none
  reposFound : Nat := 0
  reposCloned : Nat := 0
  reposInitialized : Nat := 0
  claudeAvailable : Bool := false
  reposGenerated : Nat := 0
  appsCreated : Nat := 0
  spacesCreated : Nat := 0
  spacesFailed : Nat := 0
  spaceUrls : List String := []
deriving DecidableEq, Repr

/-- The fixed step-name set of `processing_steps`. -/
inductive StepName
  | link_extraction
  | repo_analysis
  | claude_init
  | gradio_generation
  | space_upload
deriving DecidableEq, Repr

/-- The `processing_steps` mapping: one record per fixed step name. -/
structure Steps where
  link_extraction : StepRec := {}
  repo_analysis : StepRec := {}
  claude_init : StepRec := {}
  gradio_generation : StepRec := {}
  space_upload : StepRec := {}
deriving DecidableEq, Repr

def Steps.get (s : Steps) : StepName → StepRec
  | .link_extraction => s.link_extraction
  | .repo_analysis => s.repo_analysis
  | .claude_init => s.claude_init
  | .gradio_generation => s.gradio_generation
  | .space_upload => s.space_upload

def Steps.set (s : Steps) : StepName → StepRec → Steps
  | .link_extraction, r => { s with link_extraction := r }
  | .repo_analysis, r => { s with repo_analysis := r }
  | .claude_init, r => { s with claude_init := r }
  | .gradio_generation, r => { s with gradio_generation := r }
  | .space_upload, r => { s with space_upload := r }

/-- The `links` mapping with its fixed category set. -/
structure Links where
  code_repositories : List String := []
  model_weights : List String := []
  datasets : List String := []
  demo_links : List String := []
  paper_links : List String := []
deriving DecidableEq, Repr

/-- Per-repository `claude_init` sub-record (written in
`process_claude_initialization`, `papers.py`). -/
structure ClaudeInitRec where
  attempted : Bool := false
  success : Bool := false
  claude_available : Bool := false
  claude_md_exists : Bool := false
  claude_md_path : Option String := none
  error : Option String := none
  initialized_at : Option Nat := none
deriving DecidableEq, Repr

/-- Per-repository `gradio_generation` sub-record (written in
`process_gradio_generation`, `papers.py`). -/
structure GradioGenRec where
  attempted : Bool := false
  success : Bool := false
  app_created : Bool := false
  readme_updated : Bool := false
  app_path : Option String := none
  readme_path : Option String := none
  error : Option String := none
  generated_at : Option Nat := none
deriving DecidableEq, Repr

/-- Per-repository `space_upload` sub-record: the result dict of
`upload_to_space` (`space_uploader.py`). -/
structure SpaceUploadRec where
  success : Bool := false
  space_url : Option String := none
  space_id : Option String := none
  error : Option String := none
deriving DecidableEq, Repr

/-- A repository sub-entity (built by `clone_repository` in `repos.py` and
extended by the later stages).  The optional sub-records model the keys that
are only added once the corresponding stage has attempted the repository. -/
structure RepoRec where
  url : String
  status : RepoStatus := .error
  clone_path : Option String := none
  cloned_at : Option Nat := none
  error : Option String := none
  has_code : Bool := false
  languages : List String := []
  claudeInit : Option ClaudeInitRec := none
  gradioGen : Option GradioGenRec := none
  spaceUpload : Option SpaceUploadRec := none
deriving DecidableEq, Repr

/-- An entity of the store (a paper or manually submitted URL). -/
structure Paper where
  paper_id : String
  title : String
  processing_status : ProcStatus := .pending
  created_at : Nat := 0
  updated_at : Nat := 0
  source_url : Option String := none
  entry_type : Option String := none
  steps : Steps := {}
  links : Links := {}
  repositories : List RepoRec := []
deriving DecidableEq, Repr

/-- `init_paper_entry` (`status.py`): a fresh entry; `created_at` and
`updated_at` are two consecutive `datetime.now()` calls. -/
def init_paper_entry (pid title : String) (tick : Nat) : Paper × Nat :=
  ({ paper_id := pid, title := title, processing_status := .pending,
     created_at := tick, updated_at := tick + 1,
     steps := {}, links := {}, repositories := [] }, tick + 2)

/-- The status/timestamp part of `update_step_status` (`status.py`): set the
status; stamp `started_at` on a first transition into `in_progress`; stamp
`completed_at` on every transition into `completed` or `error`.  Returns the
new record together with the clock (a `datetime.now()` call is made only in
the branches that store a timestamp). -/
def applyStatusStamp (r : StepRec) (status : StepStatus) (tick : Nat) :
    StepRec × Nat :=
  let r := { r with status := status }
  if status = .in_progress then
    match r.startedAt with
    | none => ({ r with startedAt := some tick }, tick + 1)
    | some _ => (r, tick)
  else if status = .completed ∨ status = .error then
    ({ r with completedAt := some tick }, tick + 1)
  else (r, tick)

/-- `update_step_status` (`status.py`): refresh the paper's `updated_at`,
update the named step record, and record the error message when one is given
(`if error:` — absent message modelled as `none`). -/
def update_step_status (p : Paper) (name : StepName) (status : StepStatus)
    (err : Option String) (tick : Nat) : Paper × Nat :=
  let p := { p with updated_at := tick }
  let tick := tick + 1
  let rt := applyStatusStamp (p.steps.get name) status tick
  let r := match err with
    | some e => { rt.1 with error := some e }
    | none => rt.1
  ({ p with steps := p.steps.set name r }, rt.2)

/-! ## Pipeline state, events and external collaborators -/

/-- A pipeline stage, used to mark which stage executor was invoked. -/
inductive Stage
  | link_extraction
  | repo_analysis
  | claude_init
  | gradio_generation
  | space_upload
deriving DecidableEq, Repr

/-- Observable events of a run: each invocation of an external collaborator
and each `save_database` call.  `stageRun s pid` marks that the stage executor
for stage `s` was dispatched for entity `pid`. -/
inductive Event
  | stageRun (s : Stage) (pid : String)
  | fetchPage (pid : String)
  | fetchManualUrl (url : String)
  | clone (url : String)
  | claudeInitCall (url : String)
  | gradioGenCall (url : String)
  | uploadCall (url : String)
  | save
deriving DecidableEq, Repr

/-- The in-memory run state: the store (`database['papers']`), the clock, and
the event trace accumulated so far. -/
structure PState where
  db : List Paper
  tick : Nat
  events : List Event
deriving DecidableEq, Repr

def emit (e : Event) (st : PState) : PState :=
  { st with events := st.events ++ [e] }

/-- Look up the (first) paper with a given id, as
`{p.get("paper_id"): p for p in database["papers"]}` does for unique ids. -/
def findPaper (db : List Paper) (pid : String) : Option Paper :=
  db.find? (fun p => p.paper_id = pid)

/-- Write a paper value back into the store, replacing the first entry with
its id (the aliasing of Python dicts inside `database['papers']` means the
stored entry is always the current object). -/
def setPaper (db : List Paper) (pid : String) (p : Paper) : List Paper :=
  match db with
  | [] => [p]
  | q :: rest =>
      if q.paper_id = pid then p :: rest else q :: setPaper rest pid p

/-- `save_database` after mutations of paper `p`: the store holds the current
value of `p` (by aliasing) and the whole store is written out. -/
def saveWith (st : PState) (p : Paper) : PState :=
  emit .save { st with db := setPaper st.db p.paper_id p }

/-- `update_step_status` lifted to the run state (the clock is threaded). -/
def updStep (st : PState) (p : Paper) (n : StepName) (s : StepStatus)
    (e : Option String) : Paper × PState :=
  ((update_step_status p n s e st.tick).1,
   { st with tick := (update_step_status p n s e st.tick).2 })

/-- Outcome of one `git clone` attempt, as observed by `clone_repository`
(`repos.py`): the URL fails to parse as a GitHub URL, the subprocess fails
(timeout / non-zero exit), or the clone succeeds and the local probes report a
clone path, a `has_code` verdict and a language census. -/
inductive CloneOutcome
  | invalidUrl
  | failed (err : String)
  | ok (path : String) (has_code : Bool) (langs : List String)
deriving DecidableEq, Repr

/-- Result dict of `initialize_repository` (`claude_init.py`), as consumed by
`process_claude_initialization`. -/
structure InitResult where
  attempted : Bool := false
  success : Bool := false
  claude_available : Bool := false
  claude_md_exists : Bool := false
  claude_md_path : Option String := none
  error : Option String := none
deriving DecidableEq, Repr

/-- Result dict of `generate_gradio_app` (`gradio_generator.py`), as consumed
by `process_gradio_generation`. -/
structure GenResult where
  attempted : Bool := false
  success : Bool := false
  app_created : Bool := false
  readme_updated : Bool := false
  app_path : Option String := none
  readme_path : Option String := none
  error : Option String := none
deriving DecidableEq, Repr

/-- Result of `extract_links_from_html` (`papers.py`): either the categorized
links, or an error marker (`"error" in extracted_links`). -/
inductive ExtractResult
  | ok (links : Links)
  | err (msg : String)
deriving DecidableEq, Repr

/-- The external collaborators and ambient configuration of one run, fixed for
its duration ("no external-state changes"). -/
structure Env where
  /-- `fetch_daily_papers`: the discovered `(paper_id, title)` list. -/
  daily_papers : List (String × String)
  /-- `fetch_paper_page`: page HTML for a paper id, or `none` on error. -/
  fetch_paper_page : String → Option String
  /-- `get_session().get(url)` in `process_manual_url`: page HTML, or the
  text of the raised exception. -/
  fetch_url : String → Except String String
  /-- `extract_links_from_html` (pure in the page content). -/
  extract_links : String → ExtractResult
  /-- `git clone` on one URL (folds in `extract_github_info`, pure in url). -/
  clone : String → CloneOutcome
  /-- `check_claude_available()`. -/
  claude_path : Option String
  /-- `get_claude_auto_install()`. -/
  claude_auto_install : Bool
  /-- `initialize_repository` on one cloned repository. -/
  init_repo : RepoRec → InitResult
  /-- `generate_gradio_app` on one initialized repository. -/
  gen_app : RepoRec → GenResult
  /-- `validate_space_upload_config()`: `(is_valid, error_message)`. -/
  space_cfg : Bool × String
  /-- `upload_to_space` on one repository. -/
  upload : RepoRec → SpaceUploadRec

/-- `clone_repository` (`repos.py`): builds the repository record for one
URL.  On an unparsable URL the initial `status: error` record is returned; on
a subprocess failure the status was already set to `cloning` and stays there;
on success the record is completed with a `cloned_at` timestamp and the
results of the local code probes. -/
def clone_repository (env : Env) (url : String) (tick : Nat) :
    RepoRec × Nat :=
  match env.clone url with
  | .invalidUrl =>
      ({ url := url, status := .error, error := some "Not a valid GitHub URL" },
       tick)
  | .failed e =>
      ({ url := url, status := .cloning, error := some e }, tick)
  | .ok path has_code langs =>
      ({ url := url, status := .cloned, clone_path := some path,
         cloned_at := some tick, has_code := has_code, languages := langs },
       tick + 1)

/-! ## Stage executors (`papers.py`) -/

/-- Replace the first repository entry with the given URL (the update loop in
`process_repositories`, lines 353–357). -/
def replaceFirstByUrl (l : List RepoRec) (url : String) (r : RepoRec) :
    List RepoRec :=
  match l with
  | [] => []
  | x :: rest =>
      if x.url = url then r :: rest else x :: replaceFirstByUrl rest url r

/-- Apply a function to the named step record, without touching timestamps
(the direct dict writes such as
`paper_entry['processing_steps']['repo_analysis']['repos_found'] = …`). -/
def setStepRec (p : Paper) (n : StepName) (f : StepRec → StepRec) : Paper :=
  { p with steps := p.steps.set n (f (p.steps.get n)) }

/-- The per-URL loop of `process_repositories`: a URL whose entry is already
`cloned` is counted and skipped; otherwise the repository is cloned, the entry
is replaced (or appended) and the whole store is saved. -/
def reposLoop (env : Env) :
    List String → Nat → Paper → PState → Nat × Paper × PState
  | [], acc, p, st => (acc, p, st)
  | url :: rest, acc, p, st =>
      match (p.repositories.find? (fun r => r.url = url)) with
      | some r =>
          if r.status = .cloned then reposLoop env rest (acc + 1) p st
          else
            let st := emit (.clone url) st
            let ct := clone_repository env url st.tick
            let st := { st with tick := ct.2 }
            let p := { p with
              repositories := replaceFirstByUrl p.repositories url ct.1 }
            let acc := if ct.1.status = .cloned then acc + 1 else acc
            let st := saveWith st p
            reposLoop env rest acc p st
      | none =>
          let st := emit (.clone url) st
          let ct := clone_repository env url st.tick
          let st := { st with tick := ct.2 }
          let p := { p with repositories := p.repositories ++ [ct.1] }
          let acc := if ct.1.status = .cloned then acc + 1 else acc
          let st := saveWith st p
          reposLoop env rest acc p st

/-- The opening of the nonempty-list branch of `process_repositories`: mark
the entity as analyzing, set the step in progress and record `repos_found`
(`papers.py` 329–331). -/
def repoAnalysisPrep (p : Paper) (st : PState) : Paper × PState :=
  let p := { p with processing_status := ProcStatus.analyzing_repos }
  let x := updStep st p .repo_analysis .in_progress none
  (setStepRec x.1 .repo_analysis
    (fun r => { r with reposFound := p.links.code_repositories.length }),
   x.2)

/-- The close of the nonempty-list branch: record `repos_cloned`, complete
the step, set the aggregate status and save (`papers.py` 367–371). -/
def repoAnalysisFinish (y : Nat × Paper × PState) : Nat × Paper × PState :=
  let p := setStepRec y.2.1 .repo_analysis
    (fun r => { r with reposCloned := y.1 })
  let z := updStep y.2.2 p .repo_analysis .completed none
  let p := { z.1 with processing_status := ProcStatus.repos_analyzed }
  (y.1, p, saveWith z.2 p)

/-- The nonempty-list branch of `process_repositories`: mark in progress,
record `repos_found`, run the clone loop, record `repos_cloned`, complete. -/
def repoAnalysisRun (env : Env) (p : Paper) (st : PState) :
    Nat × Paper × PState :=
  repoAnalysisFinish
    (reposLoop env (repoAnalysisPrep p st).1.links.code_repositories 0
      (repoAnalysisPrep p st).1 (repoAnalysisPrep p st).2)

/-- `process_repositories` (`papers.py` 306–374). -/
def processRepositories (env : Env) (p : Paper) (st : PState) :
    Nat × Paper × PState :=
  let st := emit (.stageRun .repo_analysis p.paper_id) st
  if p.links.code_repositories.isEmpty then
    let x := updStep st p .repo_analysis .skipped none
    let p := setStepRec x.1 .repo_analysis
      (fun r => { r with reposFound := 0, reposCloned := 0 })
    (0, p, saveWith x.2 p)
  else
    repoAnalysisRun env p st

/-- The per-repository loop of `process_claude_initialization`; `done` is the
already-traversed prefix of the `repositories` list. -/
def claudeLoop (env : Env) :
    List RepoRec → List RepoRec → Paper → PState → Nat → Nat × Paper × PState
  | _, [], p, st, acc => (acc, p, st)
  | done, r :: todo, p, st, acc =>
      if r.status ≠ .cloned then claudeLoop env (done ++ [r]) todo p st acc
      else if (r.claudeInit.map (fun c => c.success)).getD false then
        claudeLoop env (done ++ [r]) todo p st (acc + 1)
      else
        let st := emit (.claudeInitCall r.url) st
        let res := env.init_repo r
        let iat : Option Nat × Nat :=
          if res.success then (some st.tick, st.tick + 1) else (none, st.tick)
        let ci : ClaudeInitRec :=
          { attempted := res.attempted, success := res.success,
            claude_available := res.claude_available,
            claude_md_exists := res.claude_md_exists,
            claude_md_path := res.claude_md_path, error := res.error,
            initialized_at := iat.1 }
        let r' := { r with claudeInit := some ci }
        let st := { st with tick := iat.2 }
        let p := { p with repositories := done ++ r' :: todo }
        let acc := if res.success then acc + 1 else acc
        let st := saveWith st p
        claudeLoop env (done ++ [r']) todo p st acc

/-- The in-progress body of `process_claude_initialization` (the branch that
runs the per-repository loop); `p` is the paper after the `claude_available`
write, `st` the state after the dispatch marker. -/
def claudeInitRun (env : Env) (p : Paper) (st : PState) :
    Nat × Paper × PState :=
  let p := { p with processing_status := ProcStatus.initializing_claude }
  let x := updStep st p .claude_init .in_progress none
  let y := claudeLoop env [] x.1.repositories x.1 x.2 0
  let p := setStepRec y.2.1 .claude_init
    (fun r => { r with reposInitialized := y.1 })
  let z := updStep y.2.2 p .claude_init .completed none
  let p := { z.1 with processing_status := ProcStatus.claude_initialized }
  (y.1, p, saveWith z.2 p)

/-- `process_claude_initialization` (`papers.py` 377–466). -/
def processClaudeInit (env : Env) (p : Paper) (st : PState) :
    Nat × Paper × PState :=
  let st := emit (.stageRun .claude_init p.paper_id) st
  let cloned := p.repositories.filter (fun r => r.status = .cloned)
  if cloned.isEmpty then
    let x := updStep st p .claude_init .skipped none
    let p := setStepRec x.1 .claude_init
      (fun r => { r with reposInitialized := 0 })
    (0, p, saveWith x.2 p)
  else
    let claude_available := env.claude_path.isSome
    let p := setStepRec p .claude_init
      (fun r => { r with claudeAvailable := claude_available })
    if ¬claude_available ∧ ¬env.claude_auto_install then
      let x := updStep st p .claude_init .skipped
        (some "Claude CLI not found")
      let p := setStepRec x.1 .claude_init
        (fun r => { r with reposInitialized := 0 })
      (0, p, saveWith x.2 p)
    else
      claudeInitRun env p st

/-- The per-repository loop of `process_gradio_generation`. -/
def gradioLoop (env : Env) (claude_path : String) :
    List RepoRec → List RepoRec → Paper → PState → Nat → Nat × Paper × PState
  | _, [], p, st, acc => (acc, p, st)
  | done, r :: todo, p, st, acc =>
      if ¬r.has_code then gradioLoop env claude_path (done ++ [r]) todo p st acc
      else if ¬((r.claudeInit.map (fun c => c.success)).getD false) then
        gradioLoop env claude_path (done ++ [r]) todo p st acc
      else if (r.gradioGen.map (fun g => g.success)).getD false then
        gradioLoop env claude_path (done ++ [r]) todo p st (acc + 1)
      else
        let st := emit (.gradioGenCall r.url) st
        let res := env.gen_app r
        let gat : Option Nat × Nat :=
          if res.success then (some st.tick, st.tick + 1) else (none, st.tick)
        let gg : GradioGenRec :=
          { attempted := res.attempted, success := res.success,
            app_created := res.app_created, readme_updated := res.readme_updated,
            app_path := res.app_path, readme_path := res.readme_path,
            error := res.error, generated_at := gat.1 }
        let r' := { r with gradioGen := some gg }
        let st := { st with tick := gat.2 }
        let p := { p with repositories := done ++ r' :: todo }
        let acc := if res.success then acc + 1 else acc
        let st := saveWith st p
        gradioLoop env claude_path (done ++ [r']) todo p st acc

/-- The in-progress body of `process_gradio_generation`: mark in progress,
run the per-repository loop, record the counters, complete. -/
def gradioGenRun (env : Env) (cpath : String) (p : Paper) (st : PState) :
    Nat × Paper × PState :=
  let p := { p with processing_status := ProcStatus.generating_gradio }
  let x := updStep st p .gradio_generation .in_progress none
  let y := gradioLoop env cpath [] x.1.repositories x.1 x.2 0
  let p := setStepRec y.2.1 .gradio_generation
    (fun r => { r with
      reposGenerated := (p.repositories.filter
        (fun r => (r.claudeInit.map (fun c => c.success)).getD false)).length,
      appsCreated := y.1 })
  let z := updStep y.2.2 p .gradio_generation .completed none
  let p := { z.1 with processing_status := ProcStatus.gradio_generated }
  (y.1, p, saveWith z.2 p)

/-- `process_gradio_generation` (`papers.py` 469–563). -/
def processGradioGen (env : Env) (p : Paper) (st : PState) :
    Nat × Paper × PState :=
  let st := emit (.stageRun .gradio_generation p.paper_id) st
  let initialized := p.repositories.filter
    (fun r => (r.claudeInit.map (fun c => c.success)).getD false)
  if initialized.isEmpty then
    let x := updStep st p .gradio_generation .skipped none
    let p := setStepRec x.1 .gradio_generation
      (fun r => { r with reposGenerated := 0, appsCreated := 0 })
    (0, p, saveWith x.2 p)
  else
    match env.claude_path with
    | none =>
        let x := updStep st p .gradio_generation .skipped
          (some "Claude CLI not found")
        let p := setStepRec x.1 .gradio_generation
          (fun r => { r with reposGenerated := 0, appsCreated := 0 })
        (0, p, saveWith x.2 p)
    | some cpath => gradioGenRun env cpath p st

/-- The per-repository loop of `process_space_uploads`
(`space_uploader.py` 577–648): only cloned repositories with code are
uploaded; each repo entry gains its `space_upload` result.  No per-repository
save happens in this loop.  Returns `(created, failed, urls)`. -/
def uploadLoop (env : Env) :
    List RepoRec → List RepoRec → Paper → PState → Nat → Nat → List String →
    Nat × Nat × List String × Paper × PState
  | _, [], p, st, created, failed, urls => (created, failed, urls, p, st)
  | done, r :: todo, p, st, created, failed, urls =>
      if r.status ≠ .cloned then
        uploadLoop env (done ++ [r]) todo p st created failed urls
      else if ¬r.has_code then
        uploadLoop env (done ++ [r]) todo p st created failed urls
      else
        let st := emit (.uploadCall r.url) st
        let res := env.upload r
        let r' := { r with spaceUpload := some res }
        let p := { p with repositories := done ++ r' :: todo }
        if res.success then
          uploadLoop env (done ++ [r']) todo p st (created + 1) failed
            (urls ++ (res.space_url.map (fun u => [u])).getD [])
        else
          uploadLoop env (done ++ [r']) todo p st created (failed + 1) urls

/-- The in-progress body of `process_space_upload`: mark in progress, run the
upload loop (`process_space_uploads`), record the summary counters, and set
the step to `error` when all uploads failed, `completed` otherwise. -/
def spaceUploadRun (env : Env) (p : Paper) (st : PState) :
    Nat × Paper × PState :=
  let p := { p with processing_status := ProcStatus.uploading_spaces }
  let x := updStep st p .space_upload .in_progress none
  let total := x.1.repositories.length
  let y := uploadLoop env [] x.1.repositories x.1 x.2 0 0 []
  let created := y.1
  let failed := y.2.1
  let urls := y.2.2.1
  let p := setStepRec y.2.2.2.1 .space_upload
    (fun r => { r with spacesCreated := created, spacesFailed := failed,
                       spaceUrls := urls })
  let st := y.2.2.2.2
  if failed > 0 ∧ created = 0 then
    let z := updStep st p .space_upload .error
      (some ("All " ++ toString failed ++ " uploads failed"))
    let p := { z.1 with processing_status := ProcStatus.error }
    (created, p, saveWith z.2 p)
  else if failed > 0 then
    let z := updStep st p .space_upload .completed
      (some (toString failed ++ " of " ++ toString total ++
             " uploads failed"))
    let p := { z.1 with processing_status := ProcStatus.completed }
    (created, p, saveWith z.2 p)
  else
    let z := updStep st p .space_upload .completed none
    let p := { z.1 with processing_status := ProcStatus.completed }
    (created, p, saveWith z.2 p)

/-- `process_space_upload` (`papers.py` 566–654), with the inner
`process_space_uploads` loop inlined. -/
def processSpaceUpload (env : Env) (p : Paper) (st : PState) :
    Nat × Paper × PState :=
  let st := emit (.stageRun .space_upload p.paper_id) st
  if ¬env.space_cfg.1 then
    let x := updStep st p .space_upload .skipped (some env.space_cfg.2)
    let p := setStepRec x.1 .space_upload
      (fun r => { r with spacesCreated := 0, spacesFailed := 0, spaceUrls := [] })
    (0, p, saveWith x.2 p)
  else
    let withApps := p.repositories.filter
      (fun r => (r.gradioGen.map (fun g => g.success)).getD false)
    if withApps.isEmpty then
      let x := updStep st p .space_upload .skipped
        (some "No apps to upload")
      let p := setStepRec x.1 .space_upload
        (fun r => { r with spacesCreated := 0, spacesFailed := 0,
                           spaceUrls := [] })
      (0, p, saveWith x.2 p)
    else
      spaceUploadRun env p st

/-! ## Pipeline orchestrator (`processor.py`) -/

/-- The stage-3→4→5 chain run after repositories were cloned
(`process_claude_initialization` → `process_gradio_generation` →
`process_space_upload`, threading the mutated paper). -/
def chainLater (env : Env) (p : Paper) (st : PState) : PState :=
  let a := processClaudeInit env p st
  let b := processGradioGen env a.2.1 a.2.2
  (processSpaceUpload env b.2.1 b.2.2).2.2

/-- The new-paper path of `extract_and_save_links` (lines 120–180): link
extraction, upsert + save, then stages 2–5 where stages 3–5 run only when
`repos_cloned_count > 0`.  `existing_ids` is the load-time id set, which
decides replace-vs-append on save. -/
def newPaperFlow (env : Env) (clone_repos : Bool) (existing_ids : List String)
    (paper_id title : String) (st : PState) : PState :=
  let st := emit (.stageRun .link_extraction paper_id) st
  let pt := init_paper_entry paper_id title st.tick
  let st := { st with tick := pt.2 }
  let p := { pt.1 with processing_status := .extracting_links }
  let x := updStep st p .link_extraction .in_progress none
  let p := x.1
  let st := emit (.fetchPage paper_id) x.2
  match env.fetch_paper_page paper_id with
  | none =>
      let p := { p with processing_status := .error }
      let z := updStep st p .link_extraction .error
        (some "Failed to fetch paper page")
      let st := { z.2 with db := z.2.db ++ [z.1] }
      emit .save st
  | some html =>
      let y :=
        match env.extract_links html with
        | .err m =>
            updStep st { p with processing_status := .error }
              .link_extraction .error (some m)
        | .ok links =>
            updStep st { p with links := links,
                                processing_status := .links_extracted }
              .link_extraction .completed none
      let p := y.1
      let st := y.2
      let st :=
        if paper_id ∈ existing_ids then
          { st with db := setPaper st.db paper_id p }
        else { st with db := st.db ++ [p] }
      let st := emit .save st
      if clone_repos ∧ p.processing_status ≠ ProcStatus.error then
        let w := processRepositories env p st
        if w.1 > 0 then chainLater env w.2.1 w.2.2 else w.2.2
      else st

/-- One iteration of the loop of `extract_and_save_links` (lines 56–180): the
resume logic for an already-seen entity, falling back to the new-paper flow
when the entity is unseen or its link extraction is not `completed`. -/
def processOnePaper (env : Env) (clone_repos : Bool)
    (existing_ids : List String) (st : PState) (pt : String × String) :
    PState :=
  let paper_id := pt.1
  let title := pt.2
  if paper_id ∈ existing_ids then
    match findPaper st.db paper_id with
    | some ep =>
        if (ep.steps.get .link_extraction).status = .completed then
          if clone_repos then
            let ra := (ep.steps.get .repo_analysis).status
            let ci := (ep.steps.get .claude_init).status
            if ra ≠ .completed ∧ ra ≠ .in_progress then
              let w := processRepositories env ep st
              if w.1 > 0 then chainLater env w.2.1 w.2.2 else w.2.2
            else if ci ≠ .completed ∧ ci ≠ .skipped then
              chainLater env ep st
            else
              let gg := (ep.steps.get .gradio_generation).status
              if gg ≠ .completed ∧ gg ≠ .skipped then
                let b := processGradioGen env ep st
                (processSpaceUpload env b.2.1 b.2.2).2.2
              else
                let su := (ep.steps.get .space_upload).status
                if su ≠ .completed ∧ su ≠ .skipped then
                  (processSpaceUpload env ep st).2.2
                else st
          else st
        else newPaperFlow env clone_repos existing_ids paper_id title st
    | none => newPaperFlow env clone_repos existing_ids paper_id title st
  else newPaperFlow env clone_repos existing_ids paper_id title st

/-- `extract_and_save_links` (`processor.py` 17–197), the batch entry point.
The returned state's `db` is the persisted store after the run (every
mutation is followed by a save).  The human-readable summary string is not
modelled. -/
def extract_and_save_links (env : Env) (clone_repos : Bool) (st : PState) :
    PState :=
  if env.daily_papers.isEmpty then st
  else
    let existing_ids := st.db.map (fun p => p.paper_id)
    env.daily_papers.foldl (processOnePaper env clone_repos existing_ids) st

/-! ## Manual URL processing and id generation (`processor.py`) -/

/-- Leftmost-match helpers for the `re.search` calls of
`generate_id_from_url`: `matchLit lit cs` matches a literal at the current
position and returns the remainder. -/
def matchLit : List Char → List Char → Option (List Char)
  | [], rest => some rest
  | _, [] => none
  | l :: ls, c :: cs => if c = l then matchLit ls cs else none

/-- Attempt of `huggingface\.co/papers/(\d+\.\d+)` at the current position:
the literal, then a maximal nonempty digit run, a dot, and a second maximal
nonempty digit run (the greedy match of the regex). -/
def paperIdAt (cs : List Char) : Option (List Char) :=
  match matchLit "huggingface.co/papers/".data cs with
  | none => none
  | some rest =>
      let d1 := rest.takeWhile Char.isDigit
      if d1.isEmpty then none
      else
        match rest.dropWhile Char.isDigit with
        | '.' :: r2 =>
            let d2 := r2.takeWhile Char.isDigit
            if d2.isEmpty then none else some (d1 ++ '.' :: d2)
        | _ => none

/-- Attempt of `huggingface\.co/spaces/([^/]+/[^/?#]+)` at the current
position. -/
def spaceIdAt (cs : List Char) : Option (List Char) :=
  match matchLit "huggingface.co/spaces/".data cs with
  | none => none
  | some rest =>
      let owner := rest.takeWhile (fun c => c != '/')
      if owner.isEmpty then none
      else
        match rest.dropWhile (fun c => c != '/') with
        | '/' :: r2 =>
            let name := r2.takeWhile (fun c => c != '/' && c != '?' && c != '#')
            if name.isEmpty then none else some (owner ++ '/' :: name)
        | _ => none

/-- Attempt of `huggingface\.co/([^/]+/[^/?#]+)(?:/|$)` at the current
position: as the space pattern, but the group must be followed by `/` or the
end of the string. -/
def modelIdAt (cs : List Char) : Option (List Char) :=
  match matchLit "huggingface.co/".data cs with
  | none => none
  | some rest =>
      let owner := rest.takeWhile (fun c => c != '/')
      if owner.isEmpty then none
      else
        match rest.dropWhile (fun c => c != '/') with
        | '/' :: r2 =>
            let name := r2.takeWhile (fun c => c != '/' && c != '?' && c != '#')
            if name.isEmpty then none
            else
              match r2.dropWhile (fun c => c != '/' && c != '?' && c != '#') with
              | [] => some (owner ++ '/' :: name)
              | '/' :: _ => some (owner ++ '/' :: name)
              | _ => none
        | _ => none

/-- Attempt of `https?://(?:www\.)?([^/]+)` at the current position, with the
backtracking of the optional `www.` group when no host chars follow it. -/
def domainAt (cs : List Char) : Option (List Char) :=
  match matchLit "http".data cs with
  | none => none
  | some rest =>
      let after :=
        match rest with
        | 's' :: r => matchLit "://".data r
        | _ => matchLit "://".data rest
      match after with
      | none => none
      | some r2 =>
          match matchLit "www.".data r2 with
          | some r3 =>
              let g := r3.takeWhile (fun c => c != '/')
              if g.isEmpty then
                let g2 := r2.takeWhile (fun c => c != '/')
                if g2.isEmpty then none else some g2
              else some g
          | none =>
              let g := r2.takeWhile (fun c => c != '/')
              if g.isEmpty then none else some g

/-- `re.search`: try the pattern at each position, leftmost first. -/
def searchWith (f : List Char → Option (List Char)) :
    List Char → Option (List Char)
  | [] => f []
  | c :: cs =>
      match f (c :: cs) with
      | some g => some g
      | none => searchWith f cs

/-- Python's `needle in url` substring test. -/
def containsSub (needle : List Char) : List Char → Bool
  | [] => (matchLit needle []).isSome
  | c :: cs => (matchLit needle (c :: cs)).isSome || containsSub needle cs

/-- `generate_id_from_url` (`processor.py` 357–397).  `sha` is
`hashlib.sha256(url.encode()).hexdigest()`, a deterministic external
function passed as a parameter; the code keeps only its first 12 chars. -/
def generate_id_from_url (sha : String → String) (url : String) : String :=
  let cs := url.data
  match searchWith paperIdAt cs with
  | some g => String.mk g
  | none =>
      match searchWith spaceIdAt cs with
      | some g =>
          "space_" ++ String.mk (g.map (fun c => if c = '/' then '_' else c))
      | none =>
          let modelHit :=
            if containsSub "/spaces/".data cs || containsSub "/papers/".data cs
            then none else searchWith modelIdAt cs
          match modelHit with
          | some g =>
              "model_" ++
                String.mk (g.map (fun c => if c = '/' then '_' else c))
          | none =>
              let url_hash := (sha url).take 12
              match searchWith domainAt cs with
              | some g =>
                  "manual_" ++
                    String.mk
                      ((g.map (fun c => if c = '.' then '_' else c)).take 20) ++
                    "_" ++ url_hash
              | none => "manual_" ++ url_hash

/-- The outcome of `process_manual_url`, abstracting its status-message
return values. -/
inductive ManualResult
  | invalid (msg : String)
  | alreadyProcessed (pid : String)
  | fetchFailed (pid msg : String)
  | processed (pid title : String)
deriving DecidableEq, Repr

/-- The body of `process_manual_url` after the already-processed check: link
extraction from the fetched page, upsert + save, then stages 2–5. -/
def manualBody (env : Env) (clone_repos : Bool) (existing_ids : List String)
    (pid title url : String) (st : PState) : ManualResult × PState :=
  let st := emit (.stageRun .link_extraction pid) st
  let pt := init_paper_entry pid title st.tick
  let st := { st with tick := pt.2 }
  let p := { pt.1 with source_url := some url, entry_type := some "manual",
                       processing_status := .extracting_links }
  let x := updStep st p .link_extraction .in_progress none
  let p := x.1
  let st := emit (.fetchManualUrl url) x.2
  match env.fetch_url url with
  | .error e =>
      let msg := "Failed to fetch URL: " ++ e
      let z := updStep st { p with processing_status := .error }
        .link_extraction .error (some msg)
      let st := { z.2 with db := z.2.db ++ [z.1] }
      (.fetchFailed pid msg, emit .save st)
  | .ok html =>
      let y :=
        match env.extract_links html with
        | .err m =>
            updStep st { p with processing_status := .error }
              .link_extraction .error (some m)
        | .ok links =>
            updStep st { p with links := links,
                                processing_status := .links_extracted }
              .link_extraction .completed none
      let p := y.1
      let st := y.2
      let st :=
        if pid ∈ existing_ids then { st with db := setPaper st.db pid p }
        else { st with db := st.db ++ [p] }
      let st := emit .save st
      let st :=
        if clone_repos ∧ p.processing_status ≠ ProcStatus.error then
          let w := processRepositories env p st
          if w.1 > 0 then chainLater env w.2.1 w.2.2 else w.2.2
        else st
      (.processed pid title, st)

/-- Python's `str.strip()`: drop whitespace from both ends (structurally,
over the character list). -/
def pyStrip (s : String) : String :=
  String.mk (((s.data.dropWhile Char.isWhitespace).reverse.dropWhile
    Char.isWhitespace).reverse)

/-- Python's `str.startswith(pre)`. -/
def pyStartsWith (pre s : String) : Bool := pre.data.isPrefixOf s.data

/-- `process_manual_url` (`processor.py` 200–354): validation, id and title
generation, the already-processed short-circuit, then the processing body. -/
def process_manual_url (env : Env) (sha : String → String) (url0 : String)
    (title0 : Option String) (clone_repos : Bool) (st : PState) :
    ManualResult × PState :=
  if (pyStrip url0).isEmpty then (.invalid "Please provide a valid URL", st)
  else
    let url := pyStrip url0
    if ¬(pyStartsWith "http://" url ∨ pyStartsWith "https://" url) then
      (.invalid "URL must start with http:// or https://", st)
    else
      let pid := generate_id_from_url sha url
      let title :=
        match title0 with
        | some t =>
            if (pyStrip t).isEmpty then "Manual Entry: " ++ url
            else pyStrip t
        | none => "Manual Entry: " ++ url
      let existing_ids := st.db.map (fun p => p.paper_id)
      match findPaper st.db pid with
      | some ep =>
          if (ep.steps.get .link_extraction).status = .completed then
            (.alreadyProcessed pid, st)
          else manualBody env clone_repos existing_ids pid title url st
      | none => manualBody env clone_repos existing_ids pid title url st

/-! ## Retry of failed jobs (`processor.py` 400–495) -/

/-- Whether some processing step of the paper is in `error` status. -/
def hasErrorStep (p : Paper) : Bool :=
  [StepName.link_extraction, .repo_analysis, .claude_init,
   .gradio_generation, .space_upload].any
    (fun n => decide ((p.steps.get n).status = .error))

/-- Step 5 of the retry body (`processor.py` 482–485): the space-upload
stage is re-dispatched when its status is `error`, or `pending` with the
scan-time gradio status (`gradio_s`, read before a possible gradio retry)
`completed`. -/
def retrySpace (env : Env) (gradio_s : StepStatus) (c : Paper × PState) :
    PState :=
  let space_s := (c.1.steps.get .space_upload).status
  if space_s = .error ∨ (space_s = .pending ∧ gradio_s = .completed)
  then (processSpaceUpload env c.1 c.2).2.2
  else c.2

/-- Step 4 of the retry body (`processor.py` 476–479). -/
def retryGradio (env : Env) (claude_s : StepStatus) (b : Paper × PState) :
    PState :=
  let gradio_s := (b.1.steps.get .gradio_generation).status
  retrySpace env gradio_s
    (if gradio_s = .error ∨ (gradio_s = .pending ∧ claude_s = .completed)
     then (processGradioGen env b.1 b.2).2
     else b)

/-- Step 3 of the retry body (`processor.py` 470–473). -/
def retryClaude (env : Env) (repo_s : StepStatus) (a : Paper × PState) :
    PState :=
  let claude_s := (a.1.steps.get .claude_init).status
  retryGradio env claude_s
    (if claude_s = .error ∨ (claude_s = .pending ∧ repo_s = .completed)
     then (processClaudeInit env a.1 a.2).2
     else a)

/-- Steps 2–5 of the retry body (`processor.py` 463–485): the repository
stage is re-dispatched when its status is `error` or `pending` (with no
prerequisite check), then the later stages follow with their scan-time
guards. -/
def retryStages (env : Env) (p : Paper) (st : PState) : PState :=
  let repo_s := (p.steps.get .repo_analysis).status
  retryClaude env repo_s
    (if repo_s = .error ∨ repo_s = .pending
     then (processRepositories env p st).2
     else (p, st))

/-- The per-paper body of `retry_failed_jobs`: skip entirely when
`link_extraction` is in error; otherwise re-dispatch stages 2–5 under the
coded guards, each status read from the live paper at its check. -/
def retryOne (env : Env) (st : PState) (pid : String) : PState :=
  match findPaper st.db pid with
  | none => st
  | some p =>
      if (p.steps.get .link_extraction).status = .error then st
      else retryStages env p st

/-- `retry_failed_jobs` (`processor.py` 400–495). -/
def retry_failed_jobs (env : Env) (st : PState) : PState :=
  if st.db.isEmpty then st
  else
    let failed := st.db.filter
      (fun p => decide (p.processing_status = .error) || hasErrorStep p)
    if failed.isEmpty then st
    else (failed.map (fun p => p.paper_id)).foldl (retryOne env) st

/-- The stage-dispatch markers recorded for a given paper id, in order. -/
def stageRunsOf (pid : String) (l : List Event) : List Stage :=
  l.filterMap (fun e =>
    match e with
    | .stageRun s q => if q = pid then some s else none
    | _ => none)

/-- An event of a stage executor's body: a collaborator call or a save
(no dispatch marker, no page fetch). -/
def execEvent (e : Event) : Prop :=
  (∃ u, e = Event.clone u) ∨ (∃ u, e = Event.claudeInitCall u) ∨
  (∃ u, e = Event.gradioGenCall u) ∨ (∃ u, e = Event.uploadCall u) ∨
  e = Event.save

/-- An event a retry of paper `pid` may record: a dispatch marker for one of
stages 2–5 of that paper, or an executor event. -/
def retryTailOk (pid : String) (e : Event) : Prop :=
  (∃ s, (s = Stage.repo_analysis ∨ s = Stage.claude_init ∨
         s = Stage.gradio_generation ∨ s = Stage.space_upload) ∧
        e = Event.stageRun s pid) ∨ execEvent e

/-- The stages `retry_failed_jobs` re-dispatches for a failed paper, read off
the paper's step statuses at scan time (`processor.py` 446–485): nothing when
link extraction is in error; otherwise stages 2–5 in ascending order, each
under its coded guard — `repo_analysis` on `error` or `pending` with no
prerequisite check, and each later stage on `error`, or on `pending` with the
scan-time status of the preceding stage `completed`. -/
def retryDispatchPlan (p : Paper) : List Stage :=
  if (p.steps.get .link_extraction).status = .error then []
  else
    let repo_s := (p.steps.get .repo_analysis).status
    let claude_s := (p.steps.get .claude_init).status
    let gradio_s := (p.steps.get .gradio_generation).status
    let space_s := (p.steps.get .space_upload).status
    (if repo_s = .error ∨ repo_s = .pending then [Stage.repo_analysis]
     else []) ++
    (if claude_s = .error ∨ (claude_s = .pending ∧ repo_s = .completed)
     then [Stage.claude_init] else []) ++
    (if gradio_s = .error ∨ (gradio_s = .pending ∧ claude_s = .completed)
     then [Stage.gradio_generation] else []) ++
    (if space_s = .error ∨ (space_s = .pending ∧ gradio_s = .completed)
     then [Stage.space_upload] else [])

/-! ## Space-name sanitization (`space_uploader.py` 59–89) -/

/-- The char class `[a-z0-9-]` of the sanitization regex. -/
def spaceNameChar (c : Char) : Bool :=
  c.isLower || c.isDigit || c == '-'

/-- `re.sub(r'[^a-z0-9-]', '-', ·)` on one character. -/
def sanitizeChar (c : Char) : Char :=
  if spaceNameChar c then c else '-'

/-- `re.sub(r'-+', '-', ·)`: collapse runs of hyphens to a single hyphen. -/
def collapseHyphens : List Char → List Char
  | [] => []
  | [c] => [c]
  | a :: b :: rest =>
      if a = '-' ∧ b = '-' then collapseHyphens (b :: rest)
      else a :: collapseHyphens (b :: rest)

/-- `.rstrip('-')`: drop the maximal trailing run of hyphens. -/
def rstripHyphens : List Char → List Char
  | [] => []
  | c :: rest =>
      match rstripHyphens rest with
      | [] => if c == '-' then [] else [c]
      | r => c :: r

/-- `.strip('-')`: drop leading and trailing hyphens. -/
def stripHyphens (l : List Char) : List Char :=
  rstripHyphens (l.dropWhile (fun c => c == '-'))

/-- `sanitize_space_name` (`space_uploader.py` 59–89): lowercase, replace
chars outside `[a-z0-9-]` by hyphens, collapse hyphen runs, strip hyphens at
the ends, put the literal `SNIPED_` prefix in front, and truncate to the
96-char repo-name limit (re-stripping trailing hyphens).  `paper_suffix` is
computed by the source but unused in the current code path; `owner` is an
unused parameter. -/
def sanitize_space_name (repo_name owner paper_id : String) : String :=
  let clean_name :=
    stripHyphens (collapseHyphens ((repo_name.data.map Char.toLower).map
      sanitizeChar))
  let paper_suffix :=
    (paper_id.data.map (fun c => if c = '.' then '-' else c)).take 8
  let space_name := "SNIPED_".data ++ clean_name
  let space_name :=
    if space_name.length > 96 then rstripHyphens (space_name.take 96)
    else space_name
  let _ := owner
  let _ := paper_suffix
  String.mk space_name

/-! ## Entity store (`database.py`) -/

/-- What one `yaml.safe_load` call does on the file's content: raise a parse
error, or produce a value — `value none` models a falsy result (e.g. an empty
file parses to Python `None`), `value (some papers)` a parsed store. -/
inductive YamlLoad
  | raises (msg : String)
  | value (v : Option (List Paper))

/-- `load_database` (`database.py` 11–17).  The store document
`{"papers": […]}` is modelled by its papers list; `file` is the content of
`database.yaml` when the path exists.  The body runs
`yaml.safe_load(f) or {"papers": []}` with no exception handler, so a parse
error propagates to the caller (modelled by `Except.error`). -/
def load_database (file : Option String) (safe_load : String → YamlLoad) :
    Except String (List Paper) :=
  match file with
  | none => .ok []
  | some content =>
      match safe_load content with
      | .raises m => .error m
      | .value none => .ok []
      | .value (some d) => .ok d

/-! ## C8 — space-name sanitization -/

/-- Adjacent-hyphen freedom ("single hyphens"). -/
def noDoubleHyphen : List Char → Bool
  | [] => true
  | [_] => true
  | a :: b :: rest => !(a == '-' && b == '-') && noDoubleHyphen (b :: rest)

/-- No clone call occurs in an event list. -/
def NoClone (l : List Event) : Prop := ∀ u, Event.clone u ∉ l

/-- Concrete store entity for the witnesses: links extracted, repositories
analyzed, claude initialization still pending. -/
def paperC2 : Paper :=
  { paper_id := "2307.09288", title := "T",
    processing_status := .repos_analyzed,
    steps := { link_extraction := { status := .completed },
               repo_analysis := { status := .completed } } }

/-- Concrete environment for the witnesses: one discovered paper, a page
with no code-repository links, no claude CLI, space upload disabled. -/
def envC1 : Env :=
  { daily_papers := [("p1", "T")]
    fetch_paper_page := fun _ => some "html"
    fetch_url := fun _ => Except.error "boom"
    extract_links := fun _ => .ok {}
    clone := fun _ => .invalidUrl
    claude_path := none
    claude_auto_install := false
    init_repo := fun _ => {}
    gen_app := fun _ => {}
    space_cfg := (false, "Space upload is disabled")
    upload := fun _ => {} }

/-- As `envC1`, but discovering the already-stored paper of `paperC2`. -/
def envC2 : Env :=
  { envC1 with daily_papers := [("2307.09288", "T")] }

/-- The store entity of the C3 witness: fully processed. -/
def paperC3 : Paper :=
  { paperC2 with
    processing_status := .completed,
    steps := { link_extraction := { status := .completed },
               repo_analysis := { status := .completed },
               claude_init := { status := .skipped },
               gradio_generation := { status := .skipped },
               space_upload := { status := .skipped } } }

/-! ## C6 — step-record timestamp invariant -/

/-- A sequence of `update_step_status` calls on one step of a paper,
threading the clock. -/
def runUpdatesOn (n : StepName) :
    List (StepStatus × Option String) → Paper → Nat → Paper × Nat
  | [], p, tick => (p, tick)
  | (s, e) :: rest, p, tick =>
      let r := update_step_status p n s e tick
      runUpdatesOn n rest r.1 r.2

/-- A failed entity whose link extraction is still `in_progress` (neither
`completed` nor `error`) and whose later stages are `pending`. -/
def paperC4 : Paper :=
  { paper_id := "p1", title := "T", processing_status := .error,
    steps := { link_extraction := { status := .in_progress } } }

/-- Concrete environment for the retry theorems: no claude CLI, space
upload disabled, every collaborator inert. -/
def envC4 : Env :=
  { daily_papers := []
    fetch_paper_page := fun _ => none
    fetch_url := fun _ => Except.error "net"
    extract_links := fun _ => .ok {}
    clone := fun _ => .invalidUrl
    claude_path := none
    claude_auto_install := false
    init_repo := fun _ => {}
    gen_app := fun _ => {}
    space_cfg := (false, "Space upload is disabled")
    upload := fun _ => {} }

/-! ## C5 — repository-acquisition machinery -/

/-- Every clone event is immediately followed by a save event: the store is
persisted after each repository, not only at stage end. -/
def savedAfterEachClone (l : List Event) : Prop :=
  ∀ i u, l[i]? = some (Event.clone u) → l[i + 1]? = some Event.save

/-- A fresh entity listing one cloneable and one failing repository URL. -/
def paperC5 : Paper :=
  { paper_id := "p5", title := "T",
    links := { code_repositories := ["https://github.com/o/r1", "bad"] } }

/-- A repository record already cloned, for the skip path. -/
def recC5 : RepoRec :=
  { url := "https://github.com/o/r1", status := RepoStatus.cloned }

/-- An entity whose sole listed URL is already recorded as cloned. -/
def paperC5b : Paper :=
  { paper_id := "p5b", title := "T",
    links := { code_repositories := ["https://github.com/o/r1"] },
    repositories := [recC5] }

/-- Clones succeed for `r1` and fail otherwise; other collaborators inert. -/
def envC5 : Env :=
  { daily_papers := []
    fetch_paper_page := fun _ => none
    fetch_url := fun _ => Except.error "net"
    extract_links := fun _ => .ok {}
    clone := fun u =>
      if u = "https://github.com/o/r1" then .ok "/repos/o_r1" true ["Python"]
      else .failed "git clone failed"
    claude_path := none
    claude_auto_install := false
    init_repo := fun _ => {}
    gen_app := fun _ => {}
    space_cfg := (false, "Space upload is disabled")
    upload := fun _ => {} }

/-- Environment for the manual-submission witnesses: the page fetch and the
link extraction succeed with no links. -/
def envC9 : Env :=
  { daily_papers := []
    fetch_paper_page := fun _ => none
    fetch_url := fun _ => Except.ok "html"
    extract_links := fun _ => .ok {}
    clone := fun _ => .invalidUrl
    claude_path := none
    claude_auto_install := false
    init_repo := fun _ => {}
    gen_app := fun _ => {}
    space_cfg := (false, "Space upload is disabled")
    upload := fun _ => {} }

/-- A discovered entity for paper 2307.09288 with link extraction done. -/
def paperC10 : Paper :=
  { paper_id := "2307.09288", title := "T",
    processing_status := .completed,
    steps := { link_extraction := { status := .completed } } }

/-- Environment for the C10 witness; no collaborator is reached. -/
def envC10 : Env :=
  { daily_papers := []
    fetch_paper_page := fun _ => none
    fetch_url := fun _ => Except.error "net"
    extract_links := fun _ => .ok {}
    clone := fun _ => .invalidUrl
    claude_path := none
    claude_auto_install := false
    init_repo := fun _ => {}
    gen_app := fun _ => {}
    space_cfg := (false, "Space upload is disabled")
    upload := fun _ => {} }

theorem Steps.get_set_same (s : Steps) (n : StepName) (r : StepRec) :
    (s.set n r).get n = r := by
  cases n <;> rfl

theorem Steps.get_set_ne (s : Steps) (n m : StepName) (r : StepRec)
    (h : n ≠ m) : (s.set n r).get m = s.get m := by
  cases n <;> cases m <;> first
    | rfl
    | exact absurd rfl h

/-! ## C7 — entity store load behaviour -/

/-- C7, counterexample: when the persisted file exists but is unparsable
(content on which `yaml.safe_load` raises), `load_database` does not return
the empty collection — the parse error propagates to the caller, because the
body has no exception handler. -/
theorem load_database_raises_on_unparsable :
    load_database (some "[invalid yaml")
        (fun _ => YamlLoad.raises "yaml parse error") ≠
      Except.ok ([] : List Paper) ∧
    load_database (some "[invalid yaml")
        (fun _ => YamlLoad.raises "yaml parse error") =
      Except.error "yaml parse error" := by
  exact ⟨by simp [load_database], rfl⟩

/-- C7 (amended): `load()` returns the empty collection when the persisted
file is missing, and when the file exists but parses to a falsy value (e.g.
an empty file); when the file exists and YAML parsing fails, the error is
raised to the caller. -/
theorem load_database_missing_or_falsy :
    (∀ safe_load : String → YamlLoad, load_database none safe_load = .ok []) ∧
    (∀ (c : String) (safe_load : String → YamlLoad),
      safe_load c = .value none → load_database (some c) safe_load = .ok []) ∧
    (∀ (c m : String) (safe_load : String → YamlLoad),
      safe_load c = .raises m →
        load_database (some c) safe_load = .error m) := by
  refine ⟨fun _ => rfl, fun c safe_load h => ?_, fun c m safe_load h => ?_⟩ <;>
    simp [load_database, h]

/-- C7, witness: the amended load behaviour at concrete inputs. -/
theorem load_database_missing_or_falsy_witness :
    load_database none (fun _ => YamlLoad.value none) = .ok [] ∧
    load_database (some "") (fun _ => YamlLoad.value none) = .ok [] ∧
    load_database (some "[invalid yaml") (fun _ => YamlLoad.raises "e") =
      .error "e" :=
  ⟨load_database_missing_or_falsy.1 _,
   load_database_missing_or_falsy.2.1 "" _ rfl,
   load_database_missing_or_falsy.2.2 "[invalid yaml" "e" _ rfl⟩

theorem spaceNameChar_sanitizeChar (c : Char) :
    spaceNameChar (sanitizeChar c) = true := by
  by_cases h : spaceNameChar c = true
  · simp [sanitizeChar, h]
  · simp only [sanitizeChar, h, if_false, Bool.false_eq_true, if_neg,
      not_false_iff]
    decide

theorem all_map_sanitize (l : List Char) :
    (l.map sanitizeChar).all spaceNameChar = true := by
  induction l with
  | nil => rfl
  | cons c t ih => simp [List.all_cons, spaceNameChar_sanitizeChar, ih]

theorem collapseHyphens_head (l : List Char) :
    (collapseHyphens l).head? = l.head? := by
  induction l with
  | nil => rfl
  | cons a t ih =>
      cases t with
      | nil => rfl
      | cons b r =>
          rw [collapseHyphens]
          split
          · next h => rw [ih]; simp [h.1, h.2]
          · rfl

theorem collapseHyphens_sublist (l : List Char) :
    List.Sublist (collapseHyphens l) l := by
  induction l with
  | nil => simp [collapseHyphens]
  | cons a t ih =>
      cases t with
      | nil => simp [collapseHyphens]
      | cons b r =>
          rw [collapseHyphens]
          split
          · exact ih.cons _
          · exact ih.cons₂ _

theorem all_of_sublist {p : Char → Bool} {l₁ l₂ : List Char}
    (h : List.Sublist l₁ l₂) (h2 : l₂.all p = true) : l₁.all p = true := by
  rw [List.all_eq_true] at *
  exact fun x hx => h2 x (h.subset hx)

theorem noDouble_tail (x : Char) (l : List Char)
    (h : noDoubleHyphen (x :: l) = true) : noDoubleHyphen l = true := by
  cases l with
  | nil => rfl
  | cons y r =>
      rw [noDoubleHyphen, Bool.and_eq_true] at h
      exact h.2

theorem noDouble_collapseHyphens (l : List Char) :
    noDoubleHyphen (collapseHyphens l) = true := by
  induction l with
  | nil => rfl
  | cons a t ih =>
      cases t with
      | nil => rfl
      | cons b r =>
          rw [collapseHyphens]
          split
          · exact ih
          · next h =>
              have hh := collapseHyphens_head (b :: r)
              cases hcb : collapseHyphens (b :: r) with
              | nil => rfl
              | cons x xs =>
                  have hx : x = b := by
                    rw [hcb] at hh
                    simpa using hh
                  subst hx
                  rw [noDoubleHyphen, Bool.and_eq_true]
                  refine ⟨?_, by rw [← hcb]; exact ih⟩
                  by_cases ha : a = '-'
                  · by_cases hb : x = '-'
                    · exact absurd ⟨ha, hb⟩ h
                    · simp [hb]
                  · simp [ha]

theorem noDouble_append_left (a b : List Char)
    (h : noDoubleHyphen (a ++ b) = true) : noDoubleHyphen a = true := by
  induction a with
  | nil => rfl
  | cons x t ih =>
      cases t with
      | nil => rfl
      | cons y r =>
          rw [List.cons_append, List.cons_append, noDoubleHyphen,
            Bool.and_eq_true] at h
          rw [noDoubleHyphen, Bool.and_eq_true]
          exact ⟨h.1, ih (by rw [List.cons_append]; exact h.2)⟩

theorem noDouble_append_right (a b : List Char)
    (h : noDoubleHyphen (a ++ b) = true) : noDoubleHyphen b = true := by
  induction a with
  | nil => exact h
  | cons x t ih =>
      rw [List.cons_append] at h
      exact ih (noDouble_tail _ _ h)

theorem head_dropWhile_false {p : Char → Bool} (l : List Char) {c : Char}
    (h : (l.dropWhile p).head? = some c) : p c = false := by
  induction l with
  | nil => simp [List.dropWhile] at h
  | cons a t ih =>
      rw [List.dropWhile] at h
      split at h
      · exact ih h
      · next hp =>
          simp only [List.head?_cons, Option.some.injEq] at h
          subst h
          exact hp

theorem rstripHyphens_append_eq (l : List Char) :
    ∃ t, l = rstripHyphens l ++ t := by
  induction l with
  | nil => exact ⟨[], rfl⟩
  | cons c rest ih =>
      rw [rstripHyphens]
      cases hr : rstripHyphens rest with
      | nil =>
          by_cases hc : c = '-'
          · exact ⟨c :: rest, by simp [hc]⟩
          · exact ⟨rest, by simp [hc]⟩
      | cons x xs =>
          obtain ⟨t, ht⟩ := ih
          rw [hr] at ht
          exact ⟨t, by rw [ht]; rfl⟩

theorem rstripHyphens_last_ne (l : List Char) :
    (rstripHyphens l).getLast? ≠ some '-' := by
  induction l with
  | nil => simp [rstripHyphens]
  | cons c rest ih =>
      rw [rstripHyphens]
      cases hr : rstripHyphens rest with
      | nil =>
          by_cases hc : c = '-'
          · simp [hc]
          · simp [hc]
      | cons x xs =>
          rw [hr] at ih
          simpa [List.getLast?_cons_cons] using ih

theorem rstripHyphens_head (l : List Char) :
    (rstripHyphens l).head? = l.head? ∨ rstripHyphens l = [] := by
  cases l with
  | nil => exact Or.inr rfl
  | cons c rest =>
      rw [rstripHyphens]
      cases hr : rstripHyphens rest with
      | nil =>
          by_cases hc : c = '-'
          · right; simp [hc]
          · left; simp [hc]
      | cons x xs => exact Or.inl rfl

theorem rstripHyphens_append (a b : List Char) :
    rstripHyphens (a ++ b) =
      if rstripHyphens b = [] then rstripHyphens a else a ++ rstripHyphens b
    := by
  induction a with
  | nil =>
      cases h : rstripHyphens b with
      | nil => simp [h, rstripHyphens]
      | cons x xs => simp [h]
  | cons c t ih =>
      by_cases h : rstripHyphens b = []
      · rw [if_pos h]
        show rstripHyphens ((c :: t) ++ b) = rstripHyphens (c :: t)
        rw [List.cons_append, rstripHyphens, ih, if_pos h]
        rfl
      · rw [if_neg h]
        show rstripHyphens ((c :: t) ++ b) = (c :: t) ++ rstripHyphens b
        rw [List.cons_append, rstripHyphens, ih, if_neg h, List.cons_append]
        cases hx : t ++ rstripHyphens b with
        | nil => exact absurd (List.append_eq_nil.mp hx).2 h
        | cons u us => rfl

theorem rstripHyphens_sublist (l : List Char) :
    List.Sublist (rstripHyphens l) l := by
  obtain ⟨t, ht⟩ := rstripHyphens_append_eq l
  conv_rhs => rw [ht]
  exact List.sublist_append_left _ _

theorem dropWhile_sub (p : Char → Bool) (l : List Char) :
    List.Sublist (l.dropWhile p) l := by
  conv_rhs => rw [← List.takeWhile_append_dropWhile (p := p) (l := l)]
  exact List.sublist_append_right _ _

theorem take_sub (n : Nat) (l : List Char) : List.Sublist (l.take n) l := by
  conv_rhs => rw [← List.take_append_drop n l]
  exact List.sublist_append_left _ _

theorem head?_take_pos (l : List Char) (n : Nat) (h : n ≠ 0) :
    (l.take n).head? = l.head? := by
  cases l with
  | nil => simp
  | cons c t =>
      cases n with
      | zero => exact absurd rfl h
      | succ m => simp [List.take]

theorem rstrip_sniped (r : List Char) :
    rstripHyphens ("SNIPED_".data ++ r) = "SNIPED_".data ++ rstripHyphens r
    := by
  rw [rstripHyphens_append]
  by_cases h : rstripHyphens r = []
  · rw [if_pos h, h, List.append_nil]
    decide
  · rw [if_neg h]

/-- The properties of the normalized tail
`strip(collapse(map sanitize (lower s)))`. -/
theorem clean_name_good (s : List Char) :
    (stripHyphens (collapseHyphens (s.map sanitizeChar))).all spaceNameChar
        = true ∧
    noDoubleHyphen (stripHyphens (collapseHyphens (s.map sanitizeChar)))
        = true ∧
    (stripHyphens (collapseHyphens (s.map sanitizeChar))).head? ≠ some '-' ∧
    (stripHyphens (collapseHyphens (s.map sanitizeChar))).getLast? ≠ some '-'
    := by
  have base := all_map_sanitize s
  have hsubc := collapseHyphens_sublist (s.map sanitizeChar)
  have hallc := all_of_sublist hsubc base
  have hndc := noDouble_collapseHyphens (s.map sanitizeChar)
  refine ⟨?_, ?_, ?_, ?_⟩
  · exact all_of_sublist
      ((rstripHyphens_sublist _).trans (dropWhile_sub _ _)) hallc
  · have h1 : noDoubleHyphen ((collapseHyphens (s.map sanitizeChar)).dropWhile
        (fun c => c == '-')) = true :=
      noDouble_append_right _ _
        (by rw [List.takeWhile_append_dropWhile]; exact hndc)
    obtain ⟨t, ht⟩ := rstripHyphens_append_eq
      ((collapseHyphens (s.map sanitizeChar)).dropWhile (fun c => c == '-'))
    rw [stripHyphens]
    exact noDouble_append_left _ t (by rw [← ht]; exact h1)
  · rcases rstripHyphens_head ((collapseHyphens (s.map sanitizeChar)).dropWhile
        (fun c => c == '-')) with h | h
    · rw [stripHyphens, h]
      intro hc
      have := head_dropWhile_false _ hc
      simp at this
    · rw [stripHyphens, h]
      simp
  · exact rstripHyphens_last_ne _

/-- Defining equation of `sanitize_space_name`, with the dead lets removed. -/
theorem sanitize_space_name_eq (repo_name owner paper_id : String) :
    sanitize_space_name repo_name owner paper_id =
      String.mk (if ("SNIPED_".data ++ stripHyphens (collapseHyphens
          ((repo_name.data.map Char.toLower).map sanitizeChar))).length > 96
        then rstripHyphens (("SNIPED_".data ++ stripHyphens (collapseHyphens
          ((repo_name.data.map Char.toLower).map sanitizeChar))).take 96)
        else "SNIPED_".data ++ stripHyphens (collapseHyphens
          ((repo_name.data.map Char.toLower).map sanitizeChar))) := rfl

/-- C8, counterexample: the stage's identifier for repository name `"demo"`
is `"SNIPED_demo"`.  It begins with the literal `SNIPED_` prefix, whose
uppercase letters and underscore are neither lowercase alphanumerics nor
hyphens — the claim that the identifier contains only lowercase alphanumerics
and single hyphens is false. -/
theorem sanitize_space_name_not_all_lowercase :
    sanitize_space_name "demo" "acme" "2307.09288" = "SNIPED_demo" ∧
    ((sanitize_space_name "demo" "acme" "2307.09288").data.all
        spaceNameChar) = false := by
  exact ⟨rfl, by decide⟩

/-- C8 (amended): the publication-stage identifier is a deterministic
function of the repository name alone (owner and paper id do not influence
it, so the same repository name always yields the same identifier), equal to
the literal prefix `SNIPED_` followed by the lossy normalization of the
repository name — lowercase, characters outside `[a-z0-9-]` replaced by
hyphens, hyphen runs collapsed, hyphens stripped at the ends, truncated to
the 96-char limit with trailing hyphens re-stripped.  Only that tail after
the prefix consists of lowercase alphanumerics and single hyphens (with no
leading or trailing hyphen); the whole identifier does not, because of the
prefix. -/
theorem sanitize_space_name_amended
    (repo_name owner paper_id owner2 paper_id2 : String) :
    sanitize_space_name repo_name owner paper_id =
      sanitize_space_name repo_name owner2 paper_id2 ∧
    ∃ rest : List Char,
      (sanitize_space_name repo_name owner paper_id).data =
        "SNIPED_".data ++ rest ∧
      rest.all spaceNameChar = true ∧
      noDoubleHyphen rest = true ∧
      rest.head? ≠ some '-' ∧
      rest.getLast? ≠ some '-' := by
  constructor
  · rfl
  · obtain ⟨hall, hnd, hhd, hlast⟩ :=
      clean_name_good (repo_name.data.map Char.toLower)
    rw [sanitize_space_name_eq]
    by_cases hlen : ("SNIPED_".data ++ stripHyphens (collapseHyphens
        ((repo_name.data.map Char.toLower).map sanitizeChar))).length > 96
    · rw [if_pos hlen]
      refine ⟨rstripHyphens ((stripHyphens (collapseHyphens
        ((repo_name.data.map Char.toLower).map sanitizeChar))).take 89),
        ?_, ?_, ?_, ?_, ?_⟩
      · show rstripHyphens _ = _
        rw [List.take_append_eq_append_take]
        have h7 : ("SNIPED_".data.take 96) = "SNIPED_".data := by decide
        have h89 : 96 - "SNIPED_".data.length = 89 := by decide
        rw [h7, h89, rstrip_sniped]
      · exact all_of_sublist
          ((rstripHyphens_sublist _).trans (take_sub _ _)) hall
      · have h1 : noDoubleHyphen ((stripHyphens (collapseHyphens
            ((repo_name.data.map Char.toLower).map sanitizeChar))).take 89)
            = true :=
          noDouble_append_left _ _ (by rw [List.take_append_drop]; exact hnd)
        obtain ⟨t, ht⟩ := rstripHyphens_append_eq
          ((stripHyphens (collapseHyphens
            ((repo_name.data.map Char.toLower).map sanitizeChar))).take 89)
        exact noDouble_append_left _ _ (by rw [← ht]; exact h1)
      · rcases rstripHyphens_head ((stripHyphens (collapseHyphens
            ((repo_name.data.map Char.toLower).map sanitizeChar))).take 89)
            with h | h
        · rw [h, head?_take_pos _ _ (by simp)]
          exact hhd
        · rw [h]
          simp
      · exact rstripHyphens_last_ne _
    · rw [if_neg hlen]
      exact ⟨_, rfl, hall, hnd, hhd, hlast⟩

/-! ## Projection and trace lemmas for the stage executors -/

theorem updStep_db (st : PState) (p : Paper) (n : StepName) (s : StepStatus)
    (e : Option String) : (updStep st p n s e).2.db = st.db := rfl

theorem updStep_events (st : PState) (p : Paper) (n : StepName)
    (s : StepStatus) (e : Option String) :
    (updStep st p n s e).2.events = st.events := rfl

theorem saveWith_events (st : PState) (p : Paper) :
    (saveWith st p).events = st.events ++ [Event.save] := rfl

theorem saveWith_db (st : PState) (p : Paper) :
    (saveWith st p).db = setPaper st.db p.paper_id p := rfl

theorem emit_events (e : Event) (st : PState) :
    (emit e st).events = st.events ++ [e] := rfl

theorem update_step_status_fields (p : Paper) (n : StepName) (s : StepStatus)
    (e : Option String) (tick : Nat) :
    (update_step_status p n s e tick).1.paper_id = p.paper_id ∧
    (update_step_status p n s e tick).1.title = p.title ∧
    (update_step_status p n s e tick).1.links = p.links ∧
    (update_step_status p n s e tick).1.repositories = p.repositories ∧
    (update_step_status p n s e tick).1.processing_status
        = p.processing_status ∧
    (update_step_status p n s e tick).1.source_url = p.source_url ∧
    (update_step_status p n s e tick).1.entry_type = p.entry_type ∧
    (update_step_status p n s e tick).1.created_at = p.created_at := by
  cases e <;> simp [update_step_status]

theorem update_step_status_get_ne (p : Paper) (n m : StepName)
    (s : StepStatus) (e : Option String) (tick : Nat) (h : n ≠ m) :
    (update_step_status p n s e tick).1.steps.get m = p.steps.get m := by
  cases e <;> simp [update_step_status, Steps.get_set_ne _ _ _ _ h]

theorem setStepRec_fields (p : Paper) (n : StepName) (f : StepRec → StepRec) :
    (setStepRec p n f).paper_id = p.paper_id ∧
    (setStepRec p n f).title = p.title ∧
    (setStepRec p n f).links = p.links ∧
    (setStepRec p n f).repositories = p.repositories ∧
    (setStepRec p n f).processing_status = p.processing_status := by
  simp [setStepRec]

theorem setStepRec_get_same (p : Paper) (n : StepName) (f : StepRec → StepRec) :
    (setStepRec p n f).steps.get n = f (p.steps.get n) := by
  simp [setStepRec, Steps.get_set_same]

theorem setStepRec_get_ne (p : Paper) (n m : StepName) (f : StepRec → StepRec)
    (h : n ≠ m) : (setStepRec p n f).steps.get m = p.steps.get m := by
  simp [setStepRec, Steps.get_set_ne _ _ _ _ h]

theorem findPaper_setPaper (db : List Paper) (pid : String) (p : Paper)
    (hp : p.paper_id = pid) : findPaper (setPaper db pid p) pid = some p := by
  induction db with
  | nil => simp [setPaper, findPaper, List.find?, hp]
  | cons q rest ih =>
      by_cases h : q.paper_id = pid
      · simp [setPaper, h, findPaper, List.find?, hp]
      · simp only [setPaper, if_neg h]
        rw [findPaper] at ih ⊢
        simp [List.find?, h, ih]

/-- Compose an event-trace extension through an intermediate state. -/
theorem events_ext_compose {res st' st : PState} {P : Event → Prop}
    (h : ∃ t, res.events = st'.events ++ t ∧ ∀ e ∈ t, P e)
    (mid : List Event) (h1 : st'.events = st.events ++ mid)
    (hmid : ∀ e ∈ mid, P e) :
    ∃ t, res.events = st.events ++ t ∧ ∀ e ∈ t, P e := by
  obtain ⟨t, ht, hmem⟩ := h
  refine ⟨mid ++ t, by rw [ht, h1, List.append_assoc], ?_⟩
  intro e he
  rcases List.mem_append.mp he with h | h
  exacts [hmid e h, hmem e h]

/-- The claude-initialization loop changes only the `repositories` list of
the threaded paper. -/
theorem claudeLoop_paper (env : Env) (todo : List RepoRec) :
    ∀ (done : List RepoRec) (p : Paper) (st : PState) (acc : Nat),
      ((claudeLoop env done todo p st acc).2.1.paper_id,
       (claudeLoop env done todo p st acc).2.1.title,
       (claudeLoop env done todo p st acc).2.1.steps,
       (claudeLoop env done todo p st acc).2.1.processing_status) =
      (p.paper_id, p.title, p.steps, p.processing_status) := by
  induction todo with
  | nil => intro done p st acc; rfl
  | cons r rest ih =>
      intro done p st acc
      simp only [claudeLoop]
      by_cases h1 : r.status ≠ RepoStatus.cloned
      · rw [if_pos h1]; exact ih _ _ _ _
      · rw [if_neg h1]
        by_cases h2 : (r.claudeInit.map (fun c => c.success)).getD false = true
        · rw [if_pos h2]; exact ih _ _ _ _
        · rw [if_neg h2, ih]

/-- The events added by the claude-initialization loop are claude-CLI calls
and saves. -/
theorem claudeLoop_events (env : Env) (todo : List RepoRec) :
    ∀ (done : List RepoRec) (p : Paper) (st : PState) (acc : Nat),
      ∃ t, (claudeLoop env done todo p st acc).2.2.events = st.events ++ t ∧
        ∀ e ∈ t, (∃ u, e = Event.claudeInitCall u) ∨ e = Event.save := by
  induction todo with
  | nil =>
      intro done p st acc
      exact ⟨[], by simp [claudeLoop], by simp⟩
  | cons r rest ih =>
      intro done p st acc
      simp only [claudeLoop]
      by_cases h1 : r.status ≠ RepoStatus.cloned
      · rw [if_pos h1]; exact ih _ _ _ _
      · rw [if_neg h1]
        by_cases h2 : (r.claudeInit.map (fun c => c.success)).getD false = true
        · rw [if_pos h2]; exact ih _ _ _ _
        · rw [if_neg h2]
          refine events_ext_compose (ih _ _ _ _)
            [Event.claudeInitCall r.url, Event.save]
            (by simp [saveWith, emit]) ?_
          intro e he
          simp only [List.mem_cons, List.not_mem_nil, or_false] at he
          rcases he with he | he
          · exact Or.inl ⟨r.url, he⟩
          · exact Or.inr he

/-- The gradio-generation loop changes only the `repositories` list. -/
theorem gradioLoop_paper (env : Env) (cpath : String) (todo : List RepoRec) :
    ∀ (done : List RepoRec) (p : Paper) (st : PState) (acc : Nat),
      ((gradioLoop env cpath done todo p st acc).2.1.paper_id,
       (gradioLoop env cpath done todo p st acc).2.1.title,
       (gradioLoop env cpath done todo p st acc).2.1.steps,
       (gradioLoop env cpath done todo p st acc).2.1.processing_status) =
      (p.paper_id, p.title, p.steps, p.processing_status) := by
  induction todo with
  | nil => intro done p st acc; rfl
  | cons r rest ih =>
      intro done p st acc
      simp only [gradioLoop]
      by_cases h1 : ¬r.has_code = true
      · rw [if_pos h1]; exact ih _ _ _ _
      · rw [if_neg h1]
        by_cases h2 : ¬((r.claudeInit.map (fun c => c.success)).getD false)
            = true
        · rw [if_pos h2]; exact ih _ _ _ _
        · rw [if_neg h2]
          by_cases h3 : (r.gradioGen.map (fun g => g.success)).getD false
              = true
          · rw [if_pos h3]; exact ih _ _ _ _
          · rw [if_neg h3, ih]

/-- The events added by the gradio-generation loop are generator calls and
saves. -/
theorem gradioLoop_events (env : Env) (cpath : String) (todo : List RepoRec) :
    ∀ (done : List RepoRec) (p : Paper) (st : PState) (acc : Nat),
      ∃ t, (gradioLoop env cpath done todo p st acc).2.2.events =
          st.events ++ t ∧
        ∀ e ∈ t, (∃ u, e = Event.gradioGenCall u) ∨ e = Event.save := by
  induction todo with
  | nil =>
      intro done p st acc
      exact ⟨[], by simp [gradioLoop], by simp⟩
  | cons r rest ih =>
      intro done p st acc
      simp only [gradioLoop]
      by_cases h1 : ¬r.has_code = true
      · rw [if_pos h1]; exact ih _ _ _ _
      · rw [if_neg h1]
        by_cases h2 : ¬((r.claudeInit.map (fun c => c.success)).getD false)
            = true
        · rw [if_pos h2]; exact ih _ _ _ _
        · rw [if_neg h2]
          by_cases h3 : (r.gradioGen.map (fun g => g.success)).getD false
              = true
          · rw [if_pos h3]; exact ih _ _ _ _
          · rw [if_neg h3]
            refine events_ext_compose (ih _ _ _ _)
              [Event.gradioGenCall r.url, Event.save]
              (by simp [saveWith, emit]) ?_
            intro e he
            simp only [List.mem_cons, List.not_mem_nil, or_false] at he
            rcases he with he | he
            · exact Or.inl ⟨r.url, he⟩
            · exact Or.inr he

/-- The upload loop changes only the `repositories` list. -/
theorem uploadLoop_paper (env : Env) (todo : List RepoRec) :
    ∀ (done : List RepoRec) (p : Paper) (st : PState)
      (created failed : Nat) (urls : List String),
      ((uploadLoop env done todo p st created failed urls).2.2.2.1.paper_id,
       (uploadLoop env done todo p st created failed urls).2.2.2.1.title,
       (uploadLoop env done todo p st created failed urls).2.2.2.1.steps,
       (uploadLoop env done todo p st created failed
           urls).2.2.2.1.processing_status) =
      (p.paper_id, p.title, p.steps, p.processing_status) := by
  induction todo with
  | nil => intro done p st created failed urls; rfl
  | cons r rest ih =>
      intro done p st created failed urls
      simp only [uploadLoop]
      by_cases h1 : ¬r.status = RepoStatus.cloned
      · rw [if_pos h1]; exact ih _ _ _ _ _ _
      · rw [if_neg h1]
        by_cases h2 : ¬r.has_code = true
        · rw [if_pos h2]; exact ih _ _ _ _ _ _
        · rw [if_neg h2]
          by_cases h3 : (env.upload r).success = true
          · rw [if_pos h3, ih]
          · rw [if_neg h3, ih]

/-- The events added by the upload loop are upload calls. -/
theorem uploadLoop_events (env : Env) (todo : List RepoRec) :
    ∀ (done : List RepoRec) (p : Paper) (st : PState)
      (created failed : Nat) (urls : List String),
      ∃ t, (uploadLoop env done todo p st created failed urls).2.2.2.2.events
          = st.events ++ t ∧
        ∀ e ∈ t, ∃ u, e = Event.uploadCall u := by
  induction todo with
  | nil =>
      intro done p st created failed urls
      exact ⟨[], by simp [uploadLoop], by simp⟩
  | cons r rest ih =>
      intro done p st created failed urls
      simp only [uploadLoop]
      by_cases h1 : ¬r.status = RepoStatus.cloned
      · rw [if_pos h1]; exact ih _ _ _ _ _ _
      · rw [if_neg h1]
        by_cases h2 : ¬r.has_code = true
        · rw [if_pos h2]; exact ih _ _ _ _ _ _
        · rw [if_neg h2]
          by_cases h3 : (env.upload r).success = true
          · rw [if_pos h3]
            refine events_ext_compose (ih _ _ _ _ _ _)
              [Event.uploadCall r.url] (by simp [emit]) ?_
            intro e he
            simp only [List.mem_cons, List.not_mem_nil, or_false] at he
            exact ⟨r.url, he⟩
          · rw [if_neg h3]
            refine events_ext_compose (ih _ _ _ _ _ _)
              [Event.uploadCall r.url] (by simp [emit]) ?_
            intro e he
            simp only [List.mem_cons, List.not_mem_nil, or_false] at he
            exact ⟨r.url, he⟩

/-- The repository-clone loop changes only the `repositories` list. -/
theorem reposLoop_paper (env : Env) (urls : List String) :
    ∀ (acc : Nat) (p : Paper) (st : PState),
      ((reposLoop env urls acc p st).2.1.paper_id,
       (reposLoop env urls acc p st).2.1.title,
       (reposLoop env urls acc p st).2.1.steps,
       (reposLoop env urls acc p st).2.1.processing_status) =
      (p.paper_id, p.title, p.steps, p.processing_status) := by
  induction urls with
  | nil => intro acc p st; rfl
  | cons url rest ih =>
      intro acc p st
      simp only [reposLoop]
      split
      · next r hf =>
          by_cases h1 : r.status = RepoStatus.cloned
          · rw [if_pos h1]; exact ih _ _ _
          · rw [if_neg h1, ih]
      · next hf => rw [ih]

/-- The events added by the repository-clone loop are clone calls and
saves. -/
theorem reposLoop_events (env : Env) (urls : List String) :
    ∀ (acc : Nat) (p : Paper) (st : PState),
      ∃ t, (reposLoop env urls acc p st).2.2.events = st.events ++ t ∧
        ∀ e ∈ t, (∃ u, e = Event.clone u) ∨ e = Event.save := by
  induction urls with
  | nil =>
      intro acc p st
      exact ⟨[], by simp [reposLoop], by simp⟩
  | cons url rest ih =>
      intro acc p st
      simp only [reposLoop]
      split
      · next r hf =>
          by_cases h1 : r.status = RepoStatus.cloned
          · rw [if_pos h1]; exact ih _ _ _
          · rw [if_neg h1]
            refine events_ext_compose (ih _ _ _)
              [Event.clone url, Event.save] (by simp [saveWith, emit]) ?_
            intro e he
            simp only [List.mem_cons, List.not_mem_nil, or_false] at he
            rcases he with he | he
            · exact Or.inl ⟨url, he⟩
            · exact Or.inr he
      · next hf =>
          refine events_ext_compose (ih _ _ _)
            [Event.clone url, Event.save] (by simp [saveWith, emit]) ?_
          intro e he
          simp only [List.mem_cons, List.not_mem_nil, or_false] at he
          rcases he with he | he
          · exact Or.inl ⟨url, he⟩
          · exact Or.inr he

theorem claudeLoop_paper_id (env : Env) (todo done : List RepoRec) (p : Paper)
    (st : PState) (acc : Nat) :
    (claudeLoop env done todo p st acc).2.1.paper_id = p.paper_id :=
  congrArg Prod.fst (claudeLoop_paper env todo done p st acc)

theorem claudeLoop_title (env : Env) (todo done : List RepoRec) (p : Paper)
    (st : PState) (acc : Nat) :
    (claudeLoop env done todo p st acc).2.1.title = p.title :=
  congrArg (fun q => q.2.1) (claudeLoop_paper env todo done p st acc)

theorem claudeLoop_steps (env : Env) (todo done : List RepoRec) (p : Paper)
    (st : PState) (acc : Nat) :
    (claudeLoop env done todo p st acc).2.1.steps = p.steps :=
  congrArg (fun q => q.2.2.1) (claudeLoop_paper env todo done p st acc)

theorem gradioLoop_paper_id (env : Env) (cpath : String)
    (todo done : List RepoRec) (p : Paper) (st : PState) (acc : Nat) :
    (gradioLoop env cpath done todo p st acc).2.1.paper_id = p.paper_id :=
  congrArg Prod.fst (gradioLoop_paper env cpath todo done p st acc)

theorem gradioLoop_title (env : Env) (cpath : String)
    (todo done : List RepoRec) (p : Paper) (st : PState) (acc : Nat) :
    (gradioLoop env cpath done todo p st acc).2.1.title = p.title :=
  congrArg (fun q => q.2.1) (gradioLoop_paper env cpath todo done p st acc)

theorem gradioLoop_steps (env : Env) (cpath : String)
    (todo done : List RepoRec) (p : Paper) (st : PState) (acc : Nat) :
    (gradioLoop env cpath done todo p st acc).2.1.steps = p.steps :=
  congrArg (fun q => q.2.2.1) (gradioLoop_paper env cpath todo done p st acc)

theorem uploadLoop_paper_id (env : Env) (todo done : List RepoRec) (p : Paper)
    (st : PState) (created failed : Nat) (urls : List String) :
    (uploadLoop env done todo p st created failed urls).2.2.2.1.paper_id
      = p.paper_id :=
  congrArg Prod.fst (uploadLoop_paper env todo done p st created failed urls)

theorem uploadLoop_title (env : Env) (todo done : List RepoRec) (p : Paper)
    (st : PState) (created failed : Nat) (urls : List String) :
    (uploadLoop env done todo p st created failed urls).2.2.2.1.title
      = p.title :=
  congrArg (fun q => q.2.1)
    (uploadLoop_paper env todo done p st created failed urls)

theorem uploadLoop_steps (env : Env) (todo done : List RepoRec) (p : Paper)
    (st : PState) (created failed : Nat) (urls : List String) :
    (uploadLoop env done todo p st created failed urls).2.2.2.1.steps
      = p.steps :=
  congrArg (fun q => q.2.2.1)
    (uploadLoop_paper env todo done p st created failed urls)

theorem reposLoop_paper_id (env : Env) (urls : List String) (acc : Nat)
    (p : Paper) (st : PState) :
    (reposLoop env urls acc p st).2.1.paper_id = p.paper_id :=
  congrArg Prod.fst (reposLoop_paper env urls acc p st)

theorem reposLoop_title (env : Env) (urls : List String) (acc : Nat)
    (p : Paper) (st : PState) :
    (reposLoop env urls acc p st).2.1.title = p.title :=
  congrArg (fun q => q.2.1) (reposLoop_paper env urls acc p st)

theorem reposLoop_steps (env : Env) (urls : List String) (acc : Nat)
    (p : Paper) (st : PState) :
    (reposLoop env urls acc p st).2.1.steps = p.steps :=
  congrArg (fun q => q.2.2.1) (reposLoop_paper env urls acc p st)

theorem update_step_status_paper_id (p : Paper) (n : StepName)
    (s : StepStatus) (e : Option String) (tick : Nat) :
    (update_step_status p n s e tick).1.paper_id = p.paper_id :=
  (update_step_status_fields p n s e tick).1

theorem update_step_status_title (p : Paper) (n : StepName) (s : StepStatus)
    (e : Option String) (tick : Nat) :
    (update_step_status p n s e tick).1.title = p.title :=
  (update_step_status_fields p n s e tick).2.1

theorem update_step_status_repositories (p : Paper) (n : StepName)
    (s : StepStatus) (e : Option String) (tick : Nat) :
    (update_step_status p n s e tick).1.repositories = p.repositories :=
  (update_step_status_fields p n s e tick).2.2.2.1

theorem update_step_status_links (p : Paper) (n : StepName) (s : StepStatus)
    (e : Option String) (tick : Nat) :
    (update_step_status p n s e tick).1.links = p.links :=
  (update_step_status_fields p n s e tick).2.2.1

theorem update_step_status_get_status (p : Paper) (n : StepName)
    (s : StepStatus) (e : Option String) (tick : Nat) :
    ((update_step_status p n s e tick).1.steps.get n).status = s := by
  cases s <;> cases e <;> cases hsa : (p.steps.get n).startedAt <;>
    simp [update_step_status, applyStatusStamp, Steps.get_set_same, hsa]

theorem update_step_status_startedAt (p : Paper) (n : StepName)
    (s : StepStatus) (e : Option String) (tick : Nat) :
    ((update_step_status p n s e tick).1.steps.get n).startedAt =
      if s = .in_progress ∧ (p.steps.get n).startedAt = none
      then some (tick + 1) else (p.steps.get n).startedAt := by
  cases s <;> cases e <;> cases hsa : (p.steps.get n).startedAt <;>
    simp [update_step_status, applyStatusStamp, Steps.get_set_same, hsa]

theorem update_step_status_completedAt (p : Paper) (n : StepName)
    (s : StepStatus) (e : Option String) (tick : Nat) :
    ((update_step_status p n s e tick).1.steps.get n).completedAt =
      if s = .completed ∨ s = .error
      then some (if s = .in_progress ∧ (p.steps.get n).startedAt = none
                 then tick + 2 else tick + 1)
      else (p.steps.get n).completedAt := by
  cases s <;> cases e <;> cases hsa : (p.steps.get n).startedAt <;>
    simp [update_step_status, applyStatusStamp, Steps.get_set_same, hsa]

theorem findPaper_saveWith (st : PState) (q : Paper) (pid : String)
    (h : q.paper_id = pid) : findPaper (saveWith st q).db pid = some q := by
  rw [saveWith_db, h]
  exact findPaper_setPaper _ _ _ h

/-- The in-progress body of the claude stage preserves identity, title and
the other step records, completes the `claude_init` step, persists the final
paper, and emits only claude calls and saves. -/
theorem claudeInitRun_spec (env : Env) (p : Paper) (st : PState) :
    (claudeInitRun env p st).2.1.paper_id = p.paper_id ∧
    (claudeInitRun env p st).2.1.title = p.title ∧
    (claudeInitRun env p st).2.1.steps.get .link_extraction
        = p.steps.get .link_extraction ∧
    (claudeInitRun env p st).2.1.steps.get .repo_analysis
        = p.steps.get .repo_analysis ∧
    (claudeInitRun env p st).2.1.steps.get .gradio_generation
        = p.steps.get .gradio_generation ∧
    (claudeInitRun env p st).2.1.steps.get .space_upload
        = p.steps.get .space_upload ∧
    ((claudeInitRun env p st).2.1.steps.get .claude_init).status
        = .completed ∧
    findPaper (claudeInitRun env p st).2.2.db p.paper_id =
      some (claudeInitRun env p st).2.1 ∧
    ∃ t, (claudeInitRun env p st).2.2.events = st.events ++ t ∧
      ∀ e ∈ t, (∃ u, e = Event.claudeInitCall u) ∨ e = Event.save := by
  refine ⟨?_, ?_, ?_, ?_, ?_, ?_, ?_, ?_, ?_⟩
  · simp [claudeInitRun, updStep, update_step_status_paper_id, setStepRec,
      claudeLoop_paper_id]
  · simp [claudeInitRun, updStep, update_step_status_title, setStepRec,
      claudeLoop_title]
  · simp [claudeInitRun, updStep, update_step_status_get_ne,
      setStepRec_get_ne, claudeLoop_steps]
  · simp [claudeInitRun, updStep, update_step_status_get_ne,
      setStepRec_get_ne, claudeLoop_steps]
  · simp [claudeInitRun, updStep, update_step_status_get_ne,
      setStepRec_get_ne, claudeLoop_steps]
  · simp [claudeInitRun, updStep, update_step_status_get_ne,
      setStepRec_get_ne, claudeLoop_steps]
  · simp [claudeInitRun, updStep, update_step_status_get_status]
  · simp only [claudeInitRun]
    exact findPaper_saveWith _ _ _ (by
      simp [updStep, update_step_status_paper_id, setStepRec,
        claudeLoop_paper_id])
  · obtain ⟨tl, htl, hmem⟩ := claudeLoop_events env
      ((updStep st { p with processing_status :=
          ProcStatus.initializing_claude } StepName.claude_init
        StepStatus.in_progress none).1.repositories) []
      ((updStep st { p with processing_status :=
          ProcStatus.initializing_claude } StepName.claude_init
        StepStatus.in_progress none).1)
      ((updStep st { p with processing_status :=
          ProcStatus.initializing_claude } StepName.claude_init
        StepStatus.in_progress none).2) 0
    refine ⟨tl ++ [Event.save], ?_, ?_⟩
    · simp only [claudeInitRun, saveWith_events, updStep_events]
      rw [htl]
      simp [updStep_events]
    · intro e he
      rcases List.mem_append.mp he with h | h
      · exact hmem e h
      · simp only [List.mem_cons, List.not_mem_nil, or_false] at h
        exact Or.inr h

/-- The in-progress body of the gradio stage: analogous to
`claudeInitRun_spec`. -/
theorem gradioGenRun_spec (env : Env) (cpath : String) (p : Paper)
    (st : PState) :
    (gradioGenRun env cpath p st).2.1.paper_id = p.paper_id ∧
    (gradioGenRun env cpath p st).2.1.title = p.title ∧
    (gradioGenRun env cpath p st).2.1.steps.get .link_extraction
        = p.steps.get .link_extraction ∧
    (gradioGenRun env cpath p st).2.1.steps.get .repo_analysis
        = p.steps.get .repo_analysis ∧
    (gradioGenRun env cpath p st).2.1.steps.get .claude_init
        = p.steps.get .claude_init ∧
    (gradioGenRun env cpath p st).2.1.steps.get .space_upload
        = p.steps.get .space_upload ∧
    ((gradioGenRun env cpath p st).2.1.steps.get .gradio_generation).status
        = .completed ∧
    findPaper (gradioGenRun env cpath p st).2.2.db p.paper_id =
      some (gradioGenRun env cpath p st).2.1 ∧
    ∃ t, (gradioGenRun env cpath p st).2.2.events = st.events ++ t ∧
      ∀ e ∈ t, (∃ u, e = Event.gradioGenCall u) ∨ e = Event.save := by
  refine ⟨?_, ?_, ?_, ?_, ?_, ?_, ?_, ?_, ?_⟩
  · simp [gradioGenRun, updStep, update_step_status_paper_id, setStepRec,
      gradioLoop_paper_id]
  · simp [gradioGenRun, updStep, update_step_status_title, setStepRec,
      gradioLoop_title]
  · simp [gradioGenRun, updStep, update_step_status_get_ne,
      setStepRec_get_ne, gradioLoop_steps]
  · simp [gradioGenRun, updStep, update_step_status_get_ne,
      setStepRec_get_ne, gradioLoop_steps]
  · simp [gradioGenRun, updStep, update_step_status_get_ne,
      setStepRec_get_ne, gradioLoop_steps]
  · simp [gradioGenRun, updStep, update_step_status_get_ne,
      setStepRec_get_ne, gradioLoop_steps]
  · simp [gradioGenRun, updStep, update_step_status_get_status]
  · simp only [gradioGenRun]
    exact findPaper_saveWith _ _ _ (by
      simp [updStep, update_step_status_paper_id, setStepRec,
        gradioLoop_paper_id])
  · obtain ⟨tl, htl, hmem⟩ := gradioLoop_events env cpath
      ((updStep st { p with processing_status :=
          ProcStatus.generating_gradio } StepName.gradio_generation
        StepStatus.in_progress none).1.repositories) []
      ((updStep st { p with processing_status :=
          ProcStatus.generating_gradio } StepName.gradio_generation
        StepStatus.in_progress none).1)
      ((updStep st { p with processing_status :=
          ProcStatus.generating_gradio } StepName.gradio_generation
        StepStatus.in_progress none).2) 0
    refine ⟨tl ++ [Event.save], ?_, ?_⟩
    · simp only [gradioGenRun, saveWith_events, updStep_events]
      rw [htl]
      simp [updStep_events]
    · intro e he
      rcases List.mem_append.mp he with h | h
      · exact hmem e h
      · simp only [List.mem_cons, List.not_mem_nil, or_false] at h
        exact Or.inr h

/-- The in-progress body of the space-upload stage: analogous to
`claudeInitRun_spec`; the step resolves to `completed` or `error`. -/
theorem spaceUploadRun_spec (env : Env) (p : Paper) (st : PState) :
    (spaceUploadRun env p st).2.1.paper_id = p.paper_id ∧
    (spaceUploadRun env p st).2.1.title = p.title ∧
    (spaceUploadRun env p st).2.1.steps.get .link_extraction
        = p.steps.get .link_extraction ∧
    (spaceUploadRun env p st).2.1.steps.get .repo_analysis
        = p.steps.get .repo_analysis ∧
    (spaceUploadRun env p st).2.1.steps.get .claude_init
        = p.steps.get .claude_init ∧
    (spaceUploadRun env p st).2.1.steps.get .gradio_generation
        = p.steps.get .gradio_generation ∧
    (((spaceUploadRun env p st).2.1.steps.get .space_upload).status
        = .completed ∨
     ((spaceUploadRun env p st).2.1.steps.get .space_upload).status
        = .error) ∧
    findPaper (spaceUploadRun env p st).2.2.db p.paper_id =
      some (spaceUploadRun env p st).2.1 ∧
    ∃ t, (spaceUploadRun env p st).2.2.events = st.events ++ t ∧
      ∀ e ∈ t, (∃ u, e = Event.uploadCall u) ∨ e = Event.save := by
  obtain ⟨tl, htl, hmem⟩ := uploadLoop_events env
    ((updStep st { p with processing_status :=
        ProcStatus.uploading_spaces } StepName.space_upload
      StepStatus.in_progress none).1.repositories) []
    ((updStep st { p with processing_status :=
        ProcStatus.uploading_spaces } StepName.space_upload
      StepStatus.in_progress none).1)
    ((updStep st { p with processing_status :=
        ProcStatus.uploading_spaces } StepName.space_upload
      StepStatus.in_progress none).2) 0 0 []
  have hev : ∀ (res : PState), res.events =
      (uploadLoop env []
        ((updStep st { p with processing_status :=
            ProcStatus.uploading_spaces } StepName.space_upload
          StepStatus.in_progress none).1.repositories)
        ((updStep st { p with processing_status :=
            ProcStatus.uploading_spaces } StepName.space_upload
          StepStatus.in_progress none).1)
        ((updStep st { p with processing_status :=
            ProcStatus.uploading_spaces } StepName.space_upload
          StepStatus.in_progress none).2) 0 0 []).2.2.2.2.events ++
        [Event.save] →
      ∃ t, res.events = st.events ++ t ∧
        ∀ e ∈ t, (∃ u, e = Event.uploadCall u) ∨ e = Event.save := by
    intro res hres
    refine ⟨tl ++ [Event.save], ?_, ?_⟩
    · rw [hres, htl]
      simp [updStep_events]
    · intro e he
      rcases List.mem_append.mp he with h | h
      · exact Or.imp_left id (Or.inl (hmem e h))
      · simp only [List.mem_cons, List.not_mem_nil, or_false] at h
        exact Or.inr h
  simp only [spaceUploadRun]
  by_cases hb1 : ((uploadLoop env []
      ((updStep st { p with processing_status :=
          ProcStatus.uploading_spaces } StepName.space_upload
        StepStatus.in_progress none).1.repositories)
      ((updStep st { p with processing_status :=
          ProcStatus.uploading_spaces } StepName.space_upload
        StepStatus.in_progress none).1)
      ((updStep st { p with processing_status :=
          ProcStatus.uploading_spaces } StepName.space_upload
        StepStatus.in_progress none).2) 0 0 []).2.1 > 0 ∧
    (uploadLoop env []
      ((updStep st { p with processing_status :=
          ProcStatus.uploading_spaces } StepName.space_upload
        StepStatus.in_progress none).1.repositories)
      ((updStep st { p with processing_status :=
          ProcStatus.uploading_spaces } StepName.space_upload
        StepStatus.in_progress none).1)
      ((updStep st { p with processing_status :=
          ProcStatus.uploading_spaces } StepName.space_upload
        StepStatus.in_progress none).2) 0 0 []).1 = 0)
  · rw [if_pos hb1]
    refine ⟨?_, ?_, ?_, ?_, ?_, ?_, ?_, ?_, ?_⟩
    · simp [updStep, update_step_status_paper_id, setStepRec,
        uploadLoop_paper_id]
    · simp [updStep, update_step_status_title, setStepRec,
        uploadLoop_title]
    · simp [updStep, update_step_status_get_ne, setStepRec_get_ne,
        uploadLoop_steps]
    · simp [updStep, update_step_status_get_ne, setStepRec_get_ne,
        uploadLoop_steps]
    · simp [updStep, update_step_status_get_ne, setStepRec_get_ne,
        uploadLoop_steps]
    · simp [updStep, update_step_status_get_ne, setStepRec_get_ne,
        uploadLoop_steps]
    · right
      simp [updStep, update_step_status_get_status]
    · exact findPaper_saveWith _ _ _ (by
        simp [updStep, update_step_status_paper_id, setStepRec,
          uploadLoop_paper_id])
    · exact hev _ (by simp [saveWith_events, updStep_events])
  · rw [if_neg hb1]
    by_cases hb2 : (uploadLoop env []
        ((updStep st { p with processing_status :=
            ProcStatus.uploading_spaces } StepName.space_upload
          StepStatus.in_progress none).1.repositories)
        ((updStep st { p with processing_status :=
            ProcStatus.uploading_spaces } StepName.space_upload
          StepStatus.in_progress none).1)
        ((updStep st { p with processing_status :=
            ProcStatus.uploading_spaces } StepName.space_upload
          StepStatus.in_progress none).2) 0 0 []).2.1 > 0
    · rw [if_pos hb2]
      refine ⟨?_, ?_, ?_, ?_, ?_, ?_, ?_, ?_, ?_⟩
      · simp [updStep, update_step_status_paper_id, setStepRec,
          uploadLoop_paper_id]
      · simp [updStep, update_step_status_title, setStepRec,
          uploadLoop_title]
      · simp [updStep, update_step_status_get_ne, setStepRec_get_ne,
          uploadLoop_steps]
      · simp [updStep, update_step_status_get_ne, setStepRec_get_ne,
          uploadLoop_steps]
      · simp [updStep, update_step_status_get_ne, setStepRec_get_ne,
          uploadLoop_steps]
      · simp [updStep, update_step_status_get_ne, setStepRec_get_ne,
          uploadLoop_steps]
      · left
        simp [updStep, update_step_status_get_status]
      · exact findPaper_saveWith _ _ _ (by
          simp [updStep, update_step_status_paper_id, setStepRec,
            uploadLoop_paper_id])
      · exact hev _ (by simp [saveWith_events, updStep_events])
    · rw [if_neg hb2]
      refine ⟨?_, ?_, ?_, ?_, ?_, ?_, ?_, ?_, ?_⟩
      · simp [updStep, update_step_status_paper_id, setStepRec,
          uploadLoop_paper_id]
      · simp [updStep, update_step_status_title, setStepRec,
          uploadLoop_title]
      · simp [updStep, update_step_status_get_ne, setStepRec_get_ne,
          uploadLoop_steps]
      · simp [updStep, update_step_status_get_ne, setStepRec_get_ne,
          uploadLoop_steps]
      · simp [updStep, update_step_status_get_ne, setStepRec_get_ne,
          uploadLoop_steps]
      · simp [updStep, update_step_status_get_ne, setStepRec_get_ne,
          uploadLoop_steps]
      · left
        simp [updStep, update_step_status_get_status]
      · exact findPaper_saveWith _ _ _ (by
          simp [updStep, update_step_status_paper_id, setStepRec,
            uploadLoop_paper_id])
      · exact hev _ (by simp [saveWith_events, updStep_events])

/-- The nonempty branch of the repository stage: it completes the
`repo_analysis` step, preserves identity and the other step records,
persists the final paper, and emits only clone calls and saves. -/
theorem repoAnalysisRun_spec (env : Env) (p : Paper) (st : PState) :
    (repoAnalysisRun env p st).2.1.paper_id = p.paper_id ∧
    (repoAnalysisRun env p st).2.1.title = p.title ∧
    (repoAnalysisRun env p st).2.1.steps.get .link_extraction
        = p.steps.get .link_extraction ∧
    (repoAnalysisRun env p st).2.1.steps.get .claude_init
        = p.steps.get .claude_init ∧
    (repoAnalysisRun env p st).2.1.steps.get .gradio_generation
        = p.steps.get .gradio_generation ∧
    (repoAnalysisRun env p st).2.1.steps.get .space_upload
        = p.steps.get .space_upload ∧
    ((repoAnalysisRun env p st).2.1.steps.get .repo_analysis).status
        = .completed ∧
    findPaper (repoAnalysisRun env p st).2.2.db p.paper_id =
      some (repoAnalysisRun env p st).2.1 ∧
    ∃ t, (repoAnalysisRun env p st).2.2.events = st.events ++ t ∧
      ∀ e ∈ t, (∃ u, e = Event.clone u) ∨ e = Event.save := by
  refine ⟨?_, ?_, ?_, ?_, ?_, ?_, ?_, ?_, ?_⟩
  · simp [repoAnalysisRun, repoAnalysisPrep, repoAnalysisFinish, updStep, update_step_status_paper_id, setStepRec,
      reposLoop_paper_id]
  · simp [repoAnalysisRun, repoAnalysisPrep, repoAnalysisFinish, updStep, update_step_status_title, setStepRec,
      reposLoop_title]
  · simp [repoAnalysisRun, repoAnalysisPrep, repoAnalysisFinish, updStep, update_step_status_get_ne,
      setStepRec_get_ne, reposLoop_steps]
  · simp [repoAnalysisRun, repoAnalysisPrep, repoAnalysisFinish, updStep, update_step_status_get_ne,
      setStepRec_get_ne, reposLoop_steps]
  · simp [repoAnalysisRun, repoAnalysisPrep, repoAnalysisFinish, updStep, update_step_status_get_ne,
      setStepRec_get_ne, reposLoop_steps]
  · simp [repoAnalysisRun, repoAnalysisPrep, repoAnalysisFinish, updStep, update_step_status_get_ne,
      setStepRec_get_ne, reposLoop_steps]
  · simp [repoAnalysisRun, repoAnalysisPrep, repoAnalysisFinish, updStep, update_step_status_get_status]
  · simp only [repoAnalysisRun, repoAnalysisPrep, repoAnalysisFinish]
    exact findPaper_saveWith _ _ _ (by
      simp [updStep, update_step_status_paper_id, setStepRec,
        reposLoop_paper_id])
  · obtain ⟨tl, htl, hmem⟩ := reposLoop_events env
      ((setStepRec (updStep st { p with processing_status :=
          ProcStatus.analyzing_repos } StepName.repo_analysis
        StepStatus.in_progress none).1 StepName.repo_analysis
        (fun r => { r with reposFound :=
          ({ p with processing_status :=
            ProcStatus.analyzing_repos } : Paper).links.code_repositories.length
          })).links.code_repositories) 0
      (setStepRec (updStep st { p with processing_status :=
          ProcStatus.analyzing_repos } StepName.repo_analysis
        StepStatus.in_progress none).1 StepName.repo_analysis
        (fun r => { r with reposFound :=
          ({ p with processing_status :=
            ProcStatus.analyzing_repos } : Paper).links.code_repositories.length
          }))
      ((updStep st { p with processing_status :=
          ProcStatus.analyzing_repos } StepName.repo_analysis
        StepStatus.in_progress none).2)
    refine ⟨tl ++ [Event.save], ?_, ?_⟩
    · simp only [repoAnalysisRun, repoAnalysisPrep, repoAnalysisFinish, saveWith_events, updStep_events]
      rw [htl]
      simp [updStep_events]
    · intro e he
      rcases List.mem_append.mp he with h | h
      · exact hmem e h
      · simp only [List.mem_cons, List.not_mem_nil, or_false] at h
        exact Or.inr h

/-- The claude-initialization stage executor: preserves identity, title and
the other step records; resolves `claude_init` to `skipped` or `completed`;
persists the final paper; emits its dispatch marker followed only by
claude-CLI calls and saves (in particular, never a clone or a fetch). -/
theorem processClaudeInit_spec (env : Env) (p : Paper) (st : PState) :
    (processClaudeInit env p st).2.1.paper_id = p.paper_id ∧
    (processClaudeInit env p st).2.1.title = p.title ∧
    (processClaudeInit env p st).2.1.steps.get .link_extraction
        = p.steps.get .link_extraction ∧
    (processClaudeInit env p st).2.1.steps.get .repo_analysis
        = p.steps.get .repo_analysis ∧
    (processClaudeInit env p st).2.1.steps.get .gradio_generation
        = p.steps.get .gradio_generation ∧
    (processClaudeInit env p st).2.1.steps.get .space_upload
        = p.steps.get .space_upload ∧
    (((processClaudeInit env p st).2.1.steps.get .claude_init).status
        = .skipped ∨
     ((processClaudeInit env p st).2.1.steps.get .claude_init).status
        = .completed) ∧
    findPaper (processClaudeInit env p st).2.2.db p.paper_id =
      some (processClaudeInit env p st).2.1 ∧
    ∃ t, (processClaudeInit env p st).2.2.events =
        st.events ++ Event.stageRun Stage.claude_init p.paper_id :: t ∧
      ∀ e ∈ t, (∃ u, e = Event.claudeInitCall u) ∨ e = Event.save := by
  simp only [processClaudeInit]
  by_cases h1 : (p.repositories.filter
      (fun r => r.status = RepoStatus.cloned)).isEmpty = true
  · rw [if_pos h1]
    refine ⟨?_, ?_, ?_, ?_, ?_, ?_, ?_, ?_, ?_⟩
    · simp [updStep, update_step_status_paper_id, setStepRec]
    · simp [updStep, update_step_status_title, setStepRec]
    · simp [updStep, update_step_status_get_ne, setStepRec_get_ne]
    · simp [updStep, update_step_status_get_ne, setStepRec_get_ne]
    · simp [updStep, update_step_status_get_ne, setStepRec_get_ne]
    · simp [updStep, update_step_status_get_ne, setStepRec_get_ne]
    · left
      simp [updStep, setStepRec_get_same, update_step_status_get_status]
    · exact findPaper_saveWith _ _ _ (by
        simp [updStep, update_step_status_paper_id, setStepRec])
    · exact ⟨[Event.save], by simp [saveWith, emit, updStep], by simp⟩
  · rw [if_neg h1]
    by_cases h2 : (¬env.claude_path.isSome = true ∧
        ¬env.claude_auto_install = true)
    · rw [if_pos h2]
      refine ⟨?_, ?_, ?_, ?_, ?_, ?_, ?_, ?_, ?_⟩
      · simp [updStep, update_step_status_paper_id, setStepRec]
      · simp [updStep, update_step_status_title, setStepRec]
      · simp [updStep, update_step_status_get_ne, setStepRec_get_ne]
      · simp [updStep, update_step_status_get_ne, setStepRec_get_ne]
      · simp [updStep, update_step_status_get_ne, setStepRec_get_ne]
      · simp [updStep, update_step_status_get_ne, setStepRec_get_ne]
      · left
        simp [updStep, setStepRec_get_same, update_step_status_get_status]
      · exact findPaper_saveWith _ _ _ (by
          simp [updStep, update_step_status_paper_id, setStepRec])
      · exact ⟨[Event.save], by simp [saveWith, emit, updStep], by simp⟩
    · rw [if_neg h2]
      obtain ⟨c1, c2, c3, c4, c5, c6, c7, c8, c9⟩ := claudeInitRun_spec env
        (setStepRec p StepName.claude_init (fun r =>
          { r with claudeAvailable := env.claude_path.isSome }))
        (emit (Event.stageRun Stage.claude_init p.paper_id) st)
      refine ⟨?_, ?_, ?_, ?_, ?_, ?_, ?_, ?_, ?_⟩
      · rw [c1]; rfl
      · rw [c2]; rfl
      · rw [c3, setStepRec_get_ne _ _ _ _ (by simp)]
      · rw [c4, setStepRec_get_ne _ _ _ _ (by simp)]
      · rw [c5, setStepRec_get_ne _ _ _ _ (by simp)]
      · rw [c6, setStepRec_get_ne _ _ _ _ (by simp)]
      · exact Or.inr c7
      · exact c8
      · obtain ⟨t, ht, hm⟩ := c9
        exact ⟨t, by rw [ht]; simp [emit], hm⟩

/-- The gradio-generation stage executor: analogous to
`processClaudeInit_spec`; the step resolves to `skipped` or `completed`. -/
theorem processGradioGen_spec (env : Env) (p : Paper) (st : PState) :
    (processGradioGen env p st).2.1.paper_id = p.paper_id ∧
    (processGradioGen env p st).2.1.title = p.title ∧
    (processGradioGen env p st).2.1.steps.get .link_extraction
        = p.steps.get .link_extraction ∧
    (processGradioGen env p st).2.1.steps.get .repo_analysis
        = p.steps.get .repo_analysis ∧
    (processGradioGen env p st).2.1.steps.get .claude_init
        = p.steps.get .claude_init ∧
    (processGradioGen env p st).2.1.steps.get .space_upload
        = p.steps.get .space_upload ∧
    (((processGradioGen env p st).2.1.steps.get .gradio_generation).status
        = .skipped ∨
     ((processGradioGen env p st).2.1.steps.get .gradio_generation).status
        = .completed) ∧
    findPaper (processGradioGen env p st).2.2.db p.paper_id =
      some (processGradioGen env p st).2.1 ∧
    ∃ t, (processGradioGen env p st).2.2.events =
        st.events ++ Event.stageRun Stage.gradio_generation p.paper_id :: t ∧
      ∀ e ∈ t, (∃ u, e = Event.gradioGenCall u) ∨ e = Event.save := by
  simp only [processGradioGen]
  by_cases h1 : (p.repositories.filter (fun r =>
      (r.claudeInit.map (fun c => c.success)).getD false)).isEmpty = true
  · rw [if_pos h1]
    refine ⟨?_, ?_, ?_, ?_, ?_, ?_, ?_, ?_, ?_⟩
    · simp [updStep, update_step_status_paper_id, setStepRec]
    · simp [updStep, update_step_status_title, setStepRec]
    · simp [updStep, update_step_status_get_ne, setStepRec_get_ne]
    · simp [updStep, update_step_status_get_ne, setStepRec_get_ne]
    · simp [updStep, update_step_status_get_ne, setStepRec_get_ne]
    · simp [updStep, update_step_status_get_ne, setStepRec_get_ne]
    · left
      simp [updStep, setStepRec_get_same, update_step_status_get_status]
    · exact findPaper_saveWith _ _ _ (by
        simp [updStep, update_step_status_paper_id, setStepRec])
    · exact ⟨[Event.save], by simp [saveWith, emit, updStep], by simp⟩
  · rw [if_neg h1]
    cases hcp : env.claude_path with
    | none =>
        refine ⟨?_, ?_, ?_, ?_, ?_, ?_, ?_, ?_, ?_⟩
        · simp [updStep, update_step_status_paper_id, setStepRec]
        · simp [updStep, update_step_status_title, setStepRec]
        · simp [updStep, update_step_status_get_ne, setStepRec_get_ne]
        · simp [updStep, update_step_status_get_ne, setStepRec_get_ne]
        · simp [updStep, update_step_status_get_ne, setStepRec_get_ne]
        · simp [updStep, update_step_status_get_ne, setStepRec_get_ne]
        · left
          simp [updStep, setStepRec_get_same, update_step_status_get_status]
        · exact findPaper_saveWith _ _ _ (by
            simp [updStep, update_step_status_paper_id, setStepRec])
        · exact ⟨[Event.save], by simp [saveWith, emit, updStep], by simp⟩
    | some cpath =>
        obtain ⟨c1, c2, c3, c4, c5, c6, c7, c8, c9⟩ := gradioGenRun_spec env
          cpath p (emit (Event.stageRun Stage.gradio_generation p.paper_id) st)
        refine ⟨c1, c2, c3, c4, c5, c6, Or.inr c7, c8, ?_⟩
        obtain ⟨t, ht, hm⟩ := c9
        exact ⟨t, by rw [ht]; simp [emit], hm⟩

/-- The space-upload stage executor: analogous; the step resolves to
`skipped`, `completed` or `error`. -/
theorem processSpaceUpload_spec (env : Env) (p : Paper) (st : PState) :
    (processSpaceUpload env p st).2.1.paper_id = p.paper_id ∧
    (processSpaceUpload env p st).2.1.title = p.title ∧
    (processSpaceUpload env p st).2.1.steps.get .link_extraction
        = p.steps.get .link_extraction ∧
    (processSpaceUpload env p st).2.1.steps.get .repo_analysis
        = p.steps.get .repo_analysis ∧
    (processSpaceUpload env p st).2.1.steps.get .claude_init
        = p.steps.get .claude_init ∧
    (processSpaceUpload env p st).2.1.steps.get .gradio_generation
        = p.steps.get .gradio_generation ∧
    (((processSpaceUpload env p st).2.1.steps.get .space_upload).status
        = .skipped ∨
     ((processSpaceUpload env p st).2.1.steps.get .space_upload).status
        = .completed ∨
     ((processSpaceUpload env p st).2.1.steps.get .space_upload).status
        = .error) ∧
    findPaper (processSpaceUpload env p st).2.2.db p.paper_id =
      some (processSpaceUpload env p st).2.1 ∧
    ∃ t, (processSpaceUpload env p st).2.2.events =
        st.events ++ Event.stageRun Stage.space_upload p.paper_id :: t ∧
      ∀ e ∈ t, (∃ u, e = Event.uploadCall u) ∨ e = Event.save := by
  simp only [processSpaceUpload]
  by_cases h1 : (¬env.space_cfg.1 = true)
  · rw [if_pos h1]
    refine ⟨?_, ?_, ?_, ?_, ?_, ?_, ?_, ?_, ?_⟩
    · simp [updStep, update_step_status_paper_id, setStepRec]
    · simp [updStep, update_step_status_title, setStepRec]
    · simp [updStep, update_step_status_get_ne, setStepRec_get_ne]
    · simp [updStep, update_step_status_get_ne, setStepRec_get_ne]
    · simp [updStep, update_step_status_get_ne, setStepRec_get_ne]
    · simp [updStep, update_step_status_get_ne, setStepRec_get_ne]
    · left
      simp [updStep, setStepRec_get_same, update_step_status_get_status]
    · exact findPaper_saveWith _ _ _ (by
        simp [updStep, update_step_status_paper_id, setStepRec])
    · exact ⟨[Event.save], by simp [saveWith, emit, updStep], by simp⟩
  · rw [if_neg h1]
    by_cases h2 : (p.repositories.filter (fun r =>
        (r.gradioGen.map (fun g => g.success)).getD false)).isEmpty = true
    · rw [if_pos h2]
      refine ⟨?_, ?_, ?_, ?_, ?_, ?_, ?_, ?_, ?_⟩
      · simp [updStep, update_step_status_paper_id, setStepRec]
      · simp [updStep, update_step_status_title, setStepRec]
      · simp [updStep, update_step_status_get_ne, setStepRec_get_ne]
      · simp [updStep, update_step_status_get_ne, setStepRec_get_ne]
      · simp [updStep, update_step_status_get_ne, setStepRec_get_ne]
      · simp [updStep, update_step_status_get_ne, setStepRec_get_ne]
      · left
        simp [updStep, setStepRec_get_same, update_step_status_get_status]
      · exact findPaper_saveWith _ _ _ (by
          simp [updStep, update_step_status_paper_id, setStepRec])
      · exact ⟨[Event.save], by simp [saveWith, emit, updStep], by simp⟩
    · rw [if_neg h2]
      obtain ⟨c1, c2, c3, c4, c5, c6, c7, c8, c9⟩ := spaceUploadRun_spec env
        p (emit (Event.stageRun Stage.space_upload p.paper_id) st)
      refine ⟨c1, c2, c3, c4, c5, c6, Or.inr c7, c8, ?_⟩
      obtain ⟨t, ht, hm⟩ := c9
      exact ⟨t, by rw [ht]; simp [emit], hm⟩

/-- The repository-analysis stage executor: preserves identity, title and
the other step records; resolves `repo_analysis` to `skipped` (empty link
list) or `completed`; persists the final paper; emits its dispatch marker
followed only by clone calls and saves. -/
theorem processRepositories_spec (env : Env) (p : Paper) (st : PState) :
    (processRepositories env p st).2.1.paper_id = p.paper_id ∧
    (processRepositories env p st).2.1.title = p.title ∧
    (processRepositories env p st).2.1.steps.get .link_extraction
        = p.steps.get .link_extraction ∧
    (processRepositories env p st).2.1.steps.get .claude_init
        = p.steps.get .claude_init ∧
    (processRepositories env p st).2.1.steps.get .gradio_generation
        = p.steps.get .gradio_generation ∧
    (processRepositories env p st).2.1.steps.get .space_upload
        = p.steps.get .space_upload ∧
    (((processRepositories env p st).2.1.steps.get .repo_analysis).status
        = .skipped ∨
     ((processRepositories env p st).2.1.steps.get .repo_analysis).status
        = .completed) ∧
    findPaper (processRepositories env p st).2.2.db p.paper_id =
      some (processRepositories env p st).2.1 ∧
    ∃ t, (processRepositories env p st).2.2.events =
        st.events ++ Event.stageRun Stage.repo_analysis p.paper_id :: t ∧
      ∀ e ∈ t, (∃ u, e = Event.clone u) ∨ e = Event.save := by
  simp only [processRepositories]
  by_cases h1 : p.links.code_repositories.isEmpty = true
  · rw [if_pos h1]
    refine ⟨?_, ?_, ?_, ?_, ?_, ?_, ?_, ?_, ?_⟩
    · simp [updStep, update_step_status_paper_id, setStepRec]
    · simp [updStep, update_step_status_title, setStepRec]
    · simp [updStep, update_step_status_get_ne, setStepRec_get_ne]
    · simp [updStep, update_step_status_get_ne, setStepRec_get_ne]
    · simp [updStep, update_step_status_get_ne, setStepRec_get_ne]
    · simp [updStep, update_step_status_get_ne, setStepRec_get_ne]
    · left
      simp [updStep, setStepRec_get_same, update_step_status_get_status]
    · exact findPaper_saveWith _ _ _ (by
        simp [updStep, update_step_status_paper_id, setStepRec])
    · exact ⟨[Event.save], by simp [saveWith, emit, updStep], by simp⟩
  · rw [if_neg h1]
    obtain ⟨c1, c2, c3, c4, c5, c6, c7, c8, c9⟩ := repoAnalysisRun_spec env
      p (emit (Event.stageRun Stage.repo_analysis p.paper_id) st)
    refine ⟨c1, c2, c3, c4, c5, c6, Or.inr c7, c8, ?_⟩
    obtain ⟨t, ht, hm⟩ := c9
    exact ⟨t, by rw [ht]; simp [emit], hm⟩

/-- The stage-3→4→5 chain preserves the entity's identity and its
`link_extraction` and `repo_analysis` records, resolves `claude_init` out of
`pending`, persists the final paper, and emits a claude-stage dispatch
marker followed only by stage markers for this entity, collaborator calls of
stages 3–5, and saves — never a clone or a page fetch. -/
theorem chainLater_spec (env : Env) (p : Paper) (st : PState) :
    (∃ q, findPaper (chainLater env p st).db p.paper_id = some q ∧
      q.paper_id = p.paper_id ∧ q.title = p.title ∧
      q.steps.get .link_extraction = p.steps.get .link_extraction ∧
      q.steps.get .repo_analysis = p.steps.get .repo_analysis ∧
      ((q.steps.get .claude_init).status = .skipped ∨
       (q.steps.get .claude_init).status = .completed)) ∧
    ∃ t, (chainLater env p st).events =
        st.events ++ Event.stageRun Stage.claude_init p.paper_id :: t ∧
      ∀ e ∈ t, (∃ s, e = Event.stageRun s p.paper_id) ∨
        (∃ u, e = Event.claudeInitCall u) ∨
        (∃ u, e = Event.gradioGenCall u) ∨
        (∃ u, e = Event.uploadCall u) ∨ e = Event.save := by
  obtain ⟨a1, a2, a3, a4, a5, a6, a7, a8, a9⟩ :=
    processClaudeInit_spec env p st
  obtain ⟨b1, b2, b3, b4, b5, b6, b7, b8, b9⟩ := processGradioGen_spec env
    (processClaudeInit env p st).2.1 (processClaudeInit env p st).2.2
  obtain ⟨c1, c2, c3, c4, c5, c6, c7, c8, c9⟩ := processSpaceUpload_spec env
    (processGradioGen env (processClaudeInit env p st).2.1
      (processClaudeInit env p st).2.2).2.1
    (processGradioGen env (processClaudeInit env p st).2.1
      (processClaudeInit env p st).2.2).2.2
  constructor
  · refine ⟨(processSpaceUpload env
        (processGradioGen env (processClaudeInit env p st).2.1
          (processClaudeInit env p st).2.2).2.1
        (processGradioGen env (processClaudeInit env p st).2.1
          (processClaudeInit env p st).2.2).2.2).2.1, ?_, ?_, ?_, ?_, ?_, ?_⟩
    · show findPaper (processSpaceUpload env _ _).2.2.db p.paper_id = some _
      rw [show p.paper_id = (processGradioGen env
          (processClaudeInit env p st).2.1
          (processClaudeInit env p st).2.2).2.1.paper_id by rw [b1, a1]]
      exact c8
    · rw [c1, b1, a1]
    · rw [c2, b2, a2]
    · rw [c3, b3, a3]
    · rw [c4, b4, a4]
    · rw [c5, b5]
      exact a7
  · obtain ⟨t1, ht1, hm1⟩ := a9
    obtain ⟨t2, ht2, hm2⟩ := b9
    obtain ⟨t3, ht3, hm3⟩ := c9
    refine ⟨t1 ++ Event.stageRun Stage.gradio_generation p.paper_id ::
        (t2 ++ Event.stageRun Stage.space_upload p.paper_id :: t3), ?_, ?_⟩
    · show (processSpaceUpload env _ _).2.2.events = _
      rw [ht3, ht2, ht1, b1, a1]
      simp
    · intro e he
      simp only [List.mem_append, List.mem_cons] at he
      rcases he with h | h | h | h | h
      · rcases hm1 e h with ⟨u, hu⟩ | hu
        · exact Or.inr (Or.inl ⟨u, hu⟩)
        · exact Or.inr (Or.inr (Or.inr (Or.inr hu)))
      · exact Or.inl ⟨Stage.gradio_generation, h⟩
      · rcases hm2 e h with ⟨u, hu⟩ | hu
        · exact Or.inr (Or.inr (Or.inl ⟨u, hu⟩))
        · exact Or.inr (Or.inr (Or.inr (Or.inr hu)))
      · exact Or.inl ⟨Stage.space_upload, h⟩
      · rcases hm3 e h with ⟨u, hu⟩ | hu
        · exact Or.inr (Or.inr (Or.inr (Or.inl ⟨u, hu⟩)))
        · exact Or.inr (Or.inr (Or.inr (Or.inr hu)))

/-! ## C2 — resume at claude_init without re-cloning -/

/-- C2: for a discovered entity already in the store whose `link_extraction`
and `repo_analysis` steps are `completed` and whose `claude_init` step is
`pending`, re-invoking the batch entry point performs no repository clone at
all, dispatches the claude-initialization stage for that entity, leaves its
`repo_analysis` record untouched, and resolves `claude_init` out of
`pending` (to `skipped` or `completed`). -/
theorem resume_at_claude_init_no_reclone
    (env : Env) (db : List Paper) (tick : Nat) (p : Paper) (ttl : String)
    (hfind : findPaper db p.paper_id = some p)
    (hdaily : env.daily_papers = [(p.paper_id, ttl)])
    (hlink : (p.steps.get .link_extraction).status = .completed)
    (hrepo : (p.steps.get .repo_analysis).status = .completed)
    (hclaude : (p.steps.get .claude_init).status = .pending) :
    NoClone (extract_and_save_links env true ⟨db, tick, []⟩).events ∧
    Event.stageRun Stage.claude_init p.paper_id ∈
      (extract_and_save_links env true ⟨db, tick, []⟩).events ∧
    ∃ q, findPaper (extract_and_save_links env true ⟨db, tick, []⟩).db
        p.paper_id = some q ∧
      q.steps.get .repo_analysis = p.steps.get .repo_analysis ∧
      ((q.steps.get .claude_init).status = .skipped ∨
       (q.steps.get .claude_init).status = .completed) := by
  have hmem2 : p.paper_id ∈ db.map (fun q => q.paper_id) :=
    List.mem_map.mpr ⟨p, List.mem_of_find?_eq_some hfind, rfl⟩
  have hone : extract_and_save_links env true ⟨db, tick, []⟩ =
      chainLater env p ⟨db, tick, []⟩ := by
    rw [extract_and_save_links, hdaily, if_neg (by simp)]
    show processOnePaper env true (db.map fun q => q.paper_id)
        ⟨db, tick, []⟩ (p.paper_id, ttl) = _
    simp only [processOnePaper, hfind]
    rw [if_pos hmem2, if_pos hlink, if_pos trivial,
      if_neg (by simp [hrepo]), if_pos (by simp [hclaude])]
  obtain ⟨⟨q, hq1, hq2, hq3, hq4, hq5, hq6⟩, t, ht, hm⟩ :=
    chainLater_spec env p ⟨db, tick, []⟩
  rw [hone]
  refine ⟨?_, ?_, q, hq1, hq5, hq6⟩
  · intro u hu
    rw [ht] at hu
    simp at hu
    rcases hm _ hu with ⟨s, hs⟩ | ⟨v, hv⟩ | ⟨v, hv⟩ | ⟨v, hv⟩ | hv <;>
      simp_all
  · rw [ht]
    simp

/-- C2, witness: the resume theorem applied to a concrete store holding the
entity with `repo_analysis` completed and `claude_init` pending. -/
theorem resume_at_claude_init_no_reclone_witness :
    NoClone (extract_and_save_links envC2 true ⟨[paperC2], 0, []⟩).events ∧
    Event.stageRun Stage.claude_init paperC2.paper_id ∈
      (extract_and_save_links envC2 true ⟨[paperC2], 0, []⟩).events ∧
    ∃ q, findPaper (extract_and_save_links envC2 true ⟨[paperC2], 0, []⟩).db
        paperC2.paper_id = some q ∧
      q.steps.get .repo_analysis = paperC2.steps.get .repo_analysis ∧
      ((q.steps.get .claude_init).status = .skipped ∨
       (q.steps.get .claude_init).status = .completed) :=
  resume_at_claude_init_no_reclone envC2 [paperC2] 0 paperC2 "T"
    rfl rfl rfl rfl rfl

/-! ## C1 — zero-repository entity stalls instead of completing -/

/-- C1 (code bug): running the batch entry point on a discovered entity
whose page yields zero code repositories ends with `repo_analysis` skipped —
but `claude_init`, `gradio_generation` and `space_upload` remain `pending`
(they never get the chance to resolve to `skipped`) and the aggregate status
stays `links_extracted`, not `completed`: stages 3–5 are gated on
`repos_cloned_count > 0` (`processor.py` 173), so a zero-repository entity
never reaches the later stages, contrary to the spec's requirement that a
skipped `repo_analysis` must not block them. -/
theorem zero_repo_entity_stalls :
    (extract_and_save_links envC1 true ⟨[], 0, []⟩).db.map (fun q =>
      (q.paper_id,
       (q.steps.get .link_extraction).status,
       (q.steps.get .repo_analysis).status,
       (q.steps.get .claude_init).status,
       (q.steps.get .gradio_generation).status,
       (q.steps.get .space_upload).status,
       q.processing_status)) =
    [("p1", .completed, .skipped, .pending, .pending, .pending,
      .links_extracted)] := by
  rfl

/-! ## C3 — second-run idempotence -/

/-- C3, counterexample: with one discovered entity whose page yields zero
code repositories and no external-state change, running the batch entry
point a second time does not leave the persisted store content-equivalent —
the resume check re-dispatches the (skipped) repository stage, which
rewrites the entity's `updated_at`.  This falsifies the claim's store
equivalence conjunct. -/
theorem second_run_store_changes :
    (extract_and_save_links envC1 true
        ⟨(extract_and_save_links envC1 true ⟨[], 0, []⟩).db,
         (extract_and_save_links envC1 true ⟨[], 0, []⟩).tick, []⟩).db ≠
      (extract_and_save_links envC1 true ⟨[], 0, []⟩).db := by
  decide

/-- C3 (amended): the second run is a complete no-op — no external
collaborator invoked, no event at all, and the persisted store exactly
unchanged — precisely when every discovered entity sits in the
fully-processed resume state: `link_extraction` completed, `repo_analysis`
completed or in progress, and each of `claude_init`, `gradio_generation`,
`space_upload` completed or skipped.  An entity whose `repo_analysis` ended
`skipped` (zero repositories) is NOT in that state: the run re-dispatches
its repository stage and refreshes `updated_at` (see the counterexample). -/
theorem second_run_noop_when_fully_processed (env : Env) (st : PState)
    (h : ∀ pr ∈ env.daily_papers, ∃ p, findPaper st.db pr.1 = some p ∧
      (p.steps.get .link_extraction).status = .completed ∧
      ((p.steps.get .repo_analysis).status = .completed ∨
       (p.steps.get .repo_analysis).status = .in_progress) ∧
      ((p.steps.get .claude_init).status = .completed ∨
       (p.steps.get .claude_init).status = .skipped) ∧
      ((p.steps.get .gradio_generation).status = .completed ∨
       (p.steps.get .gradio_generation).status = .skipped) ∧
      ((p.steps.get .space_upload).status = .completed ∨
       (p.steps.get .space_upload).status = .skipped)) :
    extract_and_save_links env true st = st := by
  have hone : ∀ pr, (∃ p, findPaper st.db pr.1 = some p ∧
      (p.steps.get .link_extraction).status = .completed ∧
      ((p.steps.get .repo_analysis).status = .completed ∨
       (p.steps.get .repo_analysis).status = .in_progress) ∧
      ((p.steps.get .claude_init).status = .completed ∨
       (p.steps.get .claude_init).status = .skipped) ∧
      ((p.steps.get .gradio_generation).status = .completed ∨
       (p.steps.get .gradio_generation).status = .skipped) ∧
      ((p.steps.get .space_upload).status = .completed ∨
       (p.steps.get .space_upload).status = .skipped)) →
      processOnePaper env true (st.db.map fun q => q.paper_id) st pr = st
      := by
    rintro ⟨pid, ttl⟩ ⟨p, hf, h1, h2, h3, h4, h5⟩
    have hmem2 : pid ∈ st.db.map (fun q => q.paper_id) := by
      have hp := List.mem_of_find?_eq_some hf
      have hpid := List.find?_some hf
      simp only [decide_eq_true_eq] at hpid
      exact List.mem_map.mpr ⟨p, hp, hpid⟩
    simp only [processOnePaper, hf]
    rw [if_pos hmem2, if_pos h1, if_pos trivial,
      if_neg (by rcases h2 with h | h <;> simp [h]),
      if_neg (by rcases h3 with h | h <;> simp [h]),
      if_neg (by rcases h4 with h | h <;> simp [h]),
      if_neg (by rcases h5 with h | h <;> simp [h])]
  rw [extract_and_save_links]
  by_cases hemp : env.daily_papers.isEmpty = true
  · rw [if_pos hemp]
  · rw [if_neg hemp]
    have : ∀ l : List (String × String), (∀ pr ∈ l, ∃ p,
        findPaper st.db pr.1 = some p ∧
        (p.steps.get .link_extraction).status = .completed ∧
        ((p.steps.get .repo_analysis).status = .completed ∨
         (p.steps.get .repo_analysis).status = .in_progress) ∧
        ((p.steps.get .claude_init).status = .completed ∨
         (p.steps.get .claude_init).status = .skipped) ∧
        ((p.steps.get .gradio_generation).status = .completed ∨
         (p.steps.get .gradio_generation).status = .skipped) ∧
        ((p.steps.get .space_upload).status = .completed ∨
         (p.steps.get .space_upload).status = .skipped)) →
        l.foldl (processOnePaper env true
          (st.db.map fun q => q.paper_id)) st = st := by
      intro l
      induction l with
      | nil => intro _; rfl
      | cons x rest ih =>
          intro hl
          rw [List.foldl_cons, hone x (hl x (List.mem_cons_self _ _))]
          exact ih (fun pr hpr => hl pr (List.mem_cons_of_mem _ hpr))
    exact this env.daily_papers h

/-- C3, witness: the amended no-op theorem applied to a concrete store whose
single discovered entity is fully processed. -/
theorem second_run_noop_witness :
    extract_and_save_links envC2 true ⟨[paperC3], 7, []⟩ =
      ⟨[paperC3], 7, []⟩ :=
  second_run_noop_when_fully_processed envC2 ⟨[paperC3], 7, []⟩
    (by
      intro pr hpr
      simp only [envC2, envC1, List.mem_singleton] at hpr
      subst hpr
      exact ⟨paperC3, rfl, rfl, Or.inl rfl, Or.inr rfl, Or.inr rfl,
        Or.inr rfl⟩)

theorem runUpdatesOn_append (n : StepName)
    (l₁ l₂ : List (StepStatus × Option String)) (p : Paper) (tick : Nat) :
    runUpdatesOn n (l₁ ++ l₂) p tick =
      runUpdatesOn n l₂ (runUpdatesOn n l₁ p tick).1
        (runUpdatesOn n l₁ p tick).2 := by
  induction l₁ generalizing p tick with
  | nil => rfl
  | cons u rest ih =>
      cases u
      rw [List.cons_append, runUpdatesOn, runUpdatesOn]
      exact ih _ _

/-- Once `started_at` holds a value, no later sequence of updates changes
it. -/
theorem runUpdatesOn_startedAt_stable (n : StepName)
    (l : List (StepStatus × Option String)) (p : Paper) (tick v : Nat)
    (h : (p.steps.get n).startedAt = some v) :
    ((runUpdatesOn n l p tick).1.steps.get n).startedAt = some v := by
  induction l generalizing p tick with
  | nil => exact h
  | cons u rest ih =>
      cases u with
      | mk s e =>
          rw [runUpdatesOn]
          refine ih _ _ ?_
          rw [update_step_status_startedAt, h]
          simp

/-- Updates that never enter `in_progress` leave `started_at` untouched. -/
theorem runUpdatesOn_startedAt_none (n : StepName)
    (l : List (StepStatus × Option String)) (p : Paper) (tick : Nat)
    (h : (p.steps.get n).startedAt = none)
    (hl : ∀ u ∈ l, u.1 ≠ StepStatus.in_progress) :
    ((runUpdatesOn n l p tick).1.steps.get n).startedAt = none := by
  induction l generalizing p tick with
  | nil => exact h
  | cons u rest ih =>
      cases u with
      | mk s e =>
          rw [runUpdatesOn]
          refine ih _ _ ?_ (fun u hu => hl u (List.mem_cons_of_mem _ hu))
          rw [update_step_status_startedAt, h]
          have := hl (s, e) (List.mem_cons_self _ _)
          simp at this
          simp [this]

/-- A `completed_at` value, once set, is never cleared. -/
theorem runUpdatesOn_completedAt_stable (n : StepName)
    (l : List (StepStatus × Option String)) (p : Paper) (tick : Nat)
    (h : (p.steps.get n).completedAt ≠ none) :
    ((runUpdatesOn n l p tick).1.steps.get n).completedAt ≠ none := by
  induction l generalizing p tick with
  | nil => exact h
  | cons u rest ih =>
      cases u with
      | mk s e =>
          rw [runUpdatesOn]
          refine ih _ _ ?_
          rw [update_step_status_completedAt]
          by_cases hs : s = .completed ∨ s = .error
          · simp [hs]
          · simpa [hs] using h

/-- C6: for every step record starting with `started_at = null` and every
sequence of `update_step_status` calls on it: `started_at` is null exactly
as long as no call transitions into `in_progress`; the first `in_progress`
call stamps it with the then-current clock; once set it keeps that exact
value through every later call; `completed_at` is stamped on every
transition into `completed` or `error`; and once set, `completed_at` is
never cleared back to null. -/
theorem update_step_status_timestamp_invariant (n : StepName) (p : Paper)
    (tick : Nat) (h0 : (p.steps.get n).startedAt = none) :
    (∀ l : List (StepStatus × Option String),
      (((runUpdatesOn n l p tick).1.steps.get n).startedAt = none ↔
        ∀ u ∈ l, u.1 ≠ StepStatus.in_progress)) ∧
    (∀ (l : List (StepStatus × Option String)) (e : Option String),
      (∀ u ∈ l, u.1 ≠ StepStatus.in_progress) →
      ((runUpdatesOn n (l ++ [(.in_progress, e)]) p tick).1.steps.get
          n).startedAt = some ((runUpdatesOn n l p tick).2 + 1)) ∧
    (∀ (l₁ l₂ : List (StepStatus × Option String)) (v : Nat),
      ((runUpdatesOn n l₁ p tick).1.steps.get n).startedAt = some v →
      ((runUpdatesOn n (l₁ ++ l₂) p tick).1.steps.get n).startedAt = some v) ∧
    (∀ (l : List (StepStatus × Option String)) (s : StepStatus)
        (e : Option String), s = .completed ∨ s = .error →
      ((runUpdatesOn n (l ++ [(s, e)]) p tick).1.steps.get n).completedAt =
        some ((runUpdatesOn n l p tick).2 + 1)) ∧
    (∀ (l₁ l₂ : List (StepStatus × Option String)),
      ((runUpdatesOn n l₁ p tick).1.steps.get n).completedAt ≠ none →
      ((runUpdatesOn n (l₁ ++ l₂) p tick).1.steps.get n).completedAt ≠ none)
    := by
  refine ⟨?_, ?_, ?_, ?_, ?_⟩
  · intro l
    constructor
    · intro hnone u hu hs
      obtain ⟨l₁, l₂, rfl⟩ := List.append_of_mem hu
      cases u with
      | mk s e =>
          simp only at hs
          subst hs
          have hset : ((runUpdatesOn n (l₁ ++ [(StepStatus.in_progress, e)]) p
              tick).1.steps.get n).startedAt ≠ none := by
            rw [runUpdatesOn_append, runUpdatesOn, runUpdatesOn,
              update_step_status_startedAt]
            by_cases hb : ((runUpdatesOn n l₁ p tick).1.steps.get
                n).startedAt = none
            · simp [hb]
            · simp [hb]
          have : l₁ ++ (StepStatus.in_progress, e) :: l₂ =
              (l₁ ++ [(StepStatus.in_progress, e)]) ++ l₂ := by simp
          rw [this, runUpdatesOn_append] at hnone
          cases hv : ((runUpdatesOn n (l₁ ++ [(StepStatus.in_progress, e)]) p
              tick).1.steps.get n).startedAt with
          | none => exact hset hv
          | some v =>
              rw [runUpdatesOn_startedAt_stable n l₂ _ _ v hv] at hnone
              exact Option.noConfusion hnone
    · intro hl
      exact runUpdatesOn_startedAt_none n l p tick h0 hl
  · intro l e hl
    rw [runUpdatesOn_append, runUpdatesOn, runUpdatesOn,
      update_step_status_startedAt,
      runUpdatesOn_startedAt_none n l p tick h0 hl]
    simp
  · intro l₁ l₂ v hv
    rw [runUpdatesOn_append]
    exact runUpdatesOn_startedAt_stable n l₂ _ _ v hv
  · intro l s e hs
    rw [runUpdatesOn_append, runUpdatesOn, runUpdatesOn,
      update_step_status_completedAt, if_pos hs]
    rcases hs with hs | hs <;> subst hs <;> simp
  · intro l₁ l₂ h
    rw [runUpdatesOn_append]
    exact runUpdatesOn_completedAt_stable n l₂ _ _ h

/-- C6, witness: a concrete two-update sequence on a fresh paper entry:
`started_at` is stamped by the `in_progress` call and survives the
`completed` call unchanged. -/
theorem update_step_status_timestamp_invariant_witness :
    ((runUpdatesOn StepName.claude_init
        ([(StepStatus.in_progress, none)] ++ [(StepStatus.completed, none)])
        { paper_id := "2307.09288", title := "T" } 0).1.steps.get
      StepName.claude_init).startedAt = some 1 :=
  (update_step_status_timestamp_invariant StepName.claude_init
      { paper_id := "2307.09288", title := "T" } 0 rfl).2.2.1
    [(StepStatus.in_progress, none)] [(StepStatus.completed, none)] 1 rfl

/-! ## C4 — retry dispatch machinery -/

theorem stageRunsOf_append (pid : String) (a b : List Event) :
    stageRunsOf pid (a ++ b) = stageRunsOf pid a ++ stageRunsOf pid b := by
  simp [stageRunsOf]

theorem stageRunsOf_cons_run (pid : String) (s : Stage) (t : List Event) :
    stageRunsOf pid (Event.stageRun s pid :: t) = s :: stageRunsOf pid t := by
  simp [stageRunsOf]

/-- Executor events carry no dispatch marker. -/
theorem execEvent_no_run (pid : String) (t : List Event)
    (h : ∀ e ∈ t, execEvent e) : stageRunsOf pid t = [] := by
  induction t with
  | nil => rfl
  | cons e rest ih =>
      have he := h e (List.mem_cons_self _ _)
      have hr := ih (fun x hx => h x (List.mem_cons_of_mem _ hx))
      simp only [execEvent] at he
      rcases he with ⟨u, rfl⟩ | ⟨u, rfl⟩ | ⟨u, rfl⟩ | ⟨u, rfl⟩ | rfl <;>
        simpa [stageRunsOf] using hr

/-- A retry tail for `pid` carries no dispatch marker for any other id. -/
theorem retryTail_no_run (pid qid : String) (hne : qid ≠ pid)
    (t : List Event) (h : ∀ e ∈ t, retryTailOk pid e) :
    stageRunsOf qid t = [] := by
  induction t with
  | nil => rfl
  | cons e rest ih =>
      have he := h e (List.mem_cons_self _ _)
      have hr := ih (fun x hx => h x (List.mem_cons_of_mem _ hx))
      simp only [retryTailOk, execEvent] at he
      rcases he with ⟨s, -, rfl⟩ |
        (⟨u, rfl⟩ | ⟨u, rfl⟩ | ⟨u, rfl⟩ | ⟨u, rfl⟩ | rfl) <;>
        simpa [stageRunsOf, Ne.symm hne] using hr

theorem execEvent_of_clone (e : Event)
    (h : (∃ u, e = Event.clone u) ∨ e = Event.save) : execEvent e := by
  simp only [execEvent]; tauto

theorem execEvent_of_claude (e : Event)
    (h : (∃ u, e = Event.claudeInitCall u) ∨ e = Event.save) : execEvent e := by
  simp only [execEvent]; tauto

theorem execEvent_of_gradio (e : Event)
    (h : (∃ u, e = Event.gradioGenCall u) ∨ e = Event.save) : execEvent e := by
  simp only [execEvent]; tauto

theorem execEvent_of_upload (e : Event)
    (h : (∃ u, e = Event.uploadCall u) ∨ e = Event.save) : execEvent e := by
  simp only [execEvent]; tauto

/-- The paper found under an id carries that id. -/
theorem findPaper_id {db : List Paper} {pid : String} {p : Paper}
    (h : findPaper db pid = some p) : p.paper_id = pid := by
  have := List.find?_some h
  simpa using this

/-- Writing a paper back into the store leaves every other id's lookup
unchanged. -/
theorem findPaper_setPaper_other (q : Paper) (qid : String)
    (hne : q.paper_id ≠ qid) :
    ∀ db : List Paper,
      findPaper (setPaper db q.paper_id q) qid = findPaper db qid := by
  intro db
  induction db with
  | nil => simp [setPaper, findPaper, List.find?, hne]
  | cons r rest ih =>
      by_cases h : r.paper_id = q.paper_id
      · rw [setPaper, if_pos h]
        have hr : ¬(r.paper_id = qid) := fun hc => hne (h.symm.trans hc)
        simp [findPaper, List.find?, hne, hr]
      · rw [setPaper, if_neg h]
        by_cases hr : r.paper_id = qid
        · simp [findPaper, List.find?, hr]
        · simp only [findPaper] at ih ⊢
          simp [List.find?, hr, ih]

theorem findPaper_saveWith_other (st : PState) (q : Paper) (qid : String)
    (hne : q.paper_id ≠ qid) :
    findPaper (saveWith st q).db qid = findPaper st.db qid := by
  rw [saveWith_db]
  exact findPaper_setPaper_other q qid hne st.db

/-- The clone loop touches no store entry other than the threaded paper's. -/
theorem reposLoop_db_other (env : Env) (qid : String) (urls : List String) :
    ∀ (acc : Nat) (p : Paper) (st : PState), p.paper_id ≠ qid →
      findPaper (reposLoop env urls acc p st).2.2.db qid =
        findPaper st.db qid := by
  induction urls with
  | nil => intro acc p st _; rfl
  | cons url rest ih =>
      intro acc p st h
      simp only [reposLoop]
      split
      · next r hf =>
          by_cases h1 : r.status = RepoStatus.cloned
          · rw [if_pos h1]; exact ih _ _ _ h
          · rw [if_neg h1]
            refine (ih _ _ _ ?_).trans (findPaper_saveWith_other _ _ _ ?_) <;>
              exact h
      · next hf =>
          refine (ih _ _ _ ?_).trans (findPaper_saveWith_other _ _ _ ?_) <;>
            exact h

/-- The claude-initialization loop touches no other store entry. -/
theorem claudeLoop_db_other (env : Env) (qid : String) (todo : List RepoRec) :
    ∀ (done : List RepoRec) (p : Paper) (st : PState) (acc : Nat),
      p.paper_id ≠ qid →
      findPaper (claudeLoop env done todo p st acc).2.2.db qid =
        findPaper st.db qid := by
  induction todo with
  | nil => intro done p st acc _; rfl
  | cons r rest ih =>
      intro done p st acc h
      simp only [claudeLoop]
      by_cases h1 : r.status ≠ RepoStatus.cloned
      · rw [if_pos h1]; exact ih _ _ _ _ h
      · rw [if_neg h1]
        by_cases h2 : (r.claudeInit.map (fun c => c.success)).getD false = true
        · rw [if_pos h2]; exact ih _ _ _ _ h
        · rw [if_neg h2]
          refine (ih _ _ _ _ ?_).trans (findPaper_saveWith_other _ _ _ ?_) <;>
            exact h

/-- The gradio-generation loop touches no other store entry. -/
theorem gradioLoop_db_other (env : Env) (cpath : String) (qid : String)
    (todo : List RepoRec) :
    ∀ (done : List RepoRec) (p : Paper) (st : PState) (acc : Nat),
      p.paper_id ≠ qid →
      findPaper (gradioLoop env cpath done todo p st acc).2.2.db qid =
        findPaper st.db qid := by
  induction todo with
  | nil => intro done p st acc _; rfl
  | cons r rest ih =>
      intro done p st acc h
      simp only [gradioLoop]
      by_cases h1 : ¬r.has_code = true
      · rw [if_pos h1]; exact ih _ _ _ _ h
      · rw [if_neg h1]
        by_cases h2 : ¬((r.claudeInit.map (fun c => c.success)).getD false)
            = true
        · rw [if_pos h2]; exact ih _ _ _ _ h
        · rw [if_neg h2]
          by_cases h3 : (r.gradioGen.map (fun g => g.success)).getD false
              = true
          · rw [if_pos h3]; exact ih _ _ _ _ h
          · rw [if_neg h3]
            refine (ih _ _ _ _ ?_).trans
                (findPaper_saveWith_other _ _ _ ?_) <;>
              exact h

/-- The upload loop performs no save at all: the store is unchanged. -/
theorem uploadLoop_db (env : Env) (todo : List RepoRec) :
    ∀ (done : List RepoRec) (p : Paper) (st : PState) (created failed : Nat)
      (urls : List String),
      (uploadLoop env done todo p st created failed urls).2.2.2.2.db =
        st.db := by
  induction todo with
  | nil => intro done p st c f u; rfl
  | cons r rest ih =>
      intro done p st c f u
      simp only [uploadLoop]
      by_cases h1 : r.status ≠ RepoStatus.cloned
      · rw [if_pos h1]; exact ih _ _ _ _ _ _
      · rw [if_neg h1]
        by_cases h2 : ¬r.has_code = true
        · rw [if_pos h2]; exact ih _ _ _ _ _ _
        · rw [if_neg h2]
          by_cases h3 : (env.upload r).success = true
          · rw [if_pos h3]; exact ih _ _ _ _ _ _
          · rw [if_neg h3]; exact ih _ _ _ _ _ _

/-- The in-progress repository body touches no other store entry. -/
theorem repoAnalysisRun_db_other (env : Env) (p : Paper) (st : PState)
    (qid : String) (h : p.paper_id ≠ qid) :
    findPaper (repoAnalysisRun env p st).2.2.db qid = findPaper st.db qid := by
  simp only [repoAnalysisRun, repoAnalysisPrep, repoAnalysisFinish]
  refine (findPaper_saveWith_other _ _ _ ?_).trans ?_
  · simpa [updStep, update_step_status_paper_id, setStepRec,
      reposLoop_paper_id] using h
  · rw [updStep_db]
    refine (reposLoop_db_other env qid _ _ _ _ ?_).trans ?_
    · simpa [updStep, update_step_status_paper_id, setStepRec] using h
    · rw [updStep_db]

/-- The in-progress claude body touches no other store entry. -/
theorem claudeInitRun_db_other (env : Env) (p : Paper) (st : PState)
    (qid : String) (h : p.paper_id ≠ qid) :
    findPaper (claudeInitRun env p st).2.2.db qid = findPaper st.db qid := by
  simp only [claudeInitRun]
  refine (findPaper_saveWith_other _ _ _ ?_).trans ?_
  · simpa [updStep, update_step_status_paper_id, setStepRec,
      claudeLoop_paper_id] using h
  · rw [updStep_db]
    refine (claudeLoop_db_other env qid _ _ _ _ _ ?_).trans ?_
    · simpa [updStep, update_step_status_paper_id] using h
    · rw [updStep_db]

/-- The in-progress gradio body touches no other store entry. -/
theorem gradioGenRun_db_other (env : Env) (cpath : String) (p : Paper)
    (st : PState) (qid : String) (h : p.paper_id ≠ qid) :
    findPaper (gradioGenRun env cpath p st).2.2.db qid =
      findPaper st.db qid := by
  simp only [gradioGenRun]
  refine (findPaper_saveWith_other _ _ _ ?_).trans ?_
  · simpa [updStep, update_step_status_paper_id, setStepRec,
      gradioLoop_paper_id] using h
  · rw [updStep_db]
    refine (gradioLoop_db_other env cpath qid _ _ _ _ _ ?_).trans ?_
    · simpa [updStep, update_step_status_paper_id] using h
    · rw [updStep_db]

/-- The in-progress upload body touches no other store entry. -/
theorem spaceUploadRun_db_other (env : Env) (p : Paper) (st : PState)
    (qid : String) (h : p.paper_id ≠ qid) :
    findPaper (spaceUploadRun env p st).2.2.db qid = findPaper st.db qid := by
  simp only [spaceUploadRun]
  split
  · refine (findPaper_saveWith_other _ _ _ ?_).trans ?_
    · simpa [updStep, update_step_status_paper_id, setStepRec,
        uploadLoop_paper_id] using h
    · rw [updStep_db, uploadLoop_db, updStep_db]
  · split
    · refine (findPaper_saveWith_other _ _ _ ?_).trans ?_
      · simpa [updStep, update_step_status_paper_id, setStepRec,
          uploadLoop_paper_id] using h
      · rw [updStep_db, uploadLoop_db, updStep_db]
    · refine (findPaper_saveWith_other _ _ _ ?_).trans ?_
      · simpa [updStep, update_step_status_paper_id, setStepRec,
          uploadLoop_paper_id] using h
      · rw [updStep_db, uploadLoop_db, updStep_db]

/-- `process_repositories` touches no other store entry. -/
theorem processRepositories_db_other (env : Env) (p : Paper) (st : PState)
    (qid : String) (h : p.paper_id ≠ qid) :
    findPaper (processRepositories env p st).2.2.db qid =
      findPaper st.db qid := by
  simp only [processRepositories]
  split
  · refine (findPaper_saveWith_other _ _ _ ?_).trans ?_
    · simpa [updStep, update_step_status_paper_id, setStepRec] using h
    · rw [updStep_db]; rfl
  · exact repoAnalysisRun_db_other env p _ qid h

/-- `process_claude_initialization` touches no other store entry. -/
theorem processClaudeInit_db_other (env : Env) (p : Paper) (st : PState)
    (qid : String) (h : p.paper_id ≠ qid) :
    findPaper (processClaudeInit env p st).2.2.db qid =
      findPaper st.db qid := by
  simp only [processClaudeInit]
  split
  · refine (findPaper_saveWith_other _ _ _ ?_).trans ?_
    · simpa [updStep, update_step_status_paper_id, setStepRec] using h
    · rw [updStep_db]; rfl
  · split
    · refine (findPaper_saveWith_other _ _ _ ?_).trans ?_
      · simpa [updStep, update_step_status_paper_id, setStepRec] using h
      · rw [updStep_db]; rfl
    · exact claudeInitRun_db_other env _ _ qid h

/-- `process_gradio_generation` touches no other store entry. -/
theorem processGradioGen_db_other (env : Env) (p : Paper) (st : PState)
    (qid : String) (h : p.paper_id ≠ qid) :
    findPaper (processGradioGen env p st).2.2.db qid =
      findPaper st.db qid := by
  simp only [processGradioGen]
  split
  · refine (findPaper_saveWith_other _ _ _ ?_).trans ?_
    · simpa [updStep, update_step_status_paper_id, setStepRec] using h
    · rw [updStep_db]; rfl
  · split
    · refine (findPaper_saveWith_other _ _ _ ?_).trans ?_
      · simpa [updStep, update_step_status_paper_id, setStepRec] using h
      · rw [updStep_db]; rfl
    · exact gradioGenRun_db_other env _ p _ qid h

/-- `process_space_upload` touches no other store entry. -/
theorem processSpaceUpload_db_other (env : Env) (p : Paper) (st : PState)
    (qid : String) (h : p.paper_id ≠ qid) :
    findPaper (processSpaceUpload env p st).2.2.db qid =
      findPaper st.db qid := by
  simp only [processSpaceUpload]
  split
  · refine (findPaper_saveWith_other _ _ _ ?_).trans ?_
    · simpa [updStep, update_step_status_paper_id, setStepRec] using h
    · rw [updStep_db]; rfl
  · split
    · refine (findPaper_saveWith_other _ _ _ ?_).trans ?_
      · simpa [updStep, update_step_status_paper_id, setStepRec] using h
      · rw [updStep_db]; rfl
    · exact spaceUploadRun_db_other env p _ qid h

/-- Step-5 retry: the space stage is dispatched exactly under its coded
guard; the tail is classified and other store entries are untouched. -/
theorem retrySpace_spec (env : Env) (gradio_s : StepStatus)
    (c : Paper × PState) (pid : String) (hpid : c.1.paper_id = pid) :
    ∃ t, (retrySpace env gradio_s c).events = c.2.events ++ t ∧
      (∀ e ∈ t, retryTailOk pid e) ∧
      stageRunsOf pid t =
        (if (c.1.steps.get .space_upload).status = .error ∨
            ((c.1.steps.get .space_upload).status = .pending ∧
             gradio_s = .completed)
         then [Stage.space_upload] else []) ∧
      (∀ qid, qid ≠ pid →
        findPaper (retrySpace env gradio_s c).db qid =
          findPaper c.2.db qid) := by
  simp only [retrySpace]
  by_cases hg : (c.1.steps.get .space_upload).status = .error ∨
      ((c.1.steps.get .space_upload).status = .pending ∧
       gradio_s = .completed)
  · simp only [if_pos hg]
    obtain ⟨-, -, -, -, -, -, -, -, t, ht, hcl⟩ :=
      processSpaceUpload_spec env c.1 c.2
    refine ⟨Event.stageRun Stage.space_upload pid :: t, ?_, ?_, ?_, ?_⟩
    · rw [ht, hpid]
    · intro e he
      rcases List.mem_cons.mp he with rfl | he
      · exact Or.inl ⟨_, Or.inr (Or.inr (Or.inr rfl)), rfl⟩
      · exact Or.inr (execEvent_of_upload e (hcl e he))
    · rw [stageRunsOf_cons_run,
        execEvent_no_run pid t (fun e he => execEvent_of_upload e (hcl e he))]
    · intro qid hq
      exact processSpaceUpload_db_other env c.1 c.2 qid
        (by rw [hpid]; exact Ne.symm hq)
  · simp only [if_neg hg]
    refine ⟨[], by simp, ?_, ?_, ?_⟩
    · intro e he
      exact nomatch he
    · trivial
    · intro qid hq
      trivial

/-- Step-4 retry: the gradio stage under its coded guard, then the space
stage with the scan-time gradio status. -/
theorem retryGradio_spec (env : Env) (claude_s : StepStatus)
    (b : Paper × PState) (pid : String) (hpid : b.1.paper_id = pid) :
    ∃ t, (retryGradio env claude_s b).events = b.2.events ++ t ∧
      (∀ e ∈ t, retryTailOk pid e) ∧
      stageRunsOf pid t =
        (if (b.1.steps.get .gradio_generation).status = .error ∨
            ((b.1.steps.get .gradio_generation).status = .pending ∧
             claude_s = .completed)
         then [Stage.gradio_generation] else []) ++
        (if (b.1.steps.get .space_upload).status = .error ∨
            ((b.1.steps.get .space_upload).status = .pending ∧
             (b.1.steps.get .gradio_generation).status = .completed)
         then [Stage.space_upload] else []) ∧
      (∀ qid, qid ≠ pid →
        findPaper (retryGradio env claude_s b).db qid =
          findPaper b.2.db qid) := by
  simp only [retryGradio]
  by_cases hg : (b.1.steps.get .gradio_generation).status = .error ∨
      ((b.1.steps.get .gradio_generation).status = .pending ∧
       claude_s = .completed)
  · simp only [if_pos hg]
    obtain ⟨hid, -, -, -, -, hsp, -, -, t₁, ht₁, hcl₁⟩ :=
      processGradioGen_spec env b.1 b.2
    obtain ⟨t₂, ht₂, hok₂, hsr₂, hdb₂⟩ :=
      retrySpace_spec env ((b.1.steps.get .gradio_generation).status)
        (processGradioGen env b.1 b.2).2 pid (hid.trans hpid)
    refine ⟨(Event.stageRun Stage.gradio_generation pid :: t₁) ++ t₂,
      ?_, ?_, ?_, ?_⟩
    · rw [ht₂, ht₁, hpid, List.append_assoc]
    · intro e he
      rcases List.mem_append.mp he with he | he
      · rcases List.mem_cons.mp he with rfl | he
        · exact Or.inl ⟨_, Or.inr (Or.inr (Or.inl rfl)), rfl⟩
        · exact Or.inr (execEvent_of_gradio e (hcl₁ e he))
      · exact hok₂ e he
    · rw [stageRunsOf_append, stageRunsOf_cons_run,
        execEvent_no_run pid t₁
          (fun e he => execEvent_of_gradio e (hcl₁ e he)),
        hsr₂, hsp]
    · intro qid hq
      rw [hdb₂ qid hq]
      exact processGradioGen_db_other env b.1 b.2 qid
        (by rw [hpid]; exact Ne.symm hq)
  · simp only [if_neg hg]
    obtain ⟨t₂, ht₂, hok₂, hsr₂, hdb₂⟩ :=
      retrySpace_spec env ((b.1.steps.get .gradio_generation).status) b pid
        hpid
    exact ⟨t₂, ht₂, hok₂, by rw [hsr₂, List.nil_append], hdb₂⟩

/-- Step-3 retry: the claude stage under its coded guard (with the stale
scan-time repository status), then steps 4–5. -/
theorem retryClaude_spec (env : Env) (repo_s : StepStatus)
    (a : Paper × PState) (pid : String) (hpid : a.1.paper_id = pid) :
    ∃ t, (retryClaude env repo_s a).events = a.2.events ++ t ∧
      (∀ e ∈ t, retryTailOk pid e) ∧
      stageRunsOf pid t =
        (if (a.1.steps.get .claude_init).status = .error ∨
            ((a.1.steps.get .claude_init).status = .pending ∧
             repo_s = .completed)
         then [Stage.claude_init] else []) ++
        (if (a.1.steps.get .gradio_generation).status = .error ∨
            ((a.1.steps.get .gradio_generation).status = .pending ∧
             (a.1.steps.get .claude_init).status = .completed)
         then [Stage.gradio_generation] else []) ++
        (if (a.1.steps.get .space_upload).status = .error ∨
            ((a.1.steps.get .space_upload).status = .pending ∧
             (a.1.steps.get .gradio_generation).status = .completed)
         then [Stage.space_upload] else []) ∧
      (∀ qid, qid ≠ pid →
        findPaper (retryClaude env repo_s a).db qid =
          findPaper a.2.db qid) := by
  simp only [retryClaude]
  by_cases hg : (a.1.steps.get .claude_init).status = .error ∨
      ((a.1.steps.get .claude_init).status = .pending ∧
       repo_s = .completed)
  · simp only [if_pos hg]
    obtain ⟨hid, -, -, -, hgr, hsp, -, -, t₁, ht₁, hcl₁⟩ :=
      processClaudeInit_spec env a.1 a.2
    obtain ⟨t₂, ht₂, hok₂, hsr₂, hdb₂⟩ :=
      retryGradio_spec env ((a.1.steps.get .claude_init).status)
        (processClaudeInit env a.1 a.2).2 pid (hid.trans hpid)
    refine ⟨(Event.stageRun Stage.claude_init pid :: t₁) ++ t₂,
      ?_, ?_, ?_, ?_⟩
    · rw [ht₂, ht₁, hpid, List.append_assoc]
    · intro e he
      rcases List.mem_append.mp he with he | he
      · rcases List.mem_cons.mp he with rfl | he
        · exact Or.inl ⟨_, Or.inr (Or.inl rfl), rfl⟩
        · exact Or.inr (execEvent_of_claude e (hcl₁ e he))
      · exact hok₂ e he
    · rw [stageRunsOf_append, stageRunsOf_cons_run,
        execEvent_no_run pid t₁
          (fun e he => execEvent_of_claude e (hcl₁ e he)),
        hsr₂, hgr, hsp, ← List.append_assoc]
    · intro qid hq
      rw [hdb₂ qid hq]
      exact processClaudeInit_db_other env a.1 a.2 qid
        (by rw [hpid]; exact Ne.symm hq)
  · simp only [if_neg hg]
    obtain ⟨t₂, ht₂, hok₂, hsr₂, hdb₂⟩ :=
      retryGradio_spec env ((a.1.steps.get .claude_init).status) a pid hpid
    exact ⟨t₂, ht₂, hok₂, by rw [hsr₂, List.nil_append], hdb₂⟩

/-- Steps 2–5 of the retry body: the dispatch markers recorded for the paper
are exactly the four guards read off its scan-time statuses, in ascending
stage order. -/
theorem retryStages_spec (env : Env) (p : Paper) (st : PState) (pid : String)
    (hpid : p.paper_id = pid) :
    ∃ t, (retryStages env p st).events = st.events ++ t ∧
      (∀ e ∈ t, retryTailOk pid e) ∧
      stageRunsOf pid t =
        (if (p.steps.get .repo_analysis).status = .error ∨
            (p.steps.get .repo_analysis).status = .pending
         then [Stage.repo_analysis] else []) ++
        (if (p.steps.get .claude_init).status = .error ∨
            ((p.steps.get .claude_init).status = .pending ∧
             (p.steps.get .repo_analysis).status = .completed)
         then [Stage.claude_init] else []) ++
        (if (p.steps.get .gradio_generation).status = .error ∨
            ((p.steps.get .gradio_generation).status = .pending ∧
             (p.steps.get .claude_init).status = .completed)
         then [Stage.gradio_generation] else []) ++
        (if (p.steps.get .space_upload).status = .error ∨
            ((p.steps.get .space_upload).status = .pending ∧
             (p.steps.get .gradio_generation).status = .completed)
         then [Stage.space_upload] else []) ∧
      (∀ qid, qid ≠ pid →
        findPaper (retryStages env p st).db qid = findPaper st.db qid) := by
  simp only [retryStages]
  by_cases hg : (p.steps.get .repo_analysis).status = .error ∨
      (p.steps.get .repo_analysis).status = .pending
  · simp only [if_pos hg]
    obtain ⟨hid, -, -, hcl, hgr, hsp, -, -, t₁, ht₁, hcl₁⟩ :=
      processRepositories_spec env p st
    obtain ⟨t₂, ht₂, hok₂, hsr₂, hdb₂⟩ :=
      retryClaude_spec env ((p.steps.get .repo_analysis).status)
        (processRepositories env p st).2 pid (hid.trans hpid)
    refine ⟨(Event.stageRun Stage.repo_analysis pid :: t₁) ++ t₂,
      ?_, ?_, ?_, ?_⟩
    · rw [ht₂, ht₁, hpid, List.append_assoc]
    · intro e he
      rcases List.mem_append.mp he with he | he
      · rcases List.mem_cons.mp he with rfl | he
        · exact Or.inl ⟨_, Or.inl rfl, rfl⟩
        · exact Or.inr (execEvent_of_clone e (hcl₁ e he))
      · exact hok₂ e he
    · rw [stageRunsOf_append, stageRunsOf_cons_run,
        execEvent_no_run pid t₁
          (fun e he => execEvent_of_clone e (hcl₁ e he)),
        hsr₂, hcl, hgr, hsp, ← List.append_assoc, ← List.append_assoc]
    · intro qid hq
      rw [hdb₂ qid hq]
      exact processRepositories_db_other env p st qid
        (by rw [hpid]; exact Ne.symm hq)
  · simp only [if_neg hg]
    obtain ⟨t₂, ht₂, hok₂, hsr₂, hdb₂⟩ :=
      retryClaude_spec env ((p.steps.get .repo_analysis).status) (p, st) pid
        hpid
    exact ⟨t₂, ht₂, hok₂, by rw [hsr₂]; simp, hdb₂⟩

/-- One retry call: the recorded dispatch markers for the paper equal its
plan, and both trace and store are untouched for every other id. -/
theorem retryOne_spec (env : Env) (st : PState) (pid : String) :
    ∃ t, (retryOne env st pid).events = st.events ++ t ∧
      (∀ e ∈ t, retryTailOk pid e) ∧
      (∀ p, findPaper st.db pid = some p →
        stageRunsOf pid t = retryDispatchPlan p) ∧
      (∀ qid, qid ≠ pid →
        findPaper (retryOne env st pid).db qid = findPaper st.db qid) := by
  simp only [retryOne]
  split
  · next hf =>
      refine ⟨[], by simp, ?_, ?_, fun qid _ => rfl⟩
      · intro e he
        exact nomatch he
      · intro p hp
        rw [hf] at hp
        exact Option.noConfusion hp
  · next q hf =>
      have hqid : q.paper_id = pid := findPaper_id hf
      by_cases hl : (q.steps.get .link_extraction).status = .error
      · rw [if_pos hl]
        refine ⟨[], by simp, ?_, ?_, fun qid _ => rfl⟩
        · intro e he
          exact nomatch he
        · intro p hp
          rw [hf] at hp
          injection hp with hqp
          subst hqp
          simp [retryDispatchPlan, hl, stageRunsOf]
      · rw [if_neg hl]
        obtain ⟨t, ht, hok, hsr, hdb⟩ := retryStages_spec env q st pid hqid
        refine ⟨t, ht, hok, ?_, hdb⟩
        intro p hp
        rw [hf] at hp
        injection hp with hqp
        subst hqp
        rw [hsr]
        simp [retryDispatchPlan, hl]

/-- A retry tail carries no link-extraction dispatch and no page fetch. -/
theorem retryTail_not_fetch (pid : String) (e : Event)
    (h : retryTailOk pid e) :
    (∀ q, e ≠ Event.stageRun Stage.link_extraction q) ∧
    (∀ u, e ≠ Event.fetchPage u) ∧ (∀ u, e ≠ Event.fetchManualUrl u) := by
  simp only [retryTailOk, execEvent] at h
  rcases h with ⟨s, hs, rfl⟩ |
    (⟨u, rfl⟩ | ⟨u, rfl⟩ | ⟨u, rfl⟩ | ⟨u, rfl⟩ | rfl)
  · rcases hs with rfl | rfl | rfl | rfl <;>
      exact ⟨fun q => by simp, fun u => by simp, fun u => by simp⟩
  all_goals exact ⟨fun q => by simp, fun u => by simp, fun u => by simp⟩

/-- Folding retries over a list of ids: the new events are classified retry
tails; absent ids are untouched in store and trace; under distinct ids each
id's dispatch markers equal its paper's plan. -/
theorem retryFold_spec (env : Env) :
    ∀ (pids : List String) (st : PState),
      ∃ t, (pids.foldl (retryOne env) st).events = st.events ++ t ∧
        (∀ e ∈ t, ∃ pid, pid ∈ pids ∧ retryTailOk pid e) ∧
        (∀ qid, qid ∉ pids →
          findPaper (pids.foldl (retryOne env) st).db qid =
              findPaper st.db qid ∧
            stageRunsOf qid t = []) ∧
        (pids.Nodup →
          ∀ pid p, pid ∈ pids → findPaper st.db pid = some p →
            stageRunsOf pid t = retryDispatchPlan p) := by
  intro pids
  induction pids with
  | nil =>
      intro st
      refine ⟨[], by simp, ?_, ?_, ?_⟩
      · intro e he
        exact nomatch he
      · intro qid _
        exact ⟨rfl, rfl⟩
      · intro _ pid p hmem _
        exact nomatch hmem
  | cons q rest ih =>
      intro st
      obtain ⟨t₁, ht₁, hok₁, hplan₁, hdb₁⟩ := retryOne_spec env st q
      obtain ⟨t₂, ht₂, hok₂, hoth₂, hnd₂⟩ := ih (retryOne env st q)
      refine ⟨t₁ ++ t₂, ?_, ?_, ?_, ?_⟩
      · rw [List.foldl_cons, ht₂, ht₁, List.append_assoc]
      · intro e he
        rcases List.mem_append.mp he with he | he
        · exact ⟨q, List.mem_cons_self _ _, hok₁ e he⟩
        · obtain ⟨pid, hm, hok⟩ := hok₂ e he
          exact ⟨pid, List.mem_cons_of_mem _ hm, hok⟩
      · intro qid hq
        have hq1 : qid ≠ q := fun hc => hq (hc ▸ List.mem_cons_self _ _)
        have hq2 : qid ∉ rest := fun hc => hq (List.mem_cons_of_mem _ hc)
        refine ⟨?_, ?_⟩
        · rw [List.foldl_cons, (hoth₂ qid hq2).1, hdb₁ qid hq1]
        · rw [stageRunsOf_append,
            retryTail_no_run q qid hq1 t₁ hok₁, List.nil_append,
            (hoth₂ qid hq2).2]
      · intro hnd pid p hmem hp
        rcases List.mem_cons.mp hmem with rfl | hmem
        · have hq2 : pid ∉ rest := (List.nodup_cons.mp hnd).1
          rw [stageRunsOf_append, hplan₁ p hp, (hoth₂ pid hq2).2,
            List.append_nil]
        · have hq1 : pid ≠ q := fun hc =>
            (List.nodup_cons.mp hnd).1 (hc ▸ hmem)
          rw [stageRunsOf_append,
            retryTail_no_run q pid hq1 t₁ hok₁, List.nil_append]
          refine hnd₂ (List.nodup_cons.mp hnd).2 pid p hmem ?_
          rw [hdb₁ pid hq1]
          exact hp

/-- Under unique ids, each stored paper is found by its own id. -/
theorem findPaper_of_mem :
    ∀ (db : List Paper), (db.map (fun q => q.paper_id)).Nodup →
      ∀ p : Paper, p ∈ db → findPaper db p.paper_id = some p := by
  intro db
  induction db with
  | nil => intro _ p hp; exact nomatch hp
  | cons r rest ih =>
      intro hnd p hp
      rw [List.map_cons, List.nodup_cons] at hnd
      rcases List.mem_cons.mp hp with rfl | hp
      · simp [findPaper, List.find?]
      · have hne : ¬(r.paper_id = p.paper_id) := by
          intro hc
          exact hnd.1 (hc ▸ List.mem_map_of_mem _ hp)
        have hrec := ih hnd.2 p hp
        simp only [findPaper] at hrec ⊢
        simp [List.find?, hne, hrec]

/-- Under unique ids, two stored papers with the same id coincide. -/
theorem eq_of_mem_nodup_ids {db : List Paper}
    (hnd : (db.map (fun q => q.paper_id)).Nodup) {p p' : Paper}
    (hp : p ∈ db) (hp' : p' ∈ db) (h : p'.paper_id = p.paper_id) :
    p' = p :=
  List.inj_on_of_nodup_map hnd hp' hp h

/-- C4 (amended): `retry_failed_jobs` never dispatches `link_extraction` and
triggers no page fetch; an entity that is neither in aggregate `error` nor
has a step in `error` gets no stage dispatched; and each selected entity's
dispatch markers are exactly `retryDispatchPlan`: nothing when its
`link_extraction` is in `error` (the entity is skipped entirely), otherwise
stages 2–5 in ascending order, where `repo_analysis` is retried on `error`
or `pending` with no prerequisite check, and each later stage on `error`,
or `pending` with the scan-time status of the preceding stage
`completed`. -/
theorem retry_failed_dispatch_rules (env : Env) (db : List Paper)
    (tick : Nat) (hnd : (db.map (fun p => p.paper_id)).Nodup) :
    (∀ pid, Event.stageRun Stage.link_extraction pid ∉
        (retry_failed_jobs env ⟨db, tick, []⟩).events) ∧
    (∀ u, Event.fetchPage u ∉
        (retry_failed_jobs env ⟨db, tick, []⟩).events) ∧
    (∀ u, Event.fetchManualUrl u ∉
        (retry_failed_jobs env ⟨db, tick, []⟩).events) ∧
    (∀ p, p ∈ db →
      ¬(p.processing_status = .error ∨ hasErrorStep p = true) →
      stageRunsOf p.paper_id (retry_failed_jobs env ⟨db, tick, []⟩).events
        = []) ∧
    (∀ p, p ∈ db →
      (p.processing_status = .error ∨ hasErrorStep p = true) →
      stageRunsOf p.paper_id (retry_failed_jobs env ⟨db, tick, []⟩).events
        = retryDispatchPlan p) := by
  simp only [retry_failed_jobs]
  by_cases hemp : (db.isEmpty : Bool) = true
  · rw [if_pos hemp]
    have hdb : db = [] := by simpa using hemp
    subst hdb
    refine ⟨?_, ?_, ?_, ?_, ?_⟩ <;> simp
  · rw [if_neg hemp]
    by_cases hfail : ((db.filter (fun p =>
        decide (p.processing_status = ProcStatus.error) ||
          hasErrorStep p)).isEmpty : Bool) = true
    · rw [if_pos hfail]
      have hf0 : db.filter (fun p =>
          decide (p.processing_status = ProcStatus.error) ||
            hasErrorStep p) = [] := by
        simpa using hfail
      refine ⟨?_, ?_, ?_, ?_, ?_⟩
      · intro pid h; exact nomatch h
      · intro u h; exact nomatch h
      · intro u h; exact nomatch h
      · intro p _ _; rfl
      · intro p hp hsel
        have hself : (decide (p.processing_status = .error) ||
            hasErrorStep p) = true := by
          rcases hsel with h | h <;> simp [h]
        have : p ∈ db.filter (fun p =>
            decide (p.processing_status = ProcStatus.error) ||
              hasErrorStep p) :=
          List.mem_filter.mpr ⟨hp, hself⟩
        rw [hf0] at this
        exact nomatch this
    · rw [if_neg hfail]
      obtain ⟨t, ht, hok, hoth, hnod⟩ := retryFold_spec env
        ((db.filter (fun p =>
            decide (p.processing_status = ProcStatus.error) ||
              hasErrorStep p)).map (fun p => p.paper_id)) ⟨db, tick, []⟩
      refine ⟨?_, ?_, ?_, ?_, ?_⟩
      · intro pid hmem
        rw [ht] at hmem
        rcases List.mem_append.mp hmem with h | h
        · exact nomatch h
        · obtain ⟨pid', -, hokk⟩ := hok _ h
          exact ((retryTail_not_fetch pid' _ hokk).1 pid) rfl
      · intro u hmem
        rw [ht] at hmem
        rcases List.mem_append.mp hmem with h | h
        · exact nomatch h
        · obtain ⟨pid', -, hokk⟩ := hok _ h
          exact ((retryTail_not_fetch pid' _ hokk).2.1 u) rfl
      · intro u hmem
        rw [ht] at hmem
        rcases List.mem_append.mp hmem with h | h
        · exact nomatch h
        · obtain ⟨pid', -, hokk⟩ := hok _ h
          exact ((retryTail_not_fetch pid' _ hokk).2.2 u) rfl
      · intro p hp hsel
        have hnotin : p.paper_id ∉ (db.filter (fun q =>
            decide (q.processing_status = ProcStatus.error) ||
              hasErrorStep q)).map (fun q => q.paper_id) := by
          intro hc
          obtain ⟨p', hp', hpe⟩ := List.mem_map.mp hc
          have hp'db : p' ∈ db := (List.mem_filter.mp hp').1
          have hsel' := (List.mem_filter.mp hp').2
          have hpp : p' = p := eq_of_mem_nodup_ids hnd hp hp'db hpe
          subst hpp
          simp only [Bool.or_eq_true, decide_eq_true_eq] at hsel'
          exact hsel hsel'
        rw [ht, stageRunsOf_append, (hoth _ hnotin).2]
        simp [stageRunsOf]
      · intro p hp hsel
        have hself : (decide (p.processing_status = .error) ||
            hasErrorStep p) = true := by
          rcases hsel with h | h <;> simp [h]
        have hmemf : p ∈ db.filter (fun q =>
            decide (q.processing_status = ProcStatus.error) ||
              hasErrorStep q) :=
          List.mem_filter.mpr ⟨hp, hself⟩
        have hmpid : p.paper_id ∈ (db.filter (fun q =>
            decide (q.processing_status = ProcStatus.error) ||
              hasErrorStep q)).map (fun q => q.paper_id) :=
          List.mem_map_of_mem _ hmemf
        have hndp : ((db.filter (fun q =>
            decide (q.processing_status = ProcStatus.error) ||
              hasErrorStep q)).map (fun q => q.paper_id)).Nodup :=
          List.Nodup.sublist
            (List.Sublist.map _ (List.filter_sublist db)) hnd
        rw [ht, stageRunsOf_append,
          hnod hndp p.paper_id p hmpid (findPaper_of_mem db hnd p hp)]
        simp [stageRunsOf]

/-- C4, counterexample: a failed entity whose `link_extraction` is still
`in_progress` and whose `repo_analysis` is `pending` has its repository
stage re-dispatched even though the preceding stage never completed — the
`repo_status in (ERROR, PENDING)` guard of `processor.py` line 465 checks
no prerequisite, contradicting the claim that `pending` stages are retried
only when the preceding stage is completed. -/
theorem retry_redispatches_pending_without_prerequisite :
    (paperC4.steps.get .link_extraction).status ≠ .completed ∧
    (paperC4.steps.get .repo_analysis).status = .pending ∧
    Event.stageRun Stage.repo_analysis "p1" ∈
      (retry_failed_jobs envC4 ⟨[paperC4], 0, []⟩).events := by
  refine ⟨by decide, by decide, ?_⟩
  decide

/-- C4, witness: the dispatch-rules theorem applied to a one-entry store
whose entity is in aggregate `error`; its plan evaluates to a bare
repository-stage dispatch. -/
theorem retry_failed_dispatch_rules_witness :
    ([paperC4].map (fun p => p.paper_id)).Nodup ∧
    stageRunsOf paperC4.paper_id
        (retry_failed_jobs envC4 ⟨[paperC4], 0, []⟩).events =
      retryDispatchPlan paperC4 ∧
    retryDispatchPlan paperC4 = [Stage.repo_analysis] :=
  ⟨by decide,
   (retry_failed_dispatch_rules envC4 [paperC4] 0 (by decide)).2.2.2.2
     paperC4 (List.mem_cons_self _ _) (Or.inl rfl),
   by decide⟩

theorem savedAfterEachClone_nil : savedAfterEachClone [] := by
  intro i u hi
  simp at hi

theorem savedAfterEachClone_cons_of (e : Event) (t : List Event)
    (he : ∀ u, e ≠ Event.clone u) (h : savedAfterEachClone t) :
    savedAfterEachClone (e :: t) := by
  intro i u hi
  match i with
  | 0 =>
      simp only [List.getElem?_cons_zero, Option.some_inj] at hi
      exact absurd hi (he u)
  | n + 1 =>
      simp only [List.getElem?_cons_succ] at hi ⊢
      exact h n u hi

theorem savedAfterEachClone_pair (v : String) (t : List Event)
    (h : savedAfterEachClone t) :
    savedAfterEachClone (Event.clone v :: Event.save :: t) := by
  intro i u hi
  match i with
  | 0 => simp
  | 1 => simp at hi
  | n + 2 =>
      simp only [List.getElem?_cons_succ] at hi ⊢
      exact h n u hi

theorem savedAfterEachClone_append_save (t : List Event)
    (h : savedAfterEachClone t) :
    savedAfterEachClone (t ++ [Event.save]) := by
  intro i u hi
  by_cases hlt : i < t.length
  · have hti : t[i]? = some (Event.clone u) := by
      rw [List.getElem?_append, if_pos hlt] at hi
      exact hi
    have hnext := h i u hti
    have hlt2 : i + 1 < t.length := by
      rcases List.getElem?_eq_some.mp hnext with ⟨hl, -⟩
      exact hl
    rw [List.getElem?_append, if_pos hlt2]
    exact hnext
  · rw [List.getElem?_append, if_neg hlt] at hi
    cases hk : i - t.length with
    | zero => rw [hk] at hi; simp at hi
    | succ n => rw [hk] at hi; simp at hi

theorem clone_repository_url (env : Env) (url : String) (tick : Nat) :
    (clone_repository env url tick).1.url = url := by
  simp only [clone_repository]
  split <;> rfl

theorem find?_append_some {α} (f : α → Bool) :
    ∀ (l : List α) (l' : List α) (r : α), l.find? f = some r →
      (l ++ l').find? f = some r := by
  intro l
  induction l with
  | nil => intro l' r h; simp [List.find?] at h
  | cons a rest ih =>
      intro l' r h
      rw [List.cons_append]
      cases hf : f a with
      | true =>
          rw [List.find?_cons_of_pos _ hf] at h ⊢
          exact h
      | false =>
          rw [List.find?_cons_of_neg _ (by simp [hf])] at h ⊢
          exact ih l' r h

theorem find?_append_none {α} (f : α → Bool) :
    ∀ (l : List α) (l' : List α), l.find? f = none →
      (l ++ l').find? f = l'.find? f := by
  intro l
  induction l with
  | nil => intro l' _; rfl
  | cons a rest ih =>
      intro l' h
      rw [List.cons_append]
      cases hf : f a with
      | true => rw [List.find?_cons_of_pos _ hf] at h; exact nomatch h
      | false =>
          rw [List.find?_cons_of_neg _ (by simp [hf])] at h ⊢
          exact ih l' h

/-- Replacing the entry of a different URL leaves a URL's lookup unchanged. -/
theorem find?_replaceFirstByUrl_ne (u v : String) (ct : RepoRec)
    (hcu : ct.url = v) (hne : v ≠ u) :
    ∀ l : List RepoRec,
      (replaceFirstByUrl l v ct).find? (fun q => q.url = u) =
        l.find? (fun q => q.url = u) := by
  intro l
  induction l with
  | nil => rfl
  | cons x rest ih =>
      by_cases hx : x.url = v
      · rw [replaceFirstByUrl, if_pos hx]
        have h1 : decide (ct.url = u) = false := by simp [hcu, hne]
        have h2 : decide (x.url = u) = false := by simp [hx, hne]
        simp only [List.find?_cons, h1, h2]
      · rw [replaceFirstByUrl, if_neg hx]
        simp only [List.find?_cons]
        cases hxu : decide (x.url = u) with
        | true => rfl
        | false => exact ih

theorem applyStatusStamp_counters (r : StepRec) (s : StepStatus)
    (tick : Nat) :
    ((applyStatusStamp r s tick).1.reposFound,
     (applyStatusStamp r s tick).1.reposCloned) =
    (r.reposFound, r.reposCloned) := by
  simp only [applyStatusStamp]
  split
  · split <;> rfl
  · split <;> rfl

theorem update_step_status_get_reposFound (p : Paper) (n : StepName)
    (s : StepStatus) (e : Option String) (tick : Nat) :
    ((update_step_status p n s e tick).1.steps.get n).reposFound =
      (p.steps.get n).reposFound := by
  have hc := congrArg Prod.fst
    (applyStatusStamp_counters (p.steps.get n) s (tick + 1))
  cases e <;>
    simpa [update_step_status, Steps.get_set_same] using hc

theorem update_step_status_get_reposCloned (p : Paper) (n : StepName)
    (s : StepStatus) (e : Option String) (tick : Nat) :
    ((update_step_status p n s e tick).1.steps.get n).reposCloned =
      (p.steps.get n).reposCloned := by
  have hc := congrArg Prod.snd
    (applyStatusStamp_counters (p.steps.get n) s (tick + 1))
  cases e <;>
    simpa [update_step_status, Steps.get_set_same] using hc

/-- Extend a saved-after-each-clone tail across one clone/save block. -/
theorem saved_ext_compose {res st' st : PState}
    (h : ∃ t, res.events = st'.events ++ t ∧ savedAfterEachClone t)
    (v : String)
    (h1 : st'.events = st.events ++ [Event.clone v, Event.save]) :
    ∃ t, res.events = st.events ++ t ∧ savedAfterEachClone t := by
  obtain ⟨t, ht, hs⟩ := h
  refine ⟨Event.clone v :: Event.save :: t, ?_,
    savedAfterEachClone_pair v t hs⟩
  rw [ht, h1]
  simp

/-- The clone loop persists the store right after every clone. -/
theorem reposLoop_saved (env : Env) (urls : List String) :
    ∀ (acc : Nat) (p : Paper) (st : PState),
      ∃ t, (reposLoop env urls acc p st).2.2.events = st.events ++ t ∧
        savedAfterEachClone t := by
  induction urls with
  | nil =>
      intro acc p st
      exact ⟨[], by simp [reposLoop], savedAfterEachClone_nil⟩
  | cons url rest ih =>
      intro acc p st
      simp only [reposLoop]
      split
      · next r hf =>
          by_cases h1 : r.status = RepoStatus.cloned
          · rw [if_pos h1]; exact ih _ _ _
          · rw [if_neg h1]
            exact saved_ext_compose (ih _ _ _) url (by simp [saveWith, emit])
      · next hf =>
          exact saved_ext_compose (ih _ _ _) url (by simp [saveWith, emit])

/-- A URL whose first repository record is already `cloned` keeps that exact
record through the clone loop, and the loop never emits a clone event for
it. -/
theorem reposLoop_cloned_stable (env : Env) (urls : List String) :
    ∀ (acc : Nat) (p : Paper) (st : PState) (u : String) (r : RepoRec),
      p.repositories.find? (fun q => q.url = u) = some r →
      r.status = RepoStatus.cloned →
      (reposLoop env urls acc p st).2.1.repositories.find?
          (fun q => q.url = u) = some r ∧
      ∀ t, (reposLoop env urls acc p st).2.2.events = st.events ++ t →
        Event.clone u ∉ t := by
  induction urls with
  | nil =>
      intro acc p st u r hfind hcl
      refine ⟨hfind, ?_⟩
      intro t ht
      simp only [reposLoop] at ht
      have hlen := congrArg List.length ht
      simp at hlen
      subst hlen
      exact List.not_mem_nil _
  | cons url rest ih =>
      intro acc p st u r hfind hcl
      simp only [reposLoop]
      split
      · next r' hf =>
          by_cases h1 : r'.status = RepoStatus.cloned
          · rw [if_pos h1]
            exact ih _ _ _ u r hfind hcl
          · rw [if_neg h1]
            by_cases hu : url = u
            · subst hu
              rw [hfind] at hf
              injection hf with h2
              rw [← h2] at h1
              exact absurd hcl h1
            · refine ⟨(ih _ _ _ u r (by
                  exact (find?_replaceFirstByUrl_ne u url _
                    (clone_repository_url env url _) hu
                    p.repositories).trans hfind) hcl).1, ?_⟩
              intro t ht
              obtain ⟨t', ht', -⟩ := reposLoop_events env rest _ _ _
              rw [ht'] at ht
              have hteq : st.events ++ t =
                  st.events ++ (Event.clone url :: Event.save :: t') := by
                rw [← ht]
                simp [saveWith, emit]
              rw [List.append_cancel_left hteq]
              intro hmem
              rcases List.mem_cons.mp hmem with heq | hmem
              · injection heq with h3
                exact hu h3.symm
              · rcases List.mem_cons.mp hmem with heq | hmem
                · exact Event.noConfusion heq
                · exact (ih _ _ _ u r (by
                      exact (find?_replaceFirstByUrl_ne u url _
                        (clone_repository_url env url _) hu
                        p.repositories).trans hfind) hcl).2 t' ht' hmem
      · next hf =>
          by_cases hu : url = u
          · subst hu
            rw [hfind] at hf
            exact nomatch hf
          · refine ⟨(ih _ _ _ u r (by
                exact find?_append_some _ _ _ _ hfind) hcl).1, ?_⟩
            intro t ht
            obtain ⟨t', ht', -⟩ := reposLoop_events env rest _ _ _
            rw [ht'] at ht
            have hteq : st.events ++ t =
                st.events ++ (Event.clone url :: Event.save :: t') := by
              rw [← ht]
              simp [saveWith, emit]
            rw [List.append_cancel_left hteq]
            intro hmem
            rcases List.mem_cons.mp hmem with heq | hmem
            · injection heq with h3
              exact hu h3.symm
            · rcases List.mem_cons.mp hmem with heq | hmem
              · exact Event.noConfusion heq
              · exact (ih _ _ _ u r (by
                    exact find?_append_some _ _ _ _ hfind) hcl).2 t' ht' hmem

/-- On a paper none of whose listed URLs has a repository record yet, the
clone loop appends exactly one record per listed URL (in order) and the
counter ends equal to the number of records with status `cloned`. -/
theorem reposLoop_fresh (env : Env) (urls : List String) :
    ∀ (acc : Nat) (p : Paper) (st : PState),
      urls.Nodup →
      (∀ u ∈ urls, p.repositories.find? (fun q => q.url = u) = none) →
      acc = (p.repositories.filter
        (fun q => q.status = RepoStatus.cloned)).length →
      (reposLoop env urls acc p st).1 =
        ((reposLoop env urls acc p st).2.1.repositories.filter
          (fun q => q.status = RepoStatus.cloned)).length ∧
      (reposLoop env urls acc p st).2.1.repositories.map (fun q => q.url) =
        p.repositories.map (fun q => q.url) ++ urls := by
  induction urls with
  | nil =>
      intro acc p st _ _ hacc
      exact ⟨hacc, by simp [reposLoop]⟩
  | cons url rest ih =>
      intro acc p st hnd h0 hacc
      have hfu : p.repositories.find? (fun q => q.url = url) = none :=
        h0 url (List.mem_cons_self _ _)
      simp only [reposLoop]
      split
      · next r' hf =>
          rw [hfu] at hf
          exact nomatch hf
      · next hf =>
          have hnd' := (List.nodup_cons.mp hnd).2
          constructor
          · exact (ih _ _ _ hnd' (by
              intro u hu
              have hone : p.repositories.find? (fun q => q.url = u)
                  = none := h0 u (List.mem_cons_of_mem _ hu)
              rw [find?_append_none _ _ _ hone]
              have hne : ¬((clone_repository env url
                  (emit (Event.clone url) st).tick).1.url = u) := by
                rw [clone_repository_url]
                intro hc
                exact (List.nodup_cons.mp hnd).1 (hc ▸ hu)
              simp [List.find?_cons, hne]) (by
              rw [List.filter_append, List.length_append, ← hacc]
              by_cases hcl : (clone_repository env url
                  (emit (Event.clone url) st).tick).1.status =
                  RepoStatus.cloned
              · rw [if_pos hcl]
                simp [List.filter_cons, hcl]
              · rw [if_neg hcl]
                simp [List.filter_cons, hcl])).1
          · rw [(ih _ _ _ hnd' (by
              intro u hu
              have hone : p.repositories.find? (fun q => q.url = u)
                  = none := h0 u (List.mem_cons_of_mem _ hu)
              rw [find?_append_none _ _ _ hone]
              have hne : ¬((clone_repository env url
                  (emit (Event.clone url) st).tick).1.url = u) := by
                rw [clone_repository_url]
                intro hc
                exact (List.nodup_cons.mp hnd).1 (hc ▸ hu)
              simp [List.find?_cons, hne]) (by
              rw [List.filter_append, List.length_append, ← hacc]
              by_cases hcl : (clone_repository env url
                  (emit (Event.clone url) st).tick).1.status =
                  RepoStatus.cloned
              · rw [if_pos hcl]
                simp [List.filter_cons, hcl]
              · rw [if_neg hcl]
                simp [List.filter_cons, hcl])).2]
            simp [List.map_append, clone_repository_url]

theorem repoAnalysisRun_eq (env : Env) (p : Paper) (st : PState) :
    repoAnalysisRun env p st =
      repoAnalysisFinish
        (reposLoop env (repoAnalysisPrep p st).1.links.code_repositories 0
          (repoAnalysisPrep p st).1 (repoAnalysisPrep p st).2) := rfl

theorem repoAnalysisPrep_spec (p : Paper) (st : PState) :
    (repoAnalysisPrep p st).1.links = p.links ∧
    (repoAnalysisPrep p st).1.repositories = p.repositories ∧
    ((repoAnalysisPrep p st).1.steps.get .repo_analysis).reposFound =
      p.links.code_repositories.length ∧
    (repoAnalysisPrep p st).2.events = st.events := by
  refine ⟨?_, ?_, ?_, ?_⟩
  · simp [repoAnalysisPrep, updStep, update_step_status_links, setStepRec]
  · simp [repoAnalysisPrep, updStep, update_step_status_repositories,
      setStepRec]
  · simp [repoAnalysisPrep, updStep, setStepRec_get_same,
      update_step_status_get_reposFound]
  · simp [repoAnalysisPrep, updStep_events]

theorem repoAnalysisFinish_spec (y : Nat × Paper × PState) :
    (repoAnalysisFinish y).1 = y.1 ∧
    (repoAnalysisFinish y).2.1.repositories = y.2.1.repositories ∧
    ((repoAnalysisFinish y).2.1.steps.get .repo_analysis).status =
      StepStatus.completed ∧
    ((repoAnalysisFinish y).2.1.steps.get .repo_analysis).reposFound =
      (y.2.1.steps.get .repo_analysis).reposFound ∧
    ((repoAnalysisFinish y).2.1.steps.get .repo_analysis).reposCloned =
      y.1 ∧
    (repoAnalysisFinish y).2.2.events = y.2.2.events ++ [Event.save] := by
  refine ⟨rfl, ?_, ?_, ?_, ?_, ?_⟩
  · simp [repoAnalysisFinish, updStep, update_step_status_repositories,
      setStepRec]
  · simp [repoAnalysisFinish, updStep, update_step_status_get_status]
  · simp [repoAnalysisFinish, updStep, update_step_status_get_reposFound,
      setStepRec_get_same]
  · simp [repoAnalysisFinish, updStep, update_step_status_get_reposCloned,
      setStepRec_get_same]
  · simp [repoAnalysisFinish, saveWith, emit, updStep_events]

/-- C5: the repository-acquisition stage ends `skipped` exactly on an empty
link list and `completed` otherwise (also when individual clones fail);
`repos_found` is the number of listed URLs and `repos_cloned` the returned
count, both recorded in the step record; the store is persisted right after
every clone; a URL already recorded `cloned` keeps its record untouched and
is never re-cloned; and on a fresh entity with distinct listed URLs the
count equals the number of repository records with status `cloned`, with
one record per listed URL, in order. -/
theorem process_repositories_contract (env : Env) (p : Paper)
    (st : PState) :
    ((processRepositories env p st).2.1.steps.get .repo_analysis).status =
      (if p.links.code_repositories.isEmpty then StepStatus.skipped
       else StepStatus.completed) ∧
    ((processRepositories env p st).2.1.steps.get .repo_analysis).reposFound
      = p.links.code_repositories.length ∧
    ((processRepositories env p st).2.1.steps.get .repo_analysis).reposCloned
      = (processRepositories env p st).1 ∧
    (∃ t, (processRepositories env p st).2.2.events = st.events ++ t ∧
      savedAfterEachClone t) ∧
    (∀ u r, p.repositories.find? (fun q => q.url = u) = some r →
      r.status = RepoStatus.cloned →
      (processRepositories env p st).2.1.repositories.find?
          (fun q => q.url = u) = some r ∧
      ∀ t, (processRepositories env p st).2.2.events = st.events ++ t →
        Event.clone u ∉ t) ∧
    (p.repositories = [] → p.links.code_repositories.Nodup →
      (processRepositories env p st).1 =
        ((processRepositories env p st).2.1.repositories.filter
          (fun q => q.status = RepoStatus.cloned)).length ∧
      (processRepositories env p st).2.1.repositories.map (fun q => q.url)
        = p.links.code_repositories) := by
  by_cases hempty : p.links.code_repositories.isEmpty = true
  case pos =>
    have hnil : p.links.code_repositories = [] := by simpa using hempty
    have hev : (processRepositories env p st).2.2.events =
        st.events ++ [Event.stageRun Stage.repo_analysis p.paper_id,
          Event.save] := by
      simp [processRepositories, hempty, updStep, saveWith, emit]
    refine ⟨?_, ?_, ?_, ?_, ?_, ?_⟩
    · rw [if_pos hempty]
      simp [processRepositories, hempty, updStep, setStepRec,
        Steps.get_set_same, update_step_status_get_status]
    · simp [processRepositories, hempty, updStep, setStepRec,
        Steps.get_set_same, hnil]
    · simp [processRepositories, hempty, updStep, setStepRec,
        Steps.get_set_same]
    · refine ⟨[Event.stageRun Stage.repo_analysis p.paper_id, Event.save],
        hev, ?_⟩
      refine savedAfterEachClone_cons_of _ _
        (fun u hc => Event.noConfusion hc) ?_
      exact savedAfterEachClone_cons_of _ _
        (fun u hc => Event.noConfusion hc) savedAfterEachClone_nil
    · intro u r hfind hcl
      constructor
      · simpa [processRepositories, hempty, updStep,
          update_step_status_repositories, setStepRec, saveWith] using hfind
      · intro t ht
        rw [hev] at ht
        rw [← List.append_cancel_left ht]
        intro hmem
        rcases List.mem_cons.mp hmem with heq | hmem
        · exact Event.noConfusion heq
        · rcases List.mem_cons.mp hmem with heq | hmem
          · exact Event.noConfusion heq
          · exact List.not_mem_nil _ hmem
    · intro hfresh hnd
      constructor
      · simp [processRepositories, hempty, updStep,
          update_step_status_repositories, setStepRec, saveWith, hfresh]
      · simp [processRepositories, hempty, updStep,
          update_step_status_repositories, setStepRec, saveWith, hfresh,
          hnil]
  case neg =>
    have hrun : processRepositories env p st =
        repoAnalysisRun env p
          (emit (Event.stageRun Stage.repo_analysis p.paper_id) st) := by
      simp [processRepositories, hempty]
    rw [hrun, repoAnalysisRun_eq, if_neg hempty]
    refine ⟨?_, ?_, ?_, ?_, ?_, ?_⟩
    · exact (repoAnalysisFinish_spec _).2.2.1
    · rw [(repoAnalysisFinish_spec _).2.2.2.1, reposLoop_steps]
      exact (repoAnalysisPrep_spec p _).2.2.1
    · rw [(repoAnalysisFinish_spec _).2.2.2.2.1,
        (repoAnalysisFinish_spec _).1]
    · obtain ⟨t0, ht0, hs0⟩ := reposLoop_saved env
        ((repoAnalysisPrep p (emit (Event.stageRun Stage.repo_analysis
          p.paper_id) st)).1.links.code_repositories) 0
        ((repoAnalysisPrep p (emit (Event.stageRun Stage.repo_analysis
          p.paper_id) st)).1)
        ((repoAnalysisPrep p (emit (Event.stageRun Stage.repo_analysis
          p.paper_id) st)).2)
      refine ⟨Event.stageRun Stage.repo_analysis p.paper_id ::
        (t0 ++ [Event.save]), ?_, ?_⟩
      · rw [(repoAnalysisFinish_spec _).2.2.2.2.2, ht0,
          (repoAnalysisPrep_spec p _).2.2.2, emit_events]
        simp
      · exact savedAfterEachClone_cons_of _ _
          (fun u hc => Event.noConfusion hc)
          (savedAfterEachClone_append_save t0 hs0)
    · intro u r hfind hcl
      constructor
      · rw [(repoAnalysisFinish_spec _).2.1]
        exact (reposLoop_cloned_stable env _ 0 _ _ u r (by
          rw [(repoAnalysisPrep_spec p _).2.1]; exact hfind) hcl).1
      · intro t ht
        rw [(repoAnalysisFinish_spec _).2.2.2.2.2] at ht
        obtain ⟨t0, ht0, -⟩ := reposLoop_events env
          ((repoAnalysisPrep p (emit (Event.stageRun Stage.repo_analysis
            p.paper_id) st)).1.links.code_repositories) 0
          ((repoAnalysisPrep p (emit (Event.stageRun Stage.repo_analysis
            p.paper_id) st)).1)
          ((repoAnalysisPrep p (emit (Event.stageRun Stage.repo_analysis
            p.paper_id) st)).2)
        have hteq : st.events ++ t = st.events ++
            (Event.stageRun Stage.repo_analysis p.paper_id ::
              (t0 ++ [Event.save])) := by
          rw [← ht, ht0, (repoAnalysisPrep_spec p _).2.2.2, emit_events]
          simp
        rw [List.append_cancel_left hteq]
        intro hmem
        rcases List.mem_cons.mp hmem with heq | hmem
        · exact Event.noConfusion heq
        · rcases List.mem_append.mp hmem with hmem | hmem
          · exact (reposLoop_cloned_stable env _ 0 _ _ u r (by
              rw [(repoAnalysisPrep_spec p _).2.1]; exact hfind) hcl).2
              t0 ht0 hmem
          · rcases List.mem_cons.mp hmem with heq | hmem
            · exact Event.noConfusion heq
            · exact List.not_mem_nil _ hmem
    · intro hfresh hnd
      have FR := reposLoop_fresh env
        ((repoAnalysisPrep p (emit (Event.stageRun Stage.repo_analysis
          p.paper_id) st)).1.links.code_repositories) 0
        ((repoAnalysisPrep p (emit (Event.stageRun Stage.repo_analysis
          p.paper_id) st)).1)
        ((repoAnalysisPrep p (emit (Event.stageRun Stage.repo_analysis
          p.paper_id) st)).2)
        (by rw [(repoAnalysisPrep_spec p _).1]; exact hnd)
        (by intro u hu
            rw [(repoAnalysisPrep_spec p _).2.1, hfresh]
            rfl)
        (by rw [(repoAnalysisPrep_spec p _).2.1, hfresh]
            rfl)
      constructor
      · rw [(repoAnalysisFinish_spec _).1, (repoAnalysisFinish_spec _).2.1]
        exact FR.1
      · rw [(repoAnalysisFinish_spec _).2.1, FR.2,
          (repoAnalysisPrep_spec p _).2.1, hfresh,
          (repoAnalysisPrep_spec p _).1]
        simp

/-- C5, witness: the contract applied to a fresh two-URL entity whose second
clone fails (count 1 of 2, status still `completed`) and to an entity whose
sole URL is already recorded `cloned` (counted, record untouched, no clone
event). -/
theorem process_repositories_contract_witness :
    (paperC5.repositories = [] ∧ paperC5.links.code_repositories.Nodup ∧
      (processRepositories envC5 paperC5 ⟨[paperC5], 0, []⟩).1 =
        ((processRepositories envC5 paperC5
          ⟨[paperC5], 0, []⟩).2.1.repositories.filter
            (fun q => q.status = RepoStatus.cloned)).length) ∧
    (processRepositories envC5 paperC5 ⟨[paperC5], 0, []⟩).1 = 1 ∧
    ((processRepositories envC5 paperC5
      ⟨[paperC5], 0, []⟩).2.1.steps.get .repo_analysis).status =
        StepStatus.completed ∧
    (processRepositories envC5 paperC5b ⟨[paperC5b], 0, []⟩).1 = 1 ∧
    (processRepositories envC5 paperC5b
        ⟨[paperC5b], 0, []⟩).2.1.repositories.find?
          (fun q => q.url = "https://github.com/o/r1") = some recC5 ∧
    Event.clone "https://github.com/o/r1" ∉
      (processRepositories envC5 paperC5b ⟨[paperC5b], 0, []⟩).2.2.events :=
  ⟨⟨rfl, by decide,
    ((process_repositories_contract envC5 paperC5
        ⟨[paperC5], 0, []⟩).2.2.2.2.2 rfl (by decide)).1⟩,
   by decide, by decide, by decide,
   ((process_repositories_contract envC5 paperC5b
       ⟨[paperC5b], 0, []⟩).2.2.2.2.1 "https://github.com/o/r1" recC5
     (by decide) rfl).1,
   by decide⟩

/-! ## C9 / C10 — manual submission machinery -/

/-- Appending a fresh entry makes it the lookup result for its id. -/
theorem findPaper_append_self (db : List Paper) (q : Paper) (pid : String)
    (hnew : findPaper db pid = none) (hq : q.paper_id = pid) :
    findPaper (db ++ [q]) pid = some q := by
  simp only [findPaper] at hnew ⊢
  rw [find?_append_none _ _ _ hnew]
  simp [List.find?_cons, hq]

theorem not_mem_ids_of_findPaper_none {db : List Paper} {pid : String}
    (h : findPaper db pid = none) :
    pid ∉ db.map (fun p => p.paper_id) := by
  intro hc
  obtain ⟨p, hp, hpe⟩ := List.mem_map.mp hc
  have h2 := List.find?_eq_none.mp h p hp
  simp at h2
  exact h2 hpe

/-- The manual-processing body always appends the new entity (under a fresh
id), whatever the fetch and extraction outcomes, keeping its id and
title. -/
theorem manualBody_entity (env : Env) (existing_ids : List String)
    (pid title url : String) (st : PState)
    (hnew : findPaper st.db pid = none)
    (hnotin : pid ∉ existing_ids) :
    ∃ q, findPaper (manualBody env false existing_ids pid title
        url st).2.db pid = some q ∧
      q.paper_id = pid ∧ q.title = title := by
  simp only [manualBody]
  split
  · next e hf =>
      exact ⟨_, findPaper_append_self _ _ _ hnew rfl, rfl, rfl⟩
  · next html hf =>
      rw [if_neg (by simp), if_neg hnotin]
      split
      · next m hx =>
          exact ⟨_, findPaper_append_self _ _ _ hnew rfl, rfl, rfl⟩
      · next links hx =>
          exact ⟨_, findPaper_append_self _ _ _ hnew rfl, rfl, rfl⟩

/-- C9: a manual submission of `https://example.com/project` with no title
gets the stable hash-derived id `manual_example_com_` followed by the first
twelve hex digits of the URL's SHA-256 (in particular a `manual_`-prefixed
id), and the created entity carries that id and the title
`Manual Entry: https://example.com/project`. -/
theorem manual_entry_contract (env : Env) (sha : String → String)
    (st : PState)
    (hnew : findPaper st.db
      (generate_id_from_url sha "https://example.com/project") = none) :
    generate_id_from_url sha "https://example.com/project" =
      "manual_example_com_" ++
        (sha "https://example.com/project").take 12 ∧
    (∃ rest, generate_id_from_url sha "https://example.com/project" =
      "manual_" ++ rest) ∧
    ∃ q, findPaper (process_manual_url env sha
          "https://example.com/project" none false st).2.db
        (generate_id_from_url sha "https://example.com/project") = some q ∧
      q.paper_id = generate_id_from_url sha "https://example.com/project" ∧
      q.title = "Manual Entry: https://example.com/project" := by
  have h1 : ("manual_" ++ "example_com" ++ "_" : String) =
      "manual_example_com_" := by decide
  have hid : generate_id_from_url sha "https://example.com/project" =
      "manual_example_com_" ++
        (sha "https://example.com/project").take 12 := by
    calc generate_id_from_url sha "https://example.com/project"
        = "manual_" ++ "example_com" ++ "_" ++
            (sha "https://example.com/project").take 12 := rfl
      _ = "manual_example_com_" ++
            (sha "https://example.com/project").take 12 := by rw [h1]
  refine ⟨hid, ⟨"example_com_" ++
    (sha "https://example.com/project").take 12, ?_⟩, ?_⟩
  · rw [hid, show ("manual_example_com_" : String) =
        "manual_" ++ "example_com_" from by decide, String.append_assoc]
  · have htrim : pyStrip "https://example.com/project" =
        "https://example.com/project" := by decide
    simp only [process_manual_url, htrim]
    rw [if_neg (by decide), if_neg (by decide)]
    simp only [hnew]
    exact manualBody_entity env _ _ _ _ st hnew
      (not_mem_ids_of_findPaper_none hnew)

/-- C9, witness: the contract applied to an empty store with a concrete
hash function; the id evaluates to the expected literal. -/
theorem manual_entry_contract_witness :
    findPaper ([] : List Paper) (generate_id_from_url
      (fun _ => "0123456789abcdef") "https://example.com/project") = none ∧
    generate_id_from_url (fun _ => "0123456789abcdef")
        "https://example.com/project" = "manual_example_com_0123456789ab" ∧
    ∃ q, findPaper (process_manual_url envC9 (fun _ => "0123456789abcdef")
          "https://example.com/project" none false ⟨[], 0, []⟩).2.db
        (generate_id_from_url (fun _ => "0123456789abcdef")
          "https://example.com/project") = some q ∧
      q.paper_id = generate_id_from_url (fun _ => "0123456789abcdef")
        "https://example.com/project" ∧
      q.title = "Manual Entry: https://example.com/project" :=
  ⟨rfl, by decide,
   (manual_entry_contract envC9 (fun _ => "0123456789abcdef")
     ⟨[], 0, []⟩ rfl).2.2⟩

theorem matchLit_self_append : ∀ (l r : List Char),
    matchLit l (l ++ r) = some r := by
  intro l
  induction l with
  | nil => intro r; simp [matchLit]
  | cons c cs ih => intro r; simp [matchLit, ih]

theorem takeWhile_append_stop {α} (f : α → Bool) :
    ∀ (l : List α) (x : α) (r : List α), (∀ c ∈ l, f c = true) →
      f x = false →
      (l ++ x :: r).takeWhile f = l ∧ (l ++ x :: r).dropWhile f = x :: r := by
  intro l
  induction l with
  | nil =>
      intro x r _ hx
      constructor <;> simp [List.takeWhile_cons, List.dropWhile_cons, hx]
  | cons a l ih =>
      intro x r hall hx
      have ha : f a = true := hall a (List.mem_cons_self _ _)
      have hr := ih x r (fun c hc => hall c (List.mem_cons_of_mem _ hc)) hx
      constructor <;>
        simp [List.takeWhile_cons, List.dropWhile_cons, ha, hr.1, hr.2]

theorem takeWhile_all {α} (f : α → Bool) :
    ∀ l : List α, (∀ c ∈ l, f c = true) → l.takeWhile f = l := by
  intro l
  induction l with
  | nil => intro _; rfl
  | cons a l ih =>
      intro hall
      simp [List.takeWhile_cons, hall a (List.mem_cons_self _ _),
        ih (fun c hc => hall c (List.mem_cons_of_mem _ hc))]

/-- The paper-id pattern succeeds right after its literal on a digit run, a
dot, and a second digit run not extended by the remainder. -/
theorem paperIdAt_hit (d1 d2 rest : List Char)
    (hd1 : d1 ≠ []) (hd1d : ∀ c ∈ d1, c.isDigit = true)
    (hd2 : d2 ≠ []) (hd2d : ∀ c ∈ d2, c.isDigit = true)
    (hrest : rest = [] ∨ ∃ c r, rest = c :: r ∧ c.isDigit = false) :
    paperIdAt ("huggingface.co/papers/".data ++ (d1 ++ '.' :: (d2 ++ rest)))
      = some (d1 ++ '.' :: d2) := by
  have hdot : ('.' : Char).isDigit = false := by decide
  have h1 := takeWhile_append_stop Char.isDigit d1 '.' (d2 ++ rest) hd1d hdot
  have hd2tw : (d2 ++ rest).takeWhile Char.isDigit = d2 := by
    rcases hrest with hr | ⟨c, r, hr, hc⟩
    · rw [hr, List.append_nil]
      exact takeWhile_all _ _ hd2d
    · rw [hr]
      exact (takeWhile_append_stop Char.isDigit d2 c r hd2d hc).1
  simp only [paperIdAt, matchLit_self_append, h1.1, h1.2, hd2tw]
  rw [if_neg (by simp [hd1]), if_neg (by simp [hd2])]

theorem searchWith_hit (f : List Char → Option (List Char)) (c : Char)
    (cs g : List Char) (h : f (c :: cs) = some g) :
    searchWith f (c :: cs) = some g := by
  simp [searchWith, h]

/-- C10: a URL carrying `huggingface.co/papers/<digits>.<digits>` resolves
to the bare paper id — with no `manual_` prefix — so a manually submitted
paper-page URL gets the same entity id as the discovered paper; and when
the stored entity under that id has completed link extraction, the manual
submission returns the already-processed result and leaves the state
untouched instead of creating a second entity. -/
theorem paper_url_resolves_to_discovered_entity (env : Env)
    (sha : String → String) (d1 d2 suffix : String) (st : PState)
    (ep : Paper)
    (hd1 : d1.data ≠ []) (hd1d : ∀ c ∈ d1.data, c.isDigit = true)
    (hd2 : d2.data ≠ []) (hd2d : ∀ c ∈ d2.data, c.isDigit = true)
    (hsuf : suffix.data = [] ∨ ∃ c r, suffix.data = c :: r ∧
      c.isDigit = false) :
    generate_id_from_url sha
        ("https://huggingface.co/papers/" ++ d1 ++ "." ++ d2 ++ suffix) =
      d1 ++ "." ++ d2 ∧
    (∀ rest, generate_id_from_url sha
        ("https://huggingface.co/papers/" ++ d1 ++ "." ++ d2 ++ suffix) ≠
      "manual_" ++ rest) ∧
    (∀ url0 title0 cr,
      (pyStrip url0).isEmpty = false →
      (pyStartsWith "http://" (pyStrip url0) = true ∨
        pyStartsWith "https://" (pyStrip url0) = true) →
      generate_id_from_url sha (pyStrip url0) = d1 ++ "." ++ d2 →
      findPaper st.db (d1 ++ "." ++ d2) = some ep →
      (ep.steps.get .link_extraction).status = StepStatus.completed →
      process_manual_url env sha url0 title0 cr st =
        (ManualResult.alreadyProcessed (d1 ++ "." ++ d2), st)) := by
  have hsearch : searchWith paperIdAt
      ("https://huggingface.co/papers/" ++ d1 ++ "." ++ d2 ++
        suffix).data = some (d1.data ++ '.' :: d2.data) := by
    have hdata : ("https://huggingface.co/papers/" ++ d1 ++ "." ++ d2 ++
        suffix).data = "https://".data ++
        ("huggingface.co/papers/".data ++
          (d1.data ++ '.' :: (d2.data ++ suffix.data))) := by
      simp only [String.data_append,
        show ("https://huggingface.co/papers/").data =
          "https://".data ++ "huggingface.co/papers/".data from rfl,
        show (".").data = ['.'] from rfl]
      simp [List.append_assoc]
    rw [hdata]
    exact searchWith_hit _ 'h'
      (("uggingface.co/papers/").data ++
        (d1.data ++ '.' :: (d2.data ++ suffix.data))) _
      (paperIdAt_hit d1.data d2.data suffix.data hd1 hd1d hd2 hd2d hsuf)
  have hid : generate_id_from_url sha
      ("https://huggingface.co/papers/" ++ d1 ++ "." ++ d2 ++ suffix) =
      String.mk (d1.data ++ '.' :: d2.data) := by
    simp only [generate_id_from_url, hsearch]
  have hmk : String.mk (d1.data ++ '.' :: d2.data) = d1 ++ "." ++ d2 := by
    rw [show d1.data ++ '.' :: d2.data = (d1.data ++ ['.']) ++ d2.data by
      simp]
    rfl
  have hfull := hid.trans hmk
  refine ⟨hfull, ?_, ?_⟩
  · intro rest heq
    rw [hfull] at heq
    have hdq := congrArg String.data heq
    simp only [String.data_append] at hdq
    cases hd : d1.data with
    | nil => exact hd1 hd
    | cons c cd =>
        rw [hd] at hdq
        rw [show ((c :: cd) ++ (".").data) ++ d2.data =
          c :: ((cd ++ (".").data) ++ d2.data) from rfl] at hdq
        rw [show ("manual_").data ++ rest.data =
          'm' :: (("anual_").data ++ rest.data) from rfl] at hdq
        have hcd : c.isDigit = true := hd1d c (by
          rw [hd]; exact List.mem_cons_self _ _)
        injection hdq with hc1 hc2
        rw [hc1] at hcd
        exact absurd hcd (by decide)
  · intro url0 title0 cr h1 h2 hid0 hfind hdone
    simp only [process_manual_url]
    rw [if_neg (by simp [h1]),
      if_neg (by rcases h2 with h2 | h2 <;> simp [h2]), hid0]
    simp only [hfind]
    rw [if_pos hdone]

/-- C10, witness: the theorem applied to `2307.09288`: the id comes out
bare, and a manual submission of the paper-page URL against a store already
holding the completed entity short-circuits. -/
theorem paper_url_resolves_witness :
    generate_id_from_url (fun _ => "") ("https://huggingface.co/papers/" ++
        "2307" ++ "." ++ "09288" ++ "") = "2307" ++ "." ++ "09288" ∧
    process_manual_url envC10 (fun _ => "")
        "https://huggingface.co/papers/2307.09288" none true
        ⟨[paperC10], 0, []⟩ =
      (ManualResult.alreadyProcessed ("2307" ++ "." ++ "09288"),
       ⟨[paperC10], 0, []⟩) :=
  ⟨(paper_url_resolves_to_discovered_entity envC10 (fun _ => "") "2307"
      "09288" "" ⟨[paperC10], 0, []⟩ paperC10 (by decide) (by decide)
      (by decide) (by decide) (Or.inl rfl)).1,
   (paper_url_resolves_to_discovered_entity envC10 (fun _ => "") "2307"
      "09288" "" ⟨[paperC10], 0, []⟩ paperC10 (by decide) (by decide)
      (by decide) (by decide) (Or.inl rfl)).2.2
     "https://huggingface.co/papers/2307.09288" none true (by decide)
     (Or.inr (by decide)) (by decide) (by decide) rfl⟩

end CheatCode

